import Mathlib

/-!
# TOFU software rasteriser (`src/gl/context.c`): a shallow embedding

The C functions of `context.c` are translated one by one, followed by `grid_new` and
`grid_stride` of `src/modules/grid.c` and the key queries of `src/modules/input.c`.
Conventions:

* a buffer is a `List`; a pointer into a buffer is an integer offset from the
  start of that buffer; reading or writing through an offset that is outside the
  buffer has no result (`none`), so every function that dereferences a pointer
  returns an `Option`;
* `int` values are integers: signed overflow is undefined in C and is not
  modelled; `size_t` values are naturals, and a computation carried out in
  `size_t` wraps modulo `2^64`; the conversion of a wider integer to `int` keeps
  the low 32 bits (`to_int32`);
* a `float` value is the rational it denotes, and every `float` operation
  (`+`, `-`, `*`, `/`, a conversion of an integer to `float`) is the exact operation
  followed by `f32`, the rounding to the nearest binary32 value, ties to the even
  significand, with gradual underflow; every operation is rounded on its own (no fused
  multiply-add, no wider intermediate format); the exponent range is not bounded
  above, so a result beyond `FLT_MAX`, an infinity in C, is outside the model; a
  `float` argument of a function is meant to hold a binary32 value; `cosf`/`sinf` are
  library calls, so the rotated blit takes their two results as arguments;
* a `for` loop whose body does not use its counter is `for_loop body n`; when the
  body reads the counter, the counter is the first component of the loop state;
* the results of the `malloc` calls of `GL_context_initialize` are arguments of its
  embedding, and logging is not modelled.
-/

namespace TOFU

/-! ## Types (declared in `common.h`, `palette.h`, `surface.h`, `context.h`) -/

/-- Modelled from the spec: the compile-time palette capacity (`PALETTE_MAX` in the
spec, `GL_MAX_PALETTE_COLORS` in `context.c`); its `#define` is in a header that is
not among the sources.  256 is the number of values of an 8-bit pixel. -/
def GL_MAX_PALETTE_COLORS : Nat := 256

/-- Modelled from the spec: "Color: 4 unsigned 8-bit channels (R,G,B,A)". -/
structure GL_Color_t where
  r : Nat
  g : Nat
  b : Nat
  a : Nat
deriving DecidableEq, Repr

/-- Modelled from the spec: "Pixel: an unsigned integer index into the active Palette". -/
abbrev GL_Pixel_t := Nat

/-- Modelled from the spec: "Palette: ordered sequence of up to `PALETTE_MAX` Colors
plus a count".  `colors` is the fixed-capacity array, `count` the number in use. -/
structure GL_Palette_t where
  colors : List GL_Color_t
  count : Nat
deriving DecidableEq, Repr

/-- Modelled from the spec: "Point (destination origin): x, y in VRAM coordinates". -/
structure GL_Point_t where
  x : Int
  y : Int
deriving DecidableEq, Repr

/-- Modelled from the spec: "Rectangle (source tile): x, y, width, height". -/
structure GL_Rectangle_t where
  x : Int
  y : Int
  width : Nat
  height : Nat
deriving DecidableEq, Repr

/-- Modelled from the spec: "Surface: width, height, a contiguous buffer of
`width*height` Pixels, and a derived array of row-start references".  A row
reference is the offset of the row in `data`. -/
structure GL_Surface_t where
  width : Nat
  height : Nat
  data : List GL_Pixel_t
  data_rows : List Int
deriving DecidableEq, Repr

/-- The context of `context.c`; `vram_rows[i]` is the offset of row `i` in `vram`. -/
structure GL_Context_t where
  width : Nat
  height : Nat
  stride : Nat
  vram : List GL_Color_t
  vram_rows : List Int
  vram_size : Nat
  palette : GL_Palette_t
  shifting : List GL_Pixel_t
  transparent : List Bool
  background : GL_Pixel_t
deriving DecidableEq, Repr

/-! ## Memory and machine arithmetic -/

/-- `*p` for a pointer at offset `p` of buffer `xs`. -/
def peek {α : Type} (xs : List α) (p : Int) : Option α :=
  if 0 ≤ p then xs[p.toNat]? else none

/-- `*p = v` for a pointer at offset `p` of buffer `xs`. -/
def poke {α : Type} (xs : List α) (p : Int) (v : α) : Option (List α) :=
  if 0 ≤ p ∧ p.toNat < xs.length then some (xs.set p.toNat v) else none

/-- Conversion of an integer to `size_t` (64 bits, wrapping). -/
def to_size_t (z : Int) : Nat := (z % (2 ^ 64 : Int)).toNat

/-- `(int)f` for a float `f`: truncation towards zero. -/
def to_int (q : ℚ) : Int := if 0 ≤ q then ⌊q⌋ else ⌈q⌉

/-- Conversion of a wider integer to `int` (32 bits, two's complement). -/
def to_int32 (z : Int) : Int := (z + 2 ^ 31) % 2 ^ 32 - 2 ^ 31

/-- Position of the leading bit of `n` (0 for `n < 2`), by halving at most `fuel` times. -/
def ilog2_fuel : Nat → Nat → Nat
  | 0, _ => 0
  | fuel + 1, n => if 2 ≤ n then ilog2_fuel fuel (n / 2) + 1 else 0

/-- Position of the leading bit of `n`: `2 ^ ilog2 n ≤ n < 2 ^ (ilog2 n + 1)` for `n ≥ 1`. -/
def ilog2 (n : Nat) : Nat := ilog2_fuel n n

/-- The integer nearest to `q`, the even one of the two when `q` is half-way. -/
def round_even (q : ℚ) : Int :=
  if q - ⌊q⌋ < 1 / 2 then ⌊q⌋
  else if 1 / 2 < q - ⌊q⌋ then ⌊q⌋ + 1
  else if ⌊q⌋ % 2 = 0 then ⌊q⌋ else ⌊q⌋ + 1

/-- Rounding of `q ≥ 0` to binary32.  In units of `2^-149` (the smallest subnormal) the
binary32 values are the integers below `2^24` and, above, the multiples of `2^k` whose
quotient has 24 bits; `k` is read off the leading bit of the integer part of `q`. -/
def f32_mag (q : ℚ) : ℚ :=
  let k := ilog2 (⌊q * 2 ^ 149⌋.toNat) - 23
  (round_even (q * 2 ^ 149 / 2 ^ k) : ℚ) * 2 ^ k / 2 ^ 149

/-- Rounding to the nearest binary32 value, ties to even: the result of a `float`
operation whose exact result is `q`. -/
def f32 (q : ℚ) : ℚ := if 0 ≤ q then f32_mag q else -f32_mag (-q)

/-- `for (size_t i = 0; i < n; ++i) body`; a body that reads `i` carries it in its state. -/
def for_loop {σ : Type} (body : σ → Option σ) : Nat → σ → Option σ
  | 0, s => some s
  | n + 1, s => body s >>= for_loop body n

/-! ## Well-formed values -/

/-- The invariants `GL_context_initialize` establishes, with the ranges of the C types. -/
structure GL_Context_t.WF (c : GL_Context_t) : Prop where
  vram_length : c.vram.length = c.width * c.height
  vram_size_eq : c.vram_size = c.width * c.height
  rows_length : c.vram_rows.length = c.height
  rows_eq : ∀ i : Nat, i < c.height → c.vram_rows[i]? = some ((c.width * i : Nat) : Int)
  width_lt : c.width < 2 ^ 64
  height_lt : c.height < 2 ^ 64
  colors_length : c.palette.colors.length = GL_MAX_PALETTE_COLORS
  shifting_length : c.shifting.length = GL_MAX_PALETTE_COLORS
  transparent_length : c.transparent.length = GL_MAX_PALETTE_COLORS
  shifting_lt : ∀ p ∈ c.shifting, p < GL_MAX_PALETTE_COLORS
  background_lt : c.background < GL_MAX_PALETTE_COLORS

/-- The invariants of a loaded surface: the row table and the range of a pixel. -/
structure GL_Surface_t.WF (s : GL_Surface_t) : Prop where
  data_length : s.data.length = s.width * s.height
  rows_length : s.data_rows.length = s.height
  rows_eq : ∀ i : Nat, i < s.height → s.data_rows[i]? = some ((s.width * i : Nat) : Int)
  width_lt : s.width < 2 ^ 64
  height_lt : s.height < 2 ^ 64
  data_lt : ∀ p ∈ s.data, p < GL_MAX_PALETTE_COLORS

/-- The VRAM cell `(x, y)`, addressed through the row table. -/
def GL_Context_t.cell (c : GL_Context_t) (x y : Int) : Option GL_Color_t :=
  peek c.vram_rows y >>= fun row => peek c.vram (row + x)

/-- The surface pixel `(x, y)`, addressed through the row table. -/
def GL_Surface_t.pixel (s : GL_Surface_t) (x y : Int) : Option GL_Pixel_t :=
  peek s.data_rows y >>= fun row => peek s.data (row + x)

/-! ## `GL_context_clear` -/

/-- Body of the loop of `GL_context_clear`: `*(dst++) = color`. -/
def clear_body (color : GL_Color_t) (s : Int × List GL_Color_t) : Option (Int × List GL_Color_t) :=
  (poke s.2 s.1 color).map fun vram => (s.1 + 1, vram)

/-- `GL_context_clear`, lines 94-101. -/
def GL_context_clear (context : GL_Context_t) : Option GL_Context_t := do
  let color ← context.palette.colors[context.background]?
  let s ← for_loop (clear_body color) context.vram_size (0, context.vram)
  pure { context with vram := s.2 }

/-! ## `GL_context_blit` -/

/-- The statements shared by the inner loops of the blits:
`index = shifting[pixel]; if (transparent[index]) skip; else *dst = colors[index];`. -/
def plot (context : GL_Context_t) (vram : List GL_Color_t) (dst : Int) (pixel : GL_Pixel_t) :
    Option (List GL_Color_t) := do
  let index ← context.shifting[pixel]?
  let skip ← context.transparent[index]?
  if skip then pure vram
  else do
    let color ← context.palette.colors[index]?
    poke vram dst color

/-- Body of the inner loop of `GL_context_blit`, lines 130-140, on `(src, dst, vram)`. -/
def blit_pixel (context : GL_Context_t) (surface : GL_Surface_t)
    (s : Int × Int × List GL_Color_t) : Option (Int × Int × List GL_Color_t) := do
  let pixel ← peek surface.data s.1
  let vram ← plot context s.2.2 s.2.1 pixel
  pure (s.1 + 1, s.2.1 + 1, vram)

/-- Body of the outer loop of `GL_context_blit`, lines 129-143. -/
def blit_row (context : GL_Context_t) (surface : GL_Surface_t) (width src_skip dst_skip : Nat)
    (s : Int × Int × List GL_Color_t) : Option (Int × Int × List GL_Color_t) := do
  let s ← for_loop (blit_pixel context surface) width s
  pure (s.1 + src_skip, s.2.1 + dst_skip, s.2.2)

/-- `GL_context_blit`, lines 113-145. -/
def GL_context_blit (context : GL_Context_t) (surface : GL_Surface_t) (tile : GL_Rectangle_t)
    (position : GL_Point_t) : Option GL_Context_t := do
  let width := tile.width
  let height := tile.height
  let src_skip := to_size_t (surface.width - width)
  let dst_skip := to_size_t (context.width - width)
  let dst ← (peek context.vram_rows position.y).map (· + position.x)
  let src ← (peek surface.data_rows tile.y).map (· + tile.x)
  let s ← for_loop (blit_row context surface width src_skip dst_skip) height (src, dst, context.vram)
  pure { context with vram := s.2.2 }

/-! ## `GL_context_blit_s` -/

/-- Lines 155-156 of `GL_context_blit_s`: `(size_t)(s * (float)n)`, the number of
destination columns (rows) for the scale `s` and the tile width (height) `n`. -/
def blit_s_size (s : ℚ) (n : Nat) : Nat := to_size_t (to_int (f32 (s * f32 (n : ℚ))))

/-- Lines 158-159 of `GL_context_blit_s`: `1.0f / s`.  In `float`, `1.0f / 0` is an
infinity; here it is `0`, and in both cases it is not used, the loop it steps having no
iteration. -/
def blit_s_step (s : ℚ) : ℚ := f32 (1 / s)

/-- Body of the inner loop of `GL_context_blit_s`, lines 171-182, on `(u, dst, vram)`;
`src` is the row pointer of line 167. -/
def blit_s_pixel (context : GL_Context_t) (surface : GL_Surface_t) (src : Int) (du : ℚ)
    (s : ℚ × Int × List GL_Color_t) : Option (ℚ × Int × List GL_Color_t) := do
  let pixel ← peek surface.data (src + to_int s.1)
  let vram ← plot context s.2.2 s.2.1 pixel
  pure (f32 (s.1 + du), s.2.1 + 1, vram)

/-- Body of the outer loop of `GL_context_blit_s`, lines 167-186, on `(v, dst, vram)`. -/
def blit_s_row (context : GL_Context_t) (surface : GL_Surface_t) (tile : GL_Rectangle_t)
    (width skip : Nat) (du dv : ℚ) (s : ℚ × Int × List GL_Color_t) :
    Option (ℚ × Int × List GL_Color_t) := do
  let src ← peek surface.data_rows (to_int s.1)
  let r ← for_loop (blit_s_pixel context surface src du) width
    (f32 (tile.x : ℚ), s.2.1, s.2.2)
  pure (f32 (s.1 + dv), r.2.1 + skip, r.2.2)

/-- `GL_context_blit_s`, lines 149-188. -/
def GL_context_blit_s (context : GL_Context_t) (surface : GL_Surface_t) (tile : GL_Rectangle_t)
    (position : GL_Point_t) (sx sy : ℚ) : Option GL_Context_t := do
  let width := blit_s_size sx tile.width
  let height := blit_s_size sy tile.height
  let du := blit_s_step sx
  let dv := blit_s_step sy
  let skip := to_size_t (context.width - width)
  let dst ← (peek context.vram_rows position.y).map (· + position.x)
  let s ← for_loop (blit_s_row context surface tile width skip du dv) height
    (f32 (tile.y : ℚ), dst, context.vram)
  pure { context with vram := s.2.2 }

/-! ## `GL_context_blit_r` -/

/-- Lines 228-232 of `GL_context_blit_r`: the source coordinate `(sx, sy)` sampled for
the destination offset `(x, y)`; `c` and `s` are `cosf(rotation)` and `sinf(rotation)`. -/
def blit_r_sample (tile : GL_Rectangle_t) (hw hh : Nat) (c s x y : ℚ) : Int × Int :=
  let u := f32 (f32 (f32 (x * c) + f32 (y * s)) + f32 (hw : ℚ))
  let v := f32 (f32 (f32 (y * c) - f32 (x * s)) + f32 (hh : ℚ))
  (to_int (f32 (f32 (tile.x : ℚ) + u)), to_int (f32 (f32 (tile.y : ℚ) + v)))

/-- The test of line 234 of `GL_context_blit_r`.  The sums `tile.x + tile.width` and
`tile.y + tile.height` are computed in `size_t` and converted to `int`. -/
def blit_r_inside (tile : GL_Rectangle_t) (sx sy : Int) : Bool :=
  decide (sx ≥ tile.x ∧ sy ≥ tile.y ∧
    sx < to_int32 (to_size_t (tile.x + tile.width) : Int) ∧
    sy < to_int32 (to_size_t (tile.y + tile.height) : Int))

/-- Body of the inner loop of `GL_context_blit_r`, lines 228-244, on `(x, dst, vram)`. -/
def blit_r_pixel (context : GL_Context_t) (surface : GL_Surface_t) (tile : GL_Rectangle_t)
    (hw hh : Nat) (c s y : ℚ) (st : ℚ × Int × List GL_Color_t) :
    Option (ℚ × Int × List GL_Color_t) := do
  let sample := blit_r_sample tile hw hh c s st.1 y
  let vram ←
    if blit_r_inside tile sample.1 sample.2 then do
      let src ← peek surface.data_rows sample.2
      let pixel ← peek surface.data (src + sample.1)
      plot context st.2.2 st.2.1 pixel
    else pure st.2.2
  pure (f32 (st.1 + 1), st.2.1 + 1, vram)

/-- Body of the outer loop of `GL_context_blit_r`, lines 225-248, on `(y, dst, vram)`. -/
def blit_r_row (context : GL_Context_t) (surface : GL_Surface_t) (tile : GL_Rectangle_t)
    (width hw hh skip : Nat) (c s : ℚ) (st : ℚ × Int × List GL_Color_t) :
    Option (ℚ × Int × List GL_Color_t) := do
  let r ← for_loop (blit_r_pixel context surface tile hw hh c s st.1) width
    (-f32 (hw : ℚ), st.2.1, st.2.2)
  pure (f32 (st.1 + 1), r.2.1 + skip, r.2.2)

/-- `GL_context_blit_r`, lines 190-250, with `c = cosf(rotation)`, `s = sinf(rotation)`. -/
def GL_context_blit_r (context : GL_Context_t) (surface : GL_Surface_t) (tile : GL_Rectangle_t)
    (position : GL_Point_t) (c s : ℚ) : Option GL_Context_t := do
  let width := tile.width
  let height := tile.height
  let hw := width / 2
  let hh := height / 2
  let skip := to_size_t (context.width - width)
  let dst ← (peek context.vram_rows (to_size_t (position.y - hh))).map (· + position.x - hw)
  let st ← for_loop (blit_r_row context surface tile width hw hh skip c s) height
    (-f32 (hh : ℚ), dst, context.vram)
  pure { context with vram := st.2.2 }

/-! ## `GL_context_blit_sr` -/

/-- `GL_context_blit_sr`, lines 255-258: the scale and rotation arguments are not used. -/
def GL_context_blit_sr (context : GL_Context_t) (surface : GL_Surface_t)
    (tile : GL_Rectangle_t) (position : GL_Point_t) (_sx _sy _rotation : ℚ) :
    Option GL_Context_t :=
  GL_context_blit context surface tile position

/-! ## Palette, shifting, transparency, background -/

/-- Modelled from the spec: "Pixel: an unsigned integer index into the active Palette,
range `[0, PALETTE_MAX)`"; the conversion of a wider unsigned value to `GL_Pixel_t`
(whose `typedef` is not among the sources) wraps into that range. -/
def to_pixel (n : Nat) : GL_Pixel_t := n % GL_MAX_PALETTE_COLORS

/-- `GL_context_palette`, lines 260-264: `context->palette = *palette`. -/
def GL_context_palette (context : GL_Context_t) (palette : GL_Palette_t) : GL_Context_t :=
  { context with palette := palette }

/-- Body of the loop of lines 269-271, on `(i, shifting)`: `shifting[i] = i`. -/
def shifting_reset_body (s : Nat × List GL_Pixel_t) : Option (Nat × List GL_Pixel_t) :=
  (poke s.2 (s.1 : Int) (to_pixel s.1)).map fun t => (s.1 + 1, t)

/-- Body of the loop of lines 273-275, on `(i, shifting)`: `shifting[from[i]] = to[i]`. -/
def shifting_patch_body (from_ to_ : List Nat) (s : Nat × List GL_Pixel_t) :
    Option (Nat × List GL_Pixel_t) := do
  let f ← from_[s.1]?
  let t ← to_[s.1]?
  let table ← poke s.2 (f : Int) (to_pixel t)
  pure (s.1 + 1, table)

/-- `GL_context_shifting`, lines 266-277; `from_ = none` is the null pointer. -/
def GL_context_shifting (context : GL_Context_t) (from_ : Option (List Nat)) (to_ : List Nat)
    (count : Nat) : Option GL_Context_t :=
  match from_ with
  | none =>
    (for_loop shifting_reset_body GL_MAX_PALETTE_COLORS (0, context.shifting)).map
      fun s => { context with shifting := s.2 }
  | some from_ =>
    (for_loop (shifting_patch_body from_ to_) count (0, context.shifting)).map
      fun s => { context with shifting := s.2 }

/-- Body of the loop of lines 282-284, on `(i, transparent)`: `transparent[i] = false`. -/
def transparent_reset_body (s : Nat × List Bool) : Option (Nat × List Bool) :=
  (poke s.2 (s.1 : Int) false).map fun t => (s.1 + 1, t)

/-- Body of the loop of lines 287-289, on `(i, transparent)`:
`transparent[indexes[i]] = transparent[i]`. -/
def transparent_patch_body (indexes : List GL_Pixel_t) (transparent : List Bool)
    (s : Nat × List Bool) : Option (Nat × List Bool) := do
  let index ← indexes[s.1]?
  let flag ← transparent[s.1]?
  let table ← poke s.2 (index : Int) flag
  pure (s.1 + 1, table)

/-- `GL_context_transparent`, lines 279-291; `indexes = none` is the null pointer. -/
def GL_context_transparent (context : GL_Context_t) (indexes : Option (List GL_Pixel_t))
    (transparent : List Bool) (count : Nat) : Option GL_Context_t :=
  match indexes with
  | none => do
    let s ← for_loop transparent_reset_body GL_MAX_PALETTE_COLORS (0, context.transparent)
    let table ← poke s.2 0 true
    pure { context with transparent := table }
  | some indexes =>
    (for_loop (transparent_patch_body indexes transparent) count (0, context.transparent)).map
      fun s => { context with transparent := s.2 }

/-- `GL_context_background`, lines 293-300 (the log line is not modelled). -/
def GL_context_background (context : GL_Context_t) (index : GL_Pixel_t) : GL_Context_t :=
  if index ≥ context.palette.count then context
  else { context with background := index }

/-! ## `GL_context_initialize` -/

/-- Modelled from the spec: `GL_palette_greyscale` (in `palette.c`, not among the
sources) makes "a computed grayscale ramp of `PALETTE_MAX` entries (linear interpolation
from black to white across the index range)". -/
def GL_palette_greyscale (count : Nat) : GL_Palette_t :=
  ⟨(List.range GL_MAX_PALETTE_COLORS).map fun i =>
      if i < count then ⟨i * 255 / (count - 1), i * 255 / (count - 1), i * 255 / (count - 1), 255⟩
      else ⟨0, 0, 0, 0⟩,
    count⟩

/-- Body of the loop of lines 49-51, on `(i, vram_rows)`: `vram_rows[i] = vram + width * i`. -/
def initialize_rows_body (width : Nat) (s : Nat × List Int) : Option (Nat × List Int) :=
  (poke s.2 (s.1 : Int) (to_size_t (width * s.1) : Int)).map fun r => (s.1 + 1, r)

/-- Body of the loop of lines 65-68, on `(i, shifting, transparent)`. -/
def initialize_tables_body (s : Nat × List GL_Pixel_t × List Bool) :
    Option (Nat × List GL_Pixel_t × List Bool) := do
  let shifting ← poke s.2.1 (s.1 : Int) (to_pixel s.1)
  let transparent ← poke s.2.2 (s.1 : Int) false
  pure (s.1 + 1, shifting, transparent)

/-- `GL_context_initialize`, lines 35-75.  The results of the two `malloc` calls are
arguments: `none` for `NULL`, otherwise the block, with arbitrary contents.  The result
is the returned `bool` with the value of `*context`; the compound literal of lines 55-62
zeroes the members it does not name, and `sizeof(GL_Color_t)` is 4. -/
def GL_context_initialize (context : GL_Context_t) (width height : Nat)
    (vram : Option (List GL_Color_t)) (vram_rows : Option (List Int)) :
    Option (Bool × GL_Context_t) :=
  match vram with
  | none => some (false, context)
  | some vram =>
    match vram_rows with
    | none => some (false, context)
    | some vram_rows => do
      let rows ← for_loop (initialize_rows_body width) height (0, vram_rows)
      let tables ← for_loop initialize_tables_body GL_MAX_PALETTE_COLORS
        (0, List.replicate GL_MAX_PALETTE_COLORS 0, List.replicate GL_MAX_PALETTE_COLORS false)
      let transparent ← poke tables.2.2 0 true
      pure (true,
        { width := width
          height := height
          stride := to_size_t (width * 4)
          vram := vram
          vram_rows := rows.2
          vram_size := to_size_t (width * height)
          palette := GL_palette_greyscale GL_MAX_PALETTE_COLORS
          shifting := tables.2.1
          transparent := transparent
          background := 0 })

/-! ## Test values -/

def black : GL_Color_t := ⟨0, 0, 0, 255⟩
def white : GL_Color_t := ⟨255, 255, 255, 255⟩

/-- A 4x4 context, palette `[black, white]`, index 0 transparent, identity shifting;
VRAM filled with a colour that is in no palette. -/
def ctx4 : GL_Context_t where
  width := 4
  height := 4
  stride := 16
  vram := List.replicate 16 ⟨1, 2, 3, 4⟩
  vram_rows := [0, 4, 8, 12]
  vram_size := 16
  palette := ⟨[black, white] ++ List.replicate 254 ⟨0, 0, 0, 0⟩, 2⟩
  shifting := List.range 256
  transparent := true :: List.replicate 255 false
  background := 0

/-- The 2x2 surface `[1,0,0,1]`. -/
def surf2 : GL_Surface_t := ⟨2, 2, [1, 0, 0, 1], [0, 2]⟩

/-- The 3x2 surface `[0,1,1; 0,1,1]`, wider than its opaque 2x2 tile at `(1, 0)`. -/
def surf3 : GL_Surface_t := ⟨3, 2, [0, 1, 1, 0, 1, 1], [0, 3]⟩

/-- The 2x2 surface whose four pixels have index 1. -/
def surfB : GL_Surface_t := ⟨2, 2, [1, 1, 1, 1], [0, 2]⟩

/-- A 4x4 surface whose only pixel of index 1 is at `(2, 1)`. -/
def surf4 : GL_Surface_t :=
  ⟨4, 4, [0, 0, 0, 0, 0, 0, 1, 0, 0, 0, 0, 0, 0, 0, 0, 0], [0, 4, 8, 12]⟩

/-- The test context with the transparent index 0 shifted to the opaque index 1. -/
def ctx5 : GL_Context_t := { ctx4 with shifting := 1 :: (List.range 256).tail }

/-- The test context with the indices 0 and 4 transparent. -/
def ctx6 : GL_Context_t :=
  { ctx4 with transparent := true :: false :: false :: false :: true :: List.replicate 251 false }

/-- The context `GL_context_initialize` makes for a 4x4 VRAM block of zeroes. -/
def ctx_init : GL_Context_t where
  width := 4
  height := 4
  stride := 16
  vram := List.replicate 16 ⟨0, 0, 0, 0⟩
  vram_rows := [0, 4, 8, 12]
  vram_size := 16
  palette := GL_palette_greyscale GL_MAX_PALETTE_COLORS
  shifting := List.range 256
  transparent := true :: List.replicate 255 false
  background := 0

def red : GL_Color_t := ⟨255, 0, 0, 255⟩

/-- A palette of two colours, black and white; the entry 5 of its array, beyond its
count, holds red. -/
def pal2 : GL_Palette_t :=
  ⟨black :: white :: ⟨0, 0, 0, 0⟩ :: ⟨0, 0, 0, 0⟩ :: ⟨0, 0, 0, 0⟩ :: red ::
    List.replicate 250 ⟨0, 0, 0, 0⟩, 2⟩

/-- The 1x1 surface whose pixel has index 5. -/
def surf5 : GL_Surface_t := ⟨1, 1, [5], [0]⟩

/-- A surface of one row: `n` pixels of index 0 followed by the pixels `tail`. -/
def surf_row (n : Nat) (tail : List GL_Pixel_t) : GL_Surface_t :=
  ⟨n + tail.length, 1, List.replicate n 0 ++ tail, [0]⟩

/-- The 10x1 surface whose ten pixels have index 1. -/
def surf10 : GL_Surface_t := ⟨10, 1, List.replicate 10 1, [0]⟩

/-- An 8x1 context with the tables of `ctx4`. -/
def ctx8 : GL_Context_t :=
  { ctx4 with
    width := 8, height := 1, stride := 32, vram := List.replicate 8 ⟨1, 2, 3, 4⟩,
    vram_rows := [0], vram_size := 8 }

/-- A 65x1 context with the tables of `ctx4`. -/
def ctx65 : GL_Context_t :=
  { ctx4 with
    width := 65, height := 1, stride := 260, vram := List.replicate 65 ⟨1, 2, 3, 4⟩,
    vram_rows := [0], vram_size := 65 }

/-- The binary32 value nearest to 0.7, the value of the literal `0.7f`. -/
def f32_0_7 : ℚ := 11744051 / 16777216

/-! ## Readouts used in the statements -/

/-- The cell `(X, Y)` of `c'` is the cell of `c` plotted with the surface pixel `(U, V)`
through the shifting table: with `p` the pixel, the write is decided on
`transparent[shifting[p]]` and the colour written is `palette.colors[shifting[p]]`. -/
def plotted_through_shifting (c c' : GL_Context_t) (surface : GL_Surface_t)
    (U V X Y : Int) : Prop :=
  ∃ p index t color old, surface.pixel U V = some p ∧ c.shifting[p]? = some index ∧
    c.transparent[index]? = some t ∧ c.palette.colors[index]? = some color ∧
    c.cell X Y = some old ∧ c'.cell X Y = some (if t then old else color)

/-- `transparent[shifting[surface(x, y)]]`. -/
def transparent_at (c : GL_Context_t) (surface : GL_Surface_t) (x y : Int) : Option Bool :=
  surface.pixel x y >>= fun p => c.shifting[p]? >>= fun index => c.transparent[index]?

/-- `palette.colors[shifting[surface(x, y)]]`. -/
def colour_at (c : GL_Context_t) (surface : GL_Surface_t) (x y : Int) : Option GL_Color_t :=
  surface.pixel x y >>= fun p => c.shifting[p]? >>= fun index => c.palette.colors[index]?

/-- The tile lies inside the surface (and its first row exists). -/
def tile_inside (surface : GL_Surface_t) (tile : GL_Rectangle_t) : Prop :=
  0 ≤ tile.x ∧ 0 ≤ tile.y ∧ tile.y < surface.height ∧
    tile.x + tile.width ≤ surface.width ∧ tile.y + tile.height ≤ surface.height

/-- The box of `w` by `h` cells at `position` lies inside the context (and its first
row exists). -/
def box_inside (c : GL_Context_t) (position : GL_Point_t) (w h : Nat) : Prop :=
  0 ≤ position.x ∧ 0 ≤ position.y ∧ position.y < c.height ∧
    position.x + w ≤ c.width ∧ position.y + h ≤ c.height

instance (surface : GL_Surface_t) (tile : GL_Rectangle_t) :
    Decidable (tile_inside surface tile) := by
  unfold tile_inside
  infer_instance

instance (c : GL_Context_t) (position : GL_Point_t) (w h : Nat) :
    Decidable (box_inside c position w h) := by
  unfold box_inside
  infer_instance

/-- The integer `z` is at most `2^22` in magnitude; the sum of up to four such
integers is at most `2^24`, and is a binary32 value. -/
def within22 (z : Int) : Prop := -(2 ^ 22) ≤ z ∧ z ≤ 2 ^ 22

instance (z : Int) : Decidable (within22 z) := by
  unfold within22
  infer_instance

/-! ## Closed forms used in the proofs -/

/-- What a cell that held `old` holds after the source pixel `pixel` (if any) has
been plotted over it. -/
def shade (c : GL_Context_t) (old : GL_Color_t) : Option GL_Pixel_t → GL_Color_t
  | none => old
  | some p =>
    if c.transparent.getD (c.shifting.getD p 0) false then old
    else c.palette.colors.getD (c.shifting.getD p 0) old

/-- State of a buffer after a run of `t` cells from offset `d` has been plotted with
the pixels `f 0 .. f (t-1)`, cell by cell. -/
def rowAfter (c : GL_Context_t) (f : Nat → Option GL_Pixel_t) (d t : Nat)
    (v0 : List GL_Color_t) (k : Nat) : Option GL_Color_t :=
  if d ≤ k ∧ k < d + t then (v0[k]?).map (fun old => shade c old (f (k - d))) else v0[k]?

/-- State of the cell `(cx, cy)` of a buffer of row pitch `W` after the first `i`
rows of the box at `(px, py)`, `w` cells wide, have been plotted with `f row column`. -/
def boxAfter (c : GL_Context_t) (f : Nat → Nat → Option GL_Pixel_t) (W px py w i : Nat)
    (v0 : List GL_Color_t) (cx cy : Nat) : Option GL_Color_t :=
  if py ≤ cy ∧ cy < py + i ∧ px ≤ cx ∧ cx < px + w then
    (v0[W * cy + cx]?).map (fun old => shade c old (f (cy - py) (cx - px)))
  else v0[W * cy + cx]?

/-- Source pixel of the tile cell `(j, i)` in the linear surface buffer. -/
def tilePixel (surface : GL_Surface_t) (tx ty : Nat) (i j : Nat) : Option GL_Pixel_t :=
  surface.data[surface.width * (ty + i) + tx + j]?

/-- The value of `u` (lines 169 and 182 of `GL_context_blit_s`; `v` likewise, lines 165
and 185) at the start of iteration `j`: `(float)origin` and `j` additions of the step,
each rounded. -/
def blit_s_u (origin : Int) (du : ℚ) : Nat → ℚ
  | 0 => f32 (origin : ℚ)
  | j + 1 => f32 (blit_s_u origin du j + du)

/-- The value of `x` (lines 225 and 243 of `GL_context_blit_r`; `y` likewise, lines 222
and 247) at the start of iteration `j`: `-(float)half` and `j` additions of `1.0f`, each
rounded. -/
def blit_r_x (half : Nat) : Nat → ℚ
  | 0 => -f32 (half : ℚ)
  | j + 1 => f32 (blit_r_x half j + 1)

/-- Source coordinate the scaled blit samples at iteration `k`, the origin being `o`
and the step `d`. -/
def scaled (o : Nat) (d : ℚ) (k : Nat) : Nat := (to_int (blit_s_u (o : Int) d k)).toNat

/-- Source pixel of the scaled blit for the destination cell `(j, i)` of its box. -/
def scaledPixel (surface : GL_Surface_t) (tx ty : Nat) (du dv : ℚ) (i j : Nat) :
    Option GL_Pixel_t :=
  surface.data[surface.width * scaled ty dv i + scaled tx du j]?

/-- Source pixel of the rotated blit for the destination cell `(j, i)` of its box: the
pixel at the sampled coordinate when the test of line 234 passes, none otherwise. -/
def rotatedPixel (surface : GL_Surface_t) (tile : GL_Rectangle_t) (hw hh : Nat) (c s : ℚ)
    (i j : Nat) : Option GL_Pixel_t :=
  if blit_r_inside tile
      (blit_r_sample tile hw hh c s (blit_r_x hw j) (blit_r_x hh i)).1
      (blit_r_sample tile hw hh c s (blit_r_x hw j) (blit_r_x hh i)).2 then
    surface.pixel
      (blit_r_sample tile hw hh c s (blit_r_x hw j) (blit_r_x hh i)).1
      (blit_r_sample tile hw hh c s (blit_r_x hw j) (blit_r_x hh i)).2
  else none

/-- The table after the pairs `(index, value)` have been stored in it, in order. -/
def patch {α : Type} (table : List α) (pairs : List (Nat × α)) : List α :=
  pairs.foldl (fun t p => t.set p.1 p.2) table

/-- The invariants of a palette value: the capacity of its colour array and the bound
on its count. -/
structure GL_Palette_t.WF (p : GL_Palette_t) : Prop where
  colors_length : p.colors.length = GL_MAX_PALETTE_COLORS
  count_le : p.count ≤ GL_MAX_PALETTE_COLORS

/-- Both allocations of `GL_context_initialize` succeeded: the sizes are values of
`size_t`, the byte count of VRAM is one too, and `malloc` returned blocks of the
requested numbers of elements. -/
def allocated (width height : Nat) (vram : List GL_Color_t) (vram_rows : List Int) : Prop :=
  width < 2 ^ 64 ∧ height < 2 ^ 64 ∧ width * height * 4 < 2 ^ 64 ∧
    vram.length = width * height ∧ vram_rows.length = height

instance (width height : Nat) (vram : List GL_Color_t) (vram_rows : List Int) :
    Decidable (allocated width height vram vram_rows) := by
  unfold allocated
  infer_instance

/-- The context states reachable from a successful `GL_context_initialize` by calls of
the operations of `context.c`; `ok c palette` is a side condition on the calls of
`GL_context_palette`. -/
inductive ReachableBy (ok : GL_Context_t → GL_Palette_t → Prop) : GL_Context_t → Prop
  | init (context : GL_Context_t) (width height : Nat) (vram : List GL_Color_t)
      (vram_rows : List Int) (c : GL_Context_t) :
      allocated width height vram vram_rows →
      GL_context_initialize context width height (some vram) (some vram_rows) = some (true, c) →
      ReachableBy ok c
  | palette (c : GL_Context_t) (palette : GL_Palette_t) :
      ReachableBy ok c → palette.WF → ok c palette →
      ReachableBy ok (GL_context_palette c palette)
  | shifting (c c' : GL_Context_t) (from_ : Option (List Nat)) (to_ : List Nat) (count : Nat) :
      ReachableBy ok c → GL_context_shifting c from_ to_ count = some c' → ReachableBy ok c'
  | transparent (c c' : GL_Context_t) (indexes : Option (List GL_Pixel_t))
      (flags : List Bool) (count : Nat) :
      ReachableBy ok c → GL_context_transparent c indexes flags count = some c' →
      ReachableBy ok c'
  | background (c : GL_Context_t) (index : GL_Pixel_t) :
      ReachableBy ok c → index < GL_MAX_PALETTE_COLORS →
      ReachableBy ok (GL_context_background c index)
  | clear (c c' : GL_Context_t) :
      ReachableBy ok c → GL_context_clear c = some c' → ReachableBy ok c'
  | blit (c c' : GL_Context_t) (surface : GL_Surface_t) (tile : GL_Rectangle_t)
      (position : GL_Point_t) :
      ReachableBy ok c → GL_context_blit c surface tile position = some c' →
      ReachableBy ok c'
  | blit_s (c c' : GL_Context_t) (surface : GL_Surface_t) (tile : GL_Rectangle_t)
      (position : GL_Point_t) (sx sy : ℚ) :
      ReachableBy ok c → GL_context_blit_s c surface tile position sx sy = some c' →
      ReachableBy ok c'
  | blit_r (c c' : GL_Context_t) (surface : GL_Surface_t) (tile : GL_Rectangle_t)
      (position : GL_Point_t) (cc ss : ℚ) :
      ReachableBy ok c → GL_context_blit_r c surface tile position cc ss = some c' →
      ReachableBy ok c'
  | blit_sr (c c' : GL_Context_t) (surface : GL_Surface_t) (tile : GL_Rectangle_t)
      (position : GL_Point_t) (sx sy rotation : ℚ) :
      ReachableBy ok c → GL_context_blit_sr c surface tile position sx sy rotation = some c' →
      ReachableBy ok c'

/-- Reachable by any sequence of calls. -/
def Reachable (c : GL_Context_t) : Prop := ReachableBy (fun _ _ => True) c

/-- One call of an operation of `context.c` other than `GL_context_initialize` takes
the context `c` to the context `c'`. -/
inductive Operation (c : GL_Context_t) : GL_Context_t → Prop
  | palette (palette : GL_Palette_t) : Operation c (GL_context_palette c palette)
  | shifting (c' : GL_Context_t) (from_ : Option (List Nat)) (to_ : List Nat) (count : Nat) :
      GL_context_shifting c from_ to_ count = some c' → Operation c c'
  | transparent (c' : GL_Context_t) (indexes : Option (List GL_Pixel_t))
      (flags : List Bool) (count : Nat) :
      GL_context_transparent c indexes flags count = some c' → Operation c c'
  | background (index : GL_Pixel_t) : Operation c (GL_context_background c index)
  | clear (c' : GL_Context_t) : GL_context_clear c = some c' → Operation c c'
  | blit (c' : GL_Context_t) (surface : GL_Surface_t) (tile : GL_Rectangle_t)
      (position : GL_Point_t) :
      GL_context_blit c surface tile position = some c' → Operation c c'
  | blit_s (c' : GL_Context_t) (surface : GL_Surface_t) (tile : GL_Rectangle_t)
      (position : GL_Point_t) (sx sy : ℚ) :
      GL_context_blit_s c surface tile position sx sy = some c' → Operation c c'
  | blit_r (c' : GL_Context_t) (surface : GL_Surface_t) (tile : GL_Rectangle_t)
      (position : GL_Point_t) (cc ss : ℚ) :
      GL_context_blit_r c surface tile position cc ss = some c' → Operation c c'
  | blit_sr (c' : GL_Context_t) (surface : GL_Surface_t) (tile : GL_Rectangle_t)
      (position : GL_Point_t) (sx sy rotation : ℚ) :
      GL_context_blit_sr c surface tile position sx sy rotation = some c' → Operation c c'

/-! ## `modules/grid.c` and `modules/input.c`

The Lua stack is not modelled: the arguments a function converts (`lua_tointeger`,
`lua_tonumber`, `lua_touserdata`, `lua_type`, `lua_gettop`) are the arguments of its
embedding, a table argument is the list of its values in the order `lua_next` yields
them, and the `LUAX_SIGNATURE_*` macros expand to nothing outside `DEBUG` builds. -/

/-- What a Lua C function does at its end: it raises an error (`luaL_error`) or returns
with a value pushed. -/
inductive Lua_Result (α : Type) where
  | raised : Lua_Result α
  | returned (value : α) : Lua_Result α
deriving DecidableEq, Repr

/-- The argument that is a table or a number: `lua_type` is `LUA_TTABLE`, `LUA_TNUMBER`
or something else. -/
inductive Lua_Value where
  | table (values : List ℚ) : Lua_Value
  | number (value : ℚ) : Lua_Value
  | other : Lua_Value
deriving DecidableEq, Repr

/-- A cell of a grid holds a number (`Cell_t` is declared in `udt.h`, which is not among
the sources; the conversion `(Cell_t)lua_tonumber(...)` is taken to keep the number). -/
abbrev Cell_t := ℚ

/-- The members of `Grid_Class_t` that `grid.c` uses (lines 120-126); `data_rows[i]` is
the offset of row `i` in `data`. -/
structure Grid_Class_t where
  width : Nat
  height : Nat
  data : List Cell_t
  data_rows : List Int
  data_size : Nat
deriving DecidableEq, Repr

/-- Body of the loop of lines 90-92 of `grid_new`, on `(i, data_rows)`. -/
def grid_rows_body (width : Nat) (s : Nat × List Int) : Option (Nat × List Int) :=
  (poke s.2 (s.1 : Int) (to_size_t (s.1 * width) : Int)).map fun r => (s.1 + 1, r)

/-- The loop `while (lua_next(L, n)) { ... if (ptr < eod) *(ptr++) = value; ... }` of
lines 98-110 (`grid_new`), 187-199 (`grid_fill`) and 231-243 (`grid_stride`), on
`(ptr, data)`: one iteration for each value of the table. -/
def grid_table_loop (eod : Int) : List ℚ → Int × List Cell_t → Option (Int × List Cell_t)
  | [], st => some st
  | value :: values, st =>
    (if st.1 < eod then (poke st.2 st.1 value).map fun data => (st.1 + 1, data)
      else some st) >>= grid_table_loop eod values

/-- The loop `for (size_t i = 0; (ptr < eod) && (i < amount); ++i) *(ptr++) = value;` of
lines 248-250 of `grid_stride`, on `(ptr, data)`, with `n` the iterations left before `i`
reaches `amount`.  The loops `while (ptr < eod) *(ptr++) = value;` of `grid_new` and
`grid_fill` are this loop with `n` the distance from `ptr` to `eod`. -/
def grid_number_loop (eod : Int) (value : Cell_t) : Nat → Int × List Cell_t →
    Option (Int × List Cell_t)
  | 0, st => some st
  | n + 1, st =>
    if st.1 < eod then
      (poke st.2 st.1 value).bind fun data => grid_number_loop eod value n (st.1 + 1, data)
    else some st

/-- `grid_new`, lines 69-133.  The results of the two `malloc` calls are arguments
(`none` for `NULL`); the data pointer is the offset 0 of the block. -/
def grid_new (width height : Int) (value : Lua_Value) (data : Option (List Cell_t))
    (data_rows : Option (List Int)) : Option (Lua_Result Grid_Class_t) :=
  let width := to_size_t width
  let height := to_size_t height
  let data_size := to_size_t (width * height)
  match data, data_rows with
  | some data, some data_rows => do
    let rows ← for_loop (grid_rows_body width) height (0, data_rows)
    let ptr : Int := 0
    let eod : Int := ptr + data_size
    let filled ←
      match value with
      | Lua_Value.table values => (grid_table_loop eod values (ptr, data)).map (·.2)
      | Lua_Value.number value =>
        (grid_number_loop eod value data_size (ptr, data)).map (·.2)
      | Lua_Value.other => some data
    pure (Lua_Result.returned
      { width := width
        height := height
        data := filled
        data_rows := rows.2
        data_size := data_size })
  | _, _ => some Lua_Result.raised

/-- `grid_stride`, lines 212-254: `self` is `*instance`, and the result is its value
after the call (the function returns no value to Lua). -/
def grid_stride (self : Grid_Class_t) (column row : Int) (value : Lua_Value)
    (amount : Int) : Option Grid_Class_t := do
  let column := to_size_t column
  let row := to_size_t row
  let amount := to_size_t amount
  let ptr ← (peek self.data_rows row).map (· + (column : Int))
  let eod : Int := ptr + (if self.data_size < amount then self.data_size else amount)
  match value with
  | Lua_Value.table values =>
    (grid_table_loop eod values (ptr, self.data)).map fun st => { self with data := st.2 }
  | Lua_Value.number value =>
    (grid_number_loop eod value amount (ptr, self.data)).map
      fun st => { self with data := st.2 }
  | Lua_Value.other => some self

/-- The three flags `input.c` reads of an entry of `keys_state` (the type of the entry
is declared in `display.h`, which is not among the sources). -/
structure Display_Key_State_t where
  down : Bool
  pressed : Bool
  released : Bool
deriving DecidableEq, Repr

/-- `input_is_key_down`, lines 67-80.  `top` is `lua_gettop(L)`, `key` the Lua integer
(64 bits) that `luaL_checkinteger(L, 1)` returns, narrowed to the `int` variable `key`
at line 72, `keys_state` the array `environment->display->keys_state`; the bounds
`Display_Keys_t_First` and `Display_Keys_t_Last` are declared in `display.h`, which is not
among the sources, and are parameters. -/
def input_is_key_down (Display_Keys_t_First Display_Keys_t_Last : Int)
    (keys_state : List Display_Key_State_t) (top key : Int) : Option (Lua_Result Bool) :=
  if top ≠ 1 then some Lua_Result.raised
  else do
    let key := to_int32 key
    let is_down ←
      if key ≥ Display_Keys_t_First ∧ key ≤ Display_Keys_t_Last then
        (peek keys_state key).map (·.down)
      else some false
    pure (Lua_Result.returned is_down)

/-- `input_is_key_up`, lines 82-95; the narrowing is at line 87. -/
def input_is_key_up (Display_Keys_t_First Display_Keys_t_Last : Int)
    (keys_state : List Display_Key_State_t) (top key : Int) : Option (Lua_Result Bool) :=
  if top ≠ 1 then some Lua_Result.raised
  else do
    let key := to_int32 key
    let is_down ←
      if key ≥ Display_Keys_t_First ∧ key ≤ Display_Keys_t_Last then
        (peek keys_state key).map (·.down)
      else some false
    pure (Lua_Result.returned (!is_down))

/-- `input_is_key_pressed`, lines 97-110; the narrowing is at line 102. -/
def input_is_key_pressed (Display_Keys_t_First Display_Keys_t_Last : Int)
    (keys_state : List Display_Key_State_t) (top key : Int) : Option (Lua_Result Bool) :=
  if top ≠ 1 then some Lua_Result.raised
  else do
    let key := to_int32 key
    let is_pressed ←
      if key ≥ Display_Keys_t_First ∧ key ≤ Display_Keys_t_Last then
        (peek keys_state key).map (·.pressed)
      else some false
    pure (Lua_Result.returned is_pressed)

/-- `input_is_key_released`, lines 112-125; the narrowing is at line 117. -/
def input_is_key_released (Display_Keys_t_First Display_Keys_t_Last : Int)
    (keys_state : List Display_Key_State_t) (top key : Int) : Option (Lua_Result Bool) :=
  if top ≠ 1 then some Lua_Result.raised
  else do
    let key := to_int32 key
    let is_released ←
      if key ≥ Display_Keys_t_First ∧ key ≤ Display_Keys_t_Last then
        (peek keys_state key).map (·.released)
      else some false
    pure (Lua_Result.returned is_released)

/-- The 2x2 grid that `grid_new(2, 2, 0)` returns. -/
def grid22 : Grid_Class_t := ⟨2, 2, [0, 0, 0, 0], [0, 2], 4⟩

/-- The grid `grid22` when its four cells are followed in memory by one more cell
(holding 9) that is not a cell of the grid. -/
def grid22_block : Grid_Class_t := ⟨2, 2, [0, 0, 0, 0, 9], [0, 2], 4⟩

/-- Ten keys, the second held down and the third just released. -/
def keys10 : List Display_Key_State_t :=
  [⟨false, false, false⟩, ⟨true, false, false⟩, ⟨false, false, true⟩] ++
    List.replicate 7 ⟨false, false, false⟩

/-! ## The offsets scanned by `GL_context_blit_r` -/

/-- A loop body that also appends, to a log carried beside the state, what `obs` reads in
the state the body starts from. -/
def traced {σ τ : Type} (obs : σ → τ) (body : σ → Option σ) (p : σ × List τ) :
    Option (σ × List τ) :=
  (body p.1).map fun s => (s, p.2 ++ [obs p.1])

/-- Body of the outer loop of `GL_context_blit_r`, lines 225-248, as `blit_r_row`, every
execution of the inner body (lines 228-244) logging the offsets `(x, y)` it starts with. -/
def blit_r_row_scan (context : GL_Context_t) (surface : GL_Surface_t) (tile : GL_Rectangle_t)
    (width hw hh skip : Nat) (c s : ℚ) (p : (ℚ × Int × List GL_Color_t) × List (ℚ × ℚ)) :
    Option ((ℚ × Int × List GL_Color_t) × List (ℚ × ℚ)) := do
  let r ← for_loop
    (traced (fun st => (st.1, p.1.1)) (blit_r_pixel context surface tile hw hh c s p.1.1))
    width ((-f32 (hw : ℚ), p.1.2.1, p.1.2.2), p.2)
  pure ((f32 (p.1.1 + 1), r.1.2.1 + skip, r.1.2.2), r.2)

/-- `GL_context_blit_r`, lines 190-250, returning beside the context the log of the
offsets `(x, y)` of the executions of the inner body, in the order of execution. -/
def GL_context_blit_r_scan (context : GL_Context_t) (surface : GL_Surface_t)
    (tile : GL_Rectangle_t) (position : GL_Point_t) (c s : ℚ) :
    Option (GL_Context_t × List (ℚ × ℚ)) := do
  let width := tile.width
  let height := tile.height
  let hw := width / 2
  let hh := height / 2
  let skip := to_size_t (context.width - width)
  let dst ← (peek context.vram_rows (to_size_t (position.y - hh))).map (· + position.x - hw)
  let st ← for_loop (blit_r_row_scan context surface tile width hw hh skip c s) height
    ((-f32 (hh : ℚ), dst, context.vram), [])
  pure ({ context with vram := st.1.2.2 }, st.2)

/-! ## Memory lemmas -/

theorem peek_natCast {α : Type} (xs : List α) (n : Nat) : peek xs (n : Int) = xs[n]? := by
  simp [peek]

theorem poke_natCast {α : Type} (xs : List α) (n : Nat) (v : α) (h : n < xs.length) :
    poke xs (n : Int) v = some (xs.set n v) := by
  simp [poke, h]

theorem to_size_t_sub (a b : Nat) (hb : b ≤ a) (ha : a < 2 ^ 64) :
    to_size_t ((a : Int) - (b : Int)) = a - b := by
  unfold to_size_t
  have h1 : ((a : Int) - (b : Int)) = ((a - b : Nat) : Int) := by omega
  rw [h1]
  have h2 : (((a - b : Nat) : Int) % (2 ^ 64 : Int)) = ((a - b : Nat) : Int) := by
    apply Int.emod_eq_of_lt <;> omega
  rw [h2]
  simp

/-- Loop rule: an invariant indexed by the number of iterations already made. -/
theorem for_loop_inv {σ : Type} (body : σ → Option σ) :
    ∀ (n : Nat) (Inv : Nat → σ → Prop) (s0 : σ), Inv 0 s0 →
      (∀ t s, t < n → Inv t s → ∃ s', body s = some s' ∧ Inv (t + 1) s') →
      ∃ s', for_loop body n s0 = some s' ∧ Inv n s' := by
  intro n
  induction n with
  | zero =>
    intro Inv s0 h0 _
    exact ⟨s0, rfl, h0⟩
  | succ n ih =>
    intro Inv s0 h0 hstep
    obtain ⟨s1, hb, h1⟩ := hstep 0 s0 (Nat.succ_pos n) h0
    obtain ⟨s2, hl, h2⟩ := ih (fun t s => Inv (t + 1) s) s1 h1
      (fun t s ht hi => hstep (t + 1) s (Nat.succ_lt_succ ht) hi)
    refine ⟨s2, ?_, h2⟩
    simp [for_loop, hb, hl]

set_option maxRecDepth 100000 in
theorem ctx4_WF : ctx4.WF := by
  constructor <;> decide

theorem surf2_WF : surf2.WF := by
  constructor <;> decide

theorem surf3_WF : surf3.WF := by
  constructor <;> decide

theorem surfB_WF : surfB.WF := by
  constructor <;> decide

theorem surf4_WF : surf4.WF := by
  constructor <;> decide

set_option maxRecDepth 100000 in
theorem ctx5_WF : ctx5.WF := by
  constructor <;> decide

set_option maxRecDepth 100000 in
theorem ctx8_WF : ctx8.WF := by
  constructor <;> decide

theorem surf10_WF : surf10.WF := by
  constructor <;> decide

set_option maxRecDepth 100000 in
theorem ctx65_WF : ctx65.WF := by
  constructor <;> decide

theorem surf_row_WF (n : Nat) (tail : List GL_Pixel_t) (hn : n + tail.length < 2 ^ 64)
    (ht : ∀ p ∈ tail, p < GL_MAX_PALETTE_COLORS) : (surf_row n tail).WF := by
  constructor
  · simp [surf_row]
  · rfl
  · intro i hi
    have hi0 : i = 0 := by
      have : i < 1 := hi
      omega
    subst hi0
    rfl
  · exact hn
  · show 1 < 2 ^ 64
    norm_num
  · intro p hp
    simp only [surf_row, List.mem_append, List.mem_replicate] at hp
    rcases hp with ⟨_, rfl⟩ | hp
    · simp [GL_MAX_PALETTE_COLORS]
    · exact ht p hp

/-- The first `n` pixels of `surf_row n tail` have index 0. -/
theorem surf_row_pixel_head (n : Nat) (tail : List GL_Pixel_t) (k : Nat) (hk : k < n) :
    (surf_row n tail).pixel (k : Int) 0 = some 0 := by
  have h0 : (0 : Int) + (k : Int) = ((k : Nat) : Int) := by omega
  simp only [GL_Surface_t.pixel, surf_row, peek, le_refl, if_true, Int.toNat_zero,
    List.getElem?_cons_zero, Option.bind_eq_bind, Option.some_bind, h0, Int.toNat_natCast,
    Int.natCast_nonneg]
  rw [List.getElem?_append_left (by simpa using hk)]
  simp [hk]

/-- The pixels of `surf_row n tail` from column `n` on are those of `tail`. -/
theorem surf_row_pixel_tail (n : Nat) (tail : List GL_Pixel_t) (k : Nat) :
    (surf_row n tail).pixel ((n + k : Nat) : Int) 0 = tail[k]? := by
  have h0 : (0 : Int) + ((n + k : Nat) : Int) = ((n + k : Nat) : Int) := by omega
  simp only [GL_Surface_t.pixel, surf_row, peek, le_refl, if_true, Int.toNat_zero,
    List.getElem?_cons_zero, Option.bind_eq_bind, Option.some_bind, h0, Int.toNat_natCast,
    Int.natCast_nonneg]
  rw [List.getElem?_append_right (by simp)]
  simp

set_option maxRecDepth 100000 in
/-- What the test context writes for a source pixel of index 0 (transparent: the cell
is kept) or 1 (white). -/
theorem ctx4_shade (p index : Nat) (t : Bool) (color old : GL_Color_t) (c : GL_Context_t)
    (hc1 : c.shifting = ctx4.shifting) (hc2 : c.transparent = ctx4.transparent)
    (hc3 : c.palette = ctx4.palette) (hp : p = 0 ∨ p = 1)
    (e2 : c.shifting[p]? = some index) (e3 : c.transparent[index]? = some t)
    (e4 : c.palette.colors[index]? = some color) :
    (if t then old else color) = if p = 0 then old else white := by
  rw [hc1] at e2
  rw [hc2] at e3
  rw [hc3] at e4
  rcases hp with rfl | rfl
  · have h2 : ctx4.shifting[0]? = some 0 := by decide
    rw [h2] at e2
    cases e2
    have h3 : ctx4.transparent[0]? = some true := by decide
    rw [h3] at e3
    cases e3
    simp
  · have h2 : ctx4.shifting[1]? = some 1 := by decide
    rw [h2] at e2
    cases e2
    have h3 : ctx4.transparent[1]? = some false := by decide
    rw [h3] at e3
    cases e3
    have h4 : ctx4.palette.colors[1]? = some white := by decide
    rw [h4] at e4
    cases e4
    simp

/-! ## `GL_context_clear` fills VRAM -/

theorem clear_loop_spec (color : GL_Color_t) (vram : List GL_Color_t) (n : Nat)
    (hn : n ≤ vram.length) :
    ∃ s, for_loop (clear_body color) n (0, vram) = some s ∧
      s.2.length = vram.length ∧
      ∀ k, s.2[k]? = if k < n then some color else vram[k]? := by
  obtain ⟨s, hs, hinv⟩ := for_loop_inv (clear_body color) n
    (fun t s => s.1 = (t : Int) ∧ s.2.length = vram.length ∧
      ∀ k, s.2[k]? = if k < t then some color else vram[k]?)
    (0, vram) ⟨rfl, rfl, fun k => by simp⟩
    (by
      rintro t ⟨d, v⟩ ht ⟨hd, hlen, hv⟩
      simp only at hd hlen hv
      subst hd
      have hlt : t < v.length := by omega
      refine ⟨((t : Int) + 1, v.set t color), ?_, ?_, ?_, ?_⟩
      · simp [clear_body, poke_natCast v t color hlt]
      · simp
      · simpa using hlen
      · intro k
        simp only [List.getElem?_set]
        by_cases hk : t = k
        · subst hk
          simp [hlt]
        · have : (k < t + 1) = (k < t) := by
            apply propext
            omega
          simp [hk, hv k, this])
  exact ⟨s, hs, hinv.2⟩

/-- C3: on a well-formed context `GL_context_clear` returns, every one of the
`width * height` VRAM cells then holds `palette.colors[background]`, and no other
field of the context is changed. -/
theorem GL_context_clear_fills (c : GL_Context_t) (h : c.WF) :
    ∃ c' color, GL_context_clear c = some c' ∧
      c.palette.colors[c.background]? = some color ∧
      c'.vram.length = c.width * c.height ∧
      (∀ k, k < c.width * c.height → c'.vram[k]? = some color) ∧
      c' = { c with vram := c'.vram } := by
  have hb : c.background < c.palette.colors.length := by
    rw [h.colors_length]
    exact h.background_lt
  obtain ⟨s, hs, hlen, hv⟩ := clear_loop_spec (c.palette.colors[c.background]) c.vram c.vram_size
    (by rw [h.vram_size_eq, h.vram_length])
  refine ⟨{ c with vram := s.2 }, c.palette.colors[c.background], ?_, ?_, ?_, ?_, rfl⟩
  · simp [GL_context_clear, List.getElem?_eq_getElem hb, hs]
  · exact List.getElem?_eq_getElem hb
  · simpa [h.vram_length] using hlen
  · intro k hk
    have := hv k
    rw [h.vram_size_eq] at this
    simpa [hk] using this

/-- C3 at the 4x4 test context. -/
theorem GL_context_clear_fills_witness :
    ∃ c' color, GL_context_clear ctx4 = some c' ∧
      ctx4.palette.colors[ctx4.background]? = some color ∧
      c'.vram.length = ctx4.width * ctx4.height ∧
      (∀ k, k < ctx4.width * ctx4.height → c'.vram[k]? = some color) ∧
      c' = { ctx4 with vram := c'.vram } :=
  GL_context_clear_fills ctx4 ctx4_WF

/-! ## Plotting one pixel, one row, one box -/

theorem plot_spec (c : GL_Context_t) (h : c.WF) (vram : List GL_Color_t) (d : Nat)
    (hd : d < vram.length) (p : GL_Pixel_t) (hp : p < GL_MAX_PALETTE_COLORS) :
    ∃ V, plot c vram (d : Int) p = some V ∧ V.length = vram.length ∧
      ∀ k, V[k]? = if k = d then (vram[k]?).map (fun old => shade c old (some p))
        else vram[k]? := by
  have hp1 : p < c.shifting.length := by rw [h.shifting_length]; exact hp
  have hi : c.shifting[p] < GL_MAX_PALETTE_COLORS := h.shifting_lt _ (List.getElem_mem hp1)
  have hi1 : c.shifting[p] < c.transparent.length := by rw [h.transparent_length]; exact hi
  have hi2 : c.shifting[p] < c.palette.colors.length := by rw [h.colors_length]; exact hi
  by_cases ht : c.transparent[c.shifting[p]] = true
  · refine ⟨vram, ?_, rfl, ?_⟩
    · simp [plot, List.getElem?_eq_getElem hp1, List.getElem?_eq_getElem hi1, ht]
    · intro k
      by_cases hk : k = d
      · subst hk
        simp [shade, List.getElem?_eq_getElem hp1, List.getElem?_eq_getElem hi1, ht,
          List.getElem?_eq_getElem hd]
      · simp [hk]
  · refine ⟨vram.set d c.palette.colors[c.shifting[p]], ?_, by simp, ?_⟩
    · simp [plot, List.getElem?_eq_getElem hp1, List.getElem?_eq_getElem hi1, ht,
        List.getElem?_eq_getElem hi2, poke_natCast vram d _ hd]
    · intro k
      by_cases hk : k = d
      · subst hk
        simp [shade, List.getElem?_eq_getElem hp1, List.getElem?_eq_getElem hi1, ht,
          List.getElem?_eq_getElem hi2, List.getElem?_eq_getElem hd,
          List.getElem?_set_eq_of_lt _ hd]
      · have hk' : d ≠ k := fun e => hk e.symm
        simp [hk, List.getElem?_set_ne hk']

/-- One more cell of a run. -/
theorem rowAfter_step (c : GL_Context_t) (f : Nat → Option GL_Pixel_t) (d t : Nat)
    (v0 V V' : List GL_Color_t) (hV : ∀ k, V[k]? = rowAfter c f d t v0 k)
    (hV' : ∀ k, V'[k]? = if k = d + t then (V[k]?).map (fun old => shade c old (f t))
      else V[k]?) :
    ∀ k, V'[k]? = rowAfter c f d (t + 1) v0 k := by
  intro k
  rw [hV' k, hV k]
  unfold rowAfter
  by_cases hk : k = d + t
  · subst hk
    simp
  · have : (d ≤ k ∧ k < d + (t + 1)) = (d ≤ k ∧ k < d + t) := by
      apply propext
      omega
    simp [hk, this]

/-- A cell of row `cy` lies in the run of row `r` exactly when `cy = r` and its
column is in the run. -/
theorem run_iff (W px w r cx cy : Nat) (hcx : cx < W) (hw : px + w ≤ W) :
    (W * r + px ≤ W * cy + cx ∧ W * cy + cx < W * r + px + w) ↔
      (cy = r ∧ px ≤ cx ∧ cx < px + w) := by
  constructor
  · rintro ⟨h1, h2⟩
    have hcy : cy = r := by
      rcases Nat.lt_trichotomy cy r with hlt | heq | hgt
      · exfalso
        have : W * (cy + 1) ≤ W * r := Nat.mul_le_mul_left W hlt
        rw [Nat.mul_add, Nat.mul_one] at this
        omega
      · exact heq
      · exfalso
        have : W * (r + 1) ≤ W * cy := Nat.mul_le_mul_left W hgt
        rw [Nat.mul_add, Nat.mul_one] at this
        omega
    subst hcy
    omega
  · rintro ⟨rfl, h1, h2⟩
    omega

/-- One more row of a box. -/
theorem boxAfter_step (c : GL_Context_t) (f : Nat → Nat → Option GL_Pixel_t)
    (W px py w i : Nat) (hw : px + w ≤ W) (v0 V V' : List GL_Color_t)
    (hV : ∀ cx cy, cx < W → V[W * cy + cx]? = boxAfter c f W px py w i v0 cx cy)
    (hV' : ∀ k, V'[k]? = rowAfter c (f i) (W * (py + i) + px) w V k) :
    ∀ cx cy, cx < W → V'[W * cy + cx]? = boxAfter c f W px py w (i + 1) v0 cx cy := by
  intro cx cy hcx
  rw [hV' (W * cy + cx)]
  unfold rowAfter
  rw [hV cx cy hcx]
  unfold boxAfter
  have hrun := run_iff W px w (py + i) cx cy hcx hw
  by_cases hin : cy = py + i ∧ px ≤ cx ∧ cx < px + w
  · have h1 : W * (py + i) + px ≤ W * cy + cx ∧ W * cy + cx < W * (py + i) + px + w :=
      hrun.mpr hin
    obtain ⟨hcy, hx1, hx2⟩ := hin
    have h2 : ¬ (py ≤ cy ∧ cy < py + i ∧ px ≤ cx ∧ cx < px + w) := by omega
    have h3 : py ≤ cy ∧ cy < py + (i + 1) ∧ px ≤ cx ∧ cx < px + w := by omega
    have h4 : W * cy + cx - (W * (py + i) + px) = cx - px := by
      subst hcy
      omega
    have h5 : cy - py = i := by omega
    rw [if_pos h1, if_neg h2, if_pos h3, h4, h5]
  · have h1 : ¬ (W * (py + i) + px ≤ W * cy + cx ∧ W * cy + cx < W * (py + i) + px + w) :=
      fun hh => hin (hrun.mp hh)
    have h2 : (py ≤ cy ∧ cy < py + (i + 1) ∧ px ≤ cx ∧ cx < px + w) =
        (py ≤ cy ∧ cy < py + i ∧ px ≤ cx ∧ cx < px + w) := by
      apply propext
      omega
    rw [if_neg h1]
    simp only [h2]

/-! ## `GL_context_blit`, cell by cell -/

/-- A row of `w` cells that starts at column `x` of row `r` ends inside a buffer of
`W * H` cells when `x + w ≤ W` and `r < H`. -/
theorem row_end_le (W H x w r : Nat) (hx : x + w ≤ W) (hr : r < H) :
    W * r + x + w ≤ W * H := by
  have : W * (r + 1) ≤ W * H := Nat.mul_le_mul_left W hr
  rw [Nat.mul_add, Nat.mul_one] at this
  omega

theorem blit_pixels_spec (c : GL_Context_t) (h : c.WF) (surface : GL_Surface_t)
    (hs : surface.WF) (w s d : Nat) (vram : List GL_Color_t)
    (hsrc : s + w ≤ surface.data.length) (hdst : d + w ≤ vram.length) :
    ∃ V, for_loop (blit_pixel c surface) w ((s : Int), (d : Int), vram) =
        some (((s + w : Nat) : Int), ((d + w : Nat) : Int), V) ∧
      V.length = vram.length ∧
      ∀ k, V[k]? = rowAfter c (fun t => surface.data[s + t]?) d w vram k := by
  obtain ⟨st, hst, h1, h2, h3, h4⟩ := for_loop_inv (blit_pixel c surface) w
    (fun t st => st.1 = ((s + t : Nat) : Int) ∧ st.2.1 = ((d + t : Nat) : Int) ∧
      st.2.2.length = vram.length ∧
      ∀ k, st.2.2[k]? = rowAfter c (fun t => surface.data[s + t]?) d t vram k)
    ((s : Int), (d : Int), vram)
    ⟨rfl, rfl, rfl, fun k => by
      simp only [rowAfter]
      rw [if_neg (by omega)]⟩
    (by
      rintro t ⟨src, dst, V⟩ ht ⟨e1, e2, e3, e4⟩
      simp only at e1 e2 e3 e4
      subst e1 e2
      have hlt : s + t < surface.data.length := by omega
      have hpx : surface.data[s + t] < GL_MAX_PALETTE_COLORS :=
        hs.data_lt _ (List.getElem_mem hlt)
      obtain ⟨V', hp, hlen, hV'⟩ := plot_spec c h V (d + t) (by omega) _ hpx
      refine ⟨(((s + (t + 1) : Nat) : Int), ((d + (t + 1) : Nat) : Int), V'), ?_, rfl, rfl,
        by simpa [hlen] using e3, ?_⟩
      · simp only [blit_pixel, peek_natCast, List.getElem?_eq_getElem hlt, hp,
          Option.bind_eq_bind, Option.some_bind, Option.pure_def, Option.some.injEq,
          Prod.mk.injEq, and_true]
        constructor <;> push_cast <;> ring
      · apply rowAfter_step c _ d t vram V V' e4
        intro k
        rw [hV' k]
        simp only [List.getElem?_eq_getElem hlt])
  refine ⟨st.2.2, ?_, h3, h4⟩
  rw [hst, ← h1, ← h2]

theorem blit_rows_spec (c : GL_Context_t) (h : c.WF) (surface : GL_Surface_t)
    (hs : surface.WF) (w hgt tx ty px py : Nat)
    (htx : tx + w ≤ surface.width) (hty : ty + hgt ≤ surface.height)
    (hpx : px + w ≤ c.width) (hpy : py + hgt ≤ c.height) :
    ∃ st, for_loop (blit_row c surface w (surface.width - w) (c.width - w)) hgt
        (((surface.width * ty + tx : Nat) : Int), ((c.width * py + px : Nat) : Int), c.vram) =
        some st ∧
      st.2.2.length = c.vram.length ∧
      ∀ cx cy, cx < c.width →
        st.2.2[c.width * cy + cx]? =
          boxAfter c (tilePixel surface tx ty) c.width px py w hgt c.vram cx cy := by
  obtain ⟨st, hst, _, _, h3, h4⟩ := for_loop_inv
    (blit_row c surface w (surface.width - w) (c.width - w)) hgt
    (fun i st => st.1 = ((surface.width * (ty + i) + tx : Nat) : Int) ∧
      st.2.1 = ((c.width * (py + i) + px : Nat) : Int) ∧
      st.2.2.length = c.vram.length ∧
      ∀ cx cy, cx < c.width →
        st.2.2[c.width * cy + cx]? =
          boxAfter c (tilePixel surface tx ty) c.width px py w i c.vram cx cy)
    (((surface.width * ty + tx : Nat) : Int), ((c.width * py + px : Nat) : Int), c.vram)
    ⟨rfl, rfl, rfl, fun cx cy _ => by
      simp only [boxAfter]
      rw [if_neg (by omega)]⟩
    (by
      rintro i ⟨src, dst, V⟩ hi ⟨e1, e2, e3, e4⟩
      simp only at e1 e2 e3 e4
      subst e1 e2
      have hsrc : surface.width * (ty + i) + tx + w ≤ surface.data.length := by
        rw [hs.data_length]
        exact row_end_le _ _ _ _ _ htx (by omega)
      have hdst : c.width * (py + i) + px + w ≤ V.length := by
        rw [e3, h.vram_length]
        exact row_end_le _ _ _ _ _ hpx (by omega)
      obtain ⟨V', hrow, hlen, hV'⟩ := blit_pixels_spec c h surface hs w _ _ V hsrc hdst
      refine ⟨(((surface.width * (ty + (i + 1)) + tx : Nat) : Int),
        ((c.width * (py + (i + 1)) + px : Nat) : Int), V'), ?_, rfl, rfl,
        by simpa [hlen] using e3, ?_⟩
      · simp only [blit_row, hrow, Option.bind_eq_bind, Option.some_bind, Option.pure_def,
          Option.some.injEq, Prod.mk.injEq, and_true]
        constructor
        · have : surface.width * (ty + i) + tx + w + (surface.width - w) =
              surface.width * (ty + (i + 1)) + tx := by
            rw [Nat.mul_add surface.width ty (i + 1), Nat.mul_add surface.width ty i,
              Nat.mul_add surface.width i 1]
            omega
          exact_mod_cast this
        · have : c.width * (py + i) + px + w + (c.width - w) =
              c.width * (py + (i + 1)) + px := by
            rw [Nat.mul_add c.width py (i + 1), Nat.mul_add c.width py i,
              Nat.mul_add c.width i 1]
            omega
          exact_mod_cast this
      · exact boxAfter_step c (tilePixel surface tx ty) c.width px py w i hpx c.vram V V' e4 hV')
  exact ⟨st, hst, h3, h4⟩

theorem cell_natCast (c : GL_Context_t) (h : c.WF) (x y : Nat) (hy : y < c.height) :
    c.cell (x : Int) (y : Int) = c.vram[c.width * y + x]? := by
  simp only [GL_Context_t.cell, peek_natCast, h.rows_eq y hy, Option.bind_eq_bind,
    Option.some_bind]
  rw [← Nat.cast_add, peek_natCast]

theorem pixel_natCast (s : GL_Surface_t) (hs : s.WF) (x y : Nat) (hy : y < s.height) :
    s.pixel (x : Int) (y : Int) = s.data[s.width * y + x]? := by
  simp only [GL_Surface_t.pixel, peek_natCast, hs.rows_eq y hy, Option.bind_eq_bind,
    Option.some_bind]
  rw [← Nat.cast_add, peek_natCast]

theorem shade_some (c : GL_Context_t) (old color : GL_Color_t) (p index : GL_Pixel_t)
    (t : Bool) (h1 : c.shifting[p]? = some index) (h2 : c.transparent[index]? = some t)
    (h3 : c.palette.colors[index]? = some color) :
    shade c old (some p) = if t then old else color := by
  simp [shade, List.getD_eq_getElem?_getD, h1, h2, h3]

/-- The tables of a well-formed context have an entry for every pixel value. -/
theorem tables_total (c : GL_Context_t) (h : c.WF) (p : GL_Pixel_t)
    (hp : p < GL_MAX_PALETTE_COLORS) :
    ∃ index t color, c.shifting[p]? = some index ∧ c.transparent[index]? = some t ∧
      c.palette.colors[index]? = some color := by
  have hp1 : p < c.shifting.length := by rw [h.shifting_length]; exact hp
  have hi : c.shifting[p] < GL_MAX_PALETTE_COLORS := h.shifting_lt _ (List.getElem_mem hp1)
  have hi1 : c.shifting[p] < c.transparent.length := by rw [h.transparent_length]; exact hi
  have hi2 : c.shifting[p] < c.palette.colors.length := by rw [h.colors_length]; exact hi
  exact ⟨_, _, _, List.getElem?_eq_getElem hp1, List.getElem?_eq_getElem hi1,
    List.getElem?_eq_getElem hi2⟩

/-- `GL_context_blit` with natural coordinates, inside both buffers. -/
theorem GL_context_blit_nat (c : GL_Context_t) (h : c.WF) (surface : GL_Surface_t)
    (hs : surface.WF) (w hgt tx ty px py : Nat)
    (htx : tx + w ≤ surface.width) (hty : ty + hgt ≤ surface.height)
    (hty0 : ty < surface.height)
    (hpx : px + w ≤ c.width) (hpy : py + hgt ≤ c.height) (hpy0 : py < c.height) :
    ∃ V, GL_context_blit c surface ⟨tx, ty, w, hgt⟩ ⟨px, py⟩ = some { c with vram := V } ∧
      V.length = c.vram.length ∧
      ∀ cx cy, cx < c.width →
        V[c.width * cy + cx]? =
          boxAfter c (tilePixel surface tx ty) c.width px py w hgt c.vram cx cy := by
  obtain ⟨st, hst, hlen, hV⟩ := blit_rows_spec c h surface hs w hgt tx ty px py htx hty hpx hpy
  refine ⟨st.2.2, ?_, hlen, hV⟩
  have e1 : to_size_t ((surface.width : Int) - (w : Int)) = surface.width - w :=
    to_size_t_sub _ _ (by omega) hs.width_lt
  have e2 : to_size_t ((c.width : Int) - (w : Int)) = c.width - w :=
    to_size_t_sub _ _ (by omega) h.width_lt
  simp only [GL_context_blit, peek_natCast, h.rows_eq py hpy0, hs.rows_eq ty hty0, e1, e2,
    Option.map_some', Option.bind_eq_bind, Option.some_bind, ← Nat.cast_add, hst,
    Option.pure_def]

/-- What `GL_context_blit` does to every cell of VRAM, inside and outside the box. -/
theorem GL_context_blit_cells (c : GL_Context_t) (surface : GL_Surface_t)
    (tile : GL_Rectangle_t) (position : GL_Point_t) (h : c.WF) (hs : surface.WF)
    (ht : tile_inside surface tile) (hb : box_inside c position tile.width tile.height) :
    ∃ V, GL_context_blit c surface tile position = some { c with vram := V } ∧
      V.length = c.vram.length ∧
      (∀ i j : Nat, i < tile.height → j < tile.width →
        ∃ p index t color old, surface.pixel (tile.x + j) (tile.y + i) = some p ∧
          c.shifting[p]? = some index ∧ c.transparent[index]? = some t ∧
          c.palette.colors[index]? = some color ∧
          c.cell (position.x + j) (position.y + i) = some old ∧
          ({ c with vram := V } : GL_Context_t).cell (position.x + j) (position.y + i) =
            some (if t then old else color)) ∧
      (∀ x y : Nat, x < c.width → y < c.height →
        ¬ (position.x ≤ x ∧ (x : Int) < position.x + tile.width ∧
            position.y ≤ y ∧ (y : Int) < position.y + tile.height) →
        ({ c with vram := V } : GL_Context_t).cell x y = c.cell x y) := by
  obtain ⟨tx, ty, w, hgt⟩ := tile
  obtain ⟨px, py⟩ := position
  obtain ⟨h1, h2, h3, h4, h5⟩ := ht
  obtain ⟨b1, b2, b3, b4, b5⟩ := hb
  simp only at h1 h2 h3 h4 h5 b1 b2 b3 b4 b5
  obtain ⟨tx, rfl⟩ := Int.eq_ofNat_of_zero_le h1
  obtain ⟨ty, rfl⟩ := Int.eq_ofNat_of_zero_le h2
  obtain ⟨px, rfl⟩ := Int.eq_ofNat_of_zero_le b1
  obtain ⟨py, rfl⟩ := Int.eq_ofNat_of_zero_le b2
  have htx : tx + w ≤ surface.width := by exact_mod_cast h4
  have hty : ty + hgt ≤ surface.height := by exact_mod_cast h5
  have hty0 : ty < surface.height := by exact_mod_cast h3
  have hpx : px + w ≤ c.width := by exact_mod_cast b4
  have hpy : py + hgt ≤ c.height := by exact_mod_cast b5
  have hpy0 : py < c.height := by exact_mod_cast b3
  obtain ⟨V, hV, hlen, hcells⟩ :=
    GL_context_blit_nat c h surface hs w hgt tx ty px py htx hty hty0 hpx hpy hpy0
  have h' : ({ c with vram := V } : GL_Context_t).WF :=
    { h with vram_length := by rw [← h.vram_length, ← hlen] }
  refine ⟨V, hV, hlen, ?_, ?_⟩
  · intro i j hi hj
    simp only at hi hj ⊢
    have hsrc : surface.width * (ty + i) + tx + j < surface.data.length := by
      have := row_end_le surface.width surface.height tx w (ty + i) htx (by omega)
      rw [hs.data_length]
      omega
    have hdst : c.width * (py + i) + (px + j) < c.vram.length := by
      have := row_end_le c.width c.height px w (py + i) hpx (by omega)
      rw [h.vram_length]
      omega
    obtain ⟨index, t, color, t1, t2, t3⟩ :=
      tables_total c h _ (hs.data_lt _ (List.getElem_mem hsrc))
    refine ⟨_, index, t, color, c.vram[c.width * (py + i) + (px + j)], ?_, t1, t2, t3, ?_, ?_⟩
    · rw [← Nat.cast_add, ← Nat.cast_add, pixel_natCast surface hs _ _ (by omega),
        ← Nat.add_assoc]
      exact List.getElem?_eq_getElem hsrc
    · rw [← Nat.cast_add, ← Nat.cast_add, cell_natCast c h _ _ (by omega)]
      exact List.getElem?_eq_getElem hdst
    · rw [← Nat.cast_add, ← Nat.cast_add, cell_natCast _ h' _ _ (by simp only; omega)]
      simp only
      rw [hcells _ _ (by omega)]
      unfold boxAfter
      rw [if_pos (by omega)]
      have e1 : py + i - py = i := by omega
      have e2 : px + j - px = j := by omega
      rw [e1, e2, List.getElem?_eq_getElem hdst]
      simp only [Option.map_some', tilePixel, List.getElem?_eq_getElem hsrc]
      rw [shade_some c _ color _ index t t1 t2 t3]
  · intro x y hx hy hn
    simp only at hn
    rw [cell_natCast _ h' _ _ (by simpa using hy), cell_natCast c h _ _ hy]
    simp only
    rw [hcells _ _ hx]
    unfold boxAfter
    rw [if_neg]
    intro hh
    apply hn
    simp only [Nat.cast_le]
    refine ⟨hh.2.2.1, ?_, hh.1, ?_⟩
    · exact_mod_cast hh.2.2.2
    · exact_mod_cast hh.2.1

/-! ## Claims on `GL_context_blit` -/

/-- C1: for a well-formed context and surface, a tile inside the surface and a
destination box inside the context, if `transparent[shifting[p]]` is false for every
source pixel `p` of the tile, then `GL_context_blit` returns and every destination cell
`(position.x + j, position.y + i)` holds `palette.colors[shifting[surface(tile.x + j,
tile.y + i)]]`. -/
theorem GL_context_blit_opaque (c : GL_Context_t) (surface : GL_Surface_t)
    (tile : GL_Rectangle_t) (position : GL_Point_t) (h : c.WF) (hs : surface.WF)
    (ht : tile_inside surface tile) (hb : box_inside c position tile.width tile.height)
    (hop : ∀ i : Nat, i < tile.height → ∀ j : Nat, j < tile.width →
      transparent_at c surface (tile.x + j) (tile.y + i) = some false) :
    ∃ c', GL_context_blit c surface tile position = some c' ∧
      c'.palette = c.palette ∧ c'.shifting = c.shifting ∧
      ∀ i : Nat, i < tile.height → ∀ j : Nat, j < tile.width →
        ∃ color, colour_at c surface (tile.x + j) (tile.y + i) = some color ∧
          c'.cell (position.x + j) (position.y + i) = some color := by
  obtain ⟨V, hV, _, hin, _⟩ := GL_context_blit_cells c surface tile position h hs ht hb
  refine ⟨_, hV, rfl, rfl, ?_⟩
  intro i hi j hj
  obtain ⟨p, index, t, color, old, e1, e2, e3, e4, _, e6⟩ := hin i j hi hj
  have hf := hop i hi j hj
  simp only [transparent_at, e1, e2, e3, Option.bind_eq_bind, Option.some_bind,
    Option.some.injEq] at hf
  subst hf
  refine ⟨color, ?_, ?_⟩
  · simp only [colour_at, e1, e2, e4, Option.bind_eq_bind, Option.some_bind]
  · simpa using e6

set_option maxRecDepth 100000 in
/-- C1 at the opaque 2x2 tile of the 3x2 test surface, drawn at `(1, 2)`. -/
theorem GL_context_blit_opaque_witness :
    ∃ c', GL_context_blit ctx4 surf3 ⟨1, 0, 2, 2⟩ ⟨1, 2⟩ = some c' ∧
      c'.palette = ctx4.palette ∧ c'.shifting = ctx4.shifting ∧
      ∀ i : Nat, i < 2 → ∀ j : Nat, j < 2 →
        ∃ color, colour_at ctx4 surf3 ((1 : Int) + j) ((0 : Int) + i) = some color ∧
          c'.cell ((1 : Int) + j) ((2 : Int) + i) = some color :=
  GL_context_blit_opaque ctx4 surf3 ⟨1, 0, 2, 2⟩ ⟨1, 2⟩ ctx4_WF surf3_WF
    (by decide) (by decide) (by decide)

/-- C2: for an in-bounds `GL_context_blit`, a cell of the box whose source index after
shifting is marked transparent keeps the colour it had, and a cell whose index after
shifting is opaque is written, at its own position, with the palette colour of that
index. -/
theorem GL_context_blit_transparent (c : GL_Context_t) (surface : GL_Surface_t)
    (tile : GL_Rectangle_t) (position : GL_Point_t) (h : c.WF) (hs : surface.WF)
    (ht : tile_inside surface tile) (hb : box_inside c position tile.width tile.height) :
    ∃ c', GL_context_blit c surface tile position = some c' ∧
      ∀ i : Nat, i < tile.height → ∀ j : Nat, j < tile.width →
        ∃ t old color, transparent_at c surface (tile.x + j) (tile.y + i) = some t ∧
          c.cell (position.x + j) (position.y + i) = some old ∧
          colour_at c surface (tile.x + j) (tile.y + i) = some color ∧
          (t = true → c'.cell (position.x + j) (position.y + i) = some old) ∧
          (t = false → c'.cell (position.x + j) (position.y + i) = some color) := by
  obtain ⟨V, hV, _, hin, _⟩ := GL_context_blit_cells c surface tile position h hs ht hb
  refine ⟨_, hV, ?_⟩
  intro i hi j hj
  obtain ⟨p, index, t, color, old, e1, e2, e3, e4, e5, e6⟩ := hin i j hi hj
  refine ⟨t, old, color, ?_, e5, ?_, ?_, ?_⟩
  · simp only [transparent_at, e1, e2, e3, Option.bind_eq_bind, Option.some_bind]
  · simp only [colour_at, e1, e2, e4, Option.bind_eq_bind, Option.some_bind]
  · intro ht'
    simpa [ht'] using e6
  · intro ht'
    simpa [ht'] using e6

set_option maxRecDepth 100000 in
/-- C2 at the scenario of the spec: context 4x4, palette `[black, white]`, index 0
transparent, identity shifting, surface 2x2 `[1,0,0,1]` drawn at `(0, 0)`: the top-left
block is `[white, unchanged, unchanged, white]`. -/
theorem GL_context_blit_transparent_witness :
    (∃ c', GL_context_blit ctx4 surf2 ⟨0, 0, 2, 2⟩ ⟨0, 0⟩ = some c' ∧
      ∀ i : Nat, i < 2 → ∀ j : Nat, j < 2 →
        ∃ t old color, transparent_at ctx4 surf2 ((0 : Int) + j) ((0 : Int) + i) = some t ∧
          ctx4.cell ((0 : Int) + j) ((0 : Int) + i) = some old ∧
          colour_at ctx4 surf2 ((0 : Int) + j) ((0 : Int) + i) = some color ∧
          (t = true → c'.cell ((0 : Int) + j) ((0 : Int) + i) = some old) ∧
          (t = false → c'.cell ((0 : Int) + j) ((0 : Int) + i) = some color)) ∧
    (GL_context_blit ctx4 surf2 ⟨0, 0, 2, 2⟩ ⟨0, 0⟩).map
        (fun c' => [c'.cell 0 0, c'.cell 1 0, c'.cell 0 1, c'.cell 1 1]) =
      some [some white, ctx4.cell 1 0, ctx4.cell 0 1, some white] :=
  ⟨GL_context_blit_transparent ctx4 surf2 ⟨0, 0, 2, 2⟩ ⟨0, 0⟩ ctx4_WF surf2_WF
    (by decide) (by decide), by decide⟩

/-- C4: for an in-bounds `GL_context_blit` of a tile of `w` by `h` cells at `(px, py)`,
the buffer keeps its size and every VRAM cell outside the rectangle
`[px, px + w) x [py, py + h)` is unchanged, whatever the widths of the context and of
the surface. -/
theorem GL_context_blit_frame (c : GL_Context_t) (surface : GL_Surface_t)
    (tile : GL_Rectangle_t) (position : GL_Point_t) (h : c.WF) (hs : surface.WF)
    (ht : tile_inside surface tile) (hb : box_inside c position tile.width tile.height) :
    ∃ c', GL_context_blit c surface tile position = some c' ∧
      c'.vram.length = c.vram.length ∧
      ∀ x y : Nat, x < c.width → y < c.height →
        ¬ (position.x ≤ x ∧ (x : Int) < position.x + tile.width ∧
            position.y ≤ y ∧ (y : Int) < position.y + tile.height) →
        c'.cell x y = c.cell x y := by
  obtain ⟨V, hV, hlen, _, hout⟩ := GL_context_blit_cells c surface tile position h hs ht hb
  exact ⟨_, hV, hlen, hout⟩

set_option maxRecDepth 100000 in
/-- C4 at a 2x2 tile of the 3x2 test surface, drawn at `(1, 2)` of the 4x4 context. -/
theorem GL_context_blit_frame_witness :
    ∃ c', GL_context_blit ctx4 surf3 ⟨1, 0, 2, 2⟩ ⟨1, 2⟩ = some c' ∧
      c'.vram.length = ctx4.vram.length ∧
      ∀ x y : Nat, x < ctx4.width → y < ctx4.height →
        ¬ ((1 : Int) ≤ x ∧ (x : Int) < (1 : Int) + (2 : Nat) ∧
            (2 : Int) ≤ y ∧ (y : Int) < (2 : Int) + (2 : Nat)) →
        c'.cell x y = ctx4.cell x y :=
  GL_context_blit_frame ctx4 surf3 ⟨1, 0, 2, 2⟩ ⟨1, 2⟩ ctx4_WF surf3_WF
    (by decide) (by decide)


/-! ## `GL_context_blit_s`, cell by cell -/

theorem to_int_nonneg (q : ℚ) (h : 0 ≤ q) : to_int q = (((to_int q).toNat : Nat) : Int) := by
  have : 0 ≤ to_int q := by
    unfold to_int
    rw [if_pos h]
    exact Int.floor_nonneg.mpr h
  omega

theorem to_int_intCast (z : Int) : to_int (z : ℚ) = z := by
  unfold to_int
  split <;> simp

theorem to_size_t_natCast (n : Nat) (h : n < 2 ^ 64) : to_size_t (n : Int) = n := by
  have := to_size_t_sub n 0 (Nat.zero_le n) h
  simpa using this

/-! ### Binary32 rounding -/

theorem ilog2_fuel_spec : ∀ (fuel n : Nat), n ≤ fuel → 1 ≤ n →
    2 ^ ilog2_fuel fuel n ≤ n ∧ n < 2 ^ (ilog2_fuel fuel n + 1) := by
  intro fuel
  induction fuel with
  | zero => intro n h1 h2; omega
  | succ fuel ih =>
    intro n h1 h2
    unfold ilog2_fuel
    split
    · rename_i h3
      obtain ⟨a, b⟩ := ih (n / 2) (by omega) (by omega)
      constructor
      · rw [pow_succ]
        omega
      · rw [pow_succ]
        omega
    · simp
      omega

theorem ilog2_lt (n k : Nat) (h : n < 2 ^ k) : ilog2 n < k ∨ n = 0 := by
  rcases Nat.eq_zero_or_pos n with h0 | h0
  · exact Or.inr h0
  · left
    obtain ⟨a, _⟩ := ilog2_fuel_spec n n (le_refl _) h0
    have : 2 ^ ilog2 n < 2 ^ k := lt_of_le_of_lt a h
    exact (Nat.pow_lt_pow_iff_right (by norm_num)).mp this

theorem round_even_intCast (z : Int) : round_even (z : ℚ) = z := by
  unfold round_even
  simp

theorem round_even_nonneg (q : ℚ) (h : 0 ≤ q) : 0 ≤ round_even q := by
  have : 0 ≤ ⌊q⌋ := Int.floor_nonneg.mpr h
  unfold round_even
  split
  · exact this
  · split
    · omega
    · split <;> omega

/-- A number with a significand of 24 bits and an exponent of at least `-149` is a
binary32 value: rounding keeps it. -/
theorem f32_mag_exact (m s : Nat) (hm : m < 2 ^ 24) :
    f32_mag (((m * 2 ^ s : Nat) : ℚ) / 2 ^ 149) = ((m * 2 ^ s : Nat) : ℚ) / 2 ^ 149 := by
  unfold f32_mag
  have e1 : ((m * 2 ^ s : Nat) : ℚ) / 2 ^ 149 * 2 ^ 149 = ((m * 2 ^ s : Nat) : ℚ) := by
    field_simp
  rw [e1]
  have e2 : ⌊((m * 2 ^ s : Nat) : ℚ)⌋.toNat = m * 2 ^ s := by
    rw [Int.floor_natCast]
    exact Int.toNat_natCast _
  rw [e2]
  dsimp only
  have hk : ilog2 (m * 2 ^ s) - 23 ≤ s := by
    have hlt : m * 2 ^ s < 2 ^ (24 + s) := by
      rw [pow_add]
      exact Nat.mul_lt_mul_of_lt_of_le hm (le_refl _) (by positivity)
    rcases ilog2_lt _ _ hlt with h | h
    · omega
    · rw [h]
      have : ilog2 0 = 0 := by decide
      omega
  obtain ⟨d, hd⟩ : ∃ d, s = (ilog2 (m * 2 ^ s) - 23) + d :=
    ⟨s - (ilog2 (m * 2 ^ s) - 23), by omega⟩
  generalize ilog2 (m * 2 ^ s) - 23 = k at hk hd ⊢
  have e3 : ((m * 2 ^ s : Nat) : ℚ) / 2 ^ k = ((m * 2 ^ d : Nat) : Int) := by
    rw [hd, pow_add]
    push_cast
    field_simp
    ring
  rw [e3, round_even_intCast, hd, pow_add]
  push_cast
  ring

theorem f32_nonneg (q : ℚ) (h : 0 ≤ q) : 0 ≤ f32 q := by
  unfold f32
  rw [if_pos h]
  unfold f32_mag
  have h1 : (0 : ℚ) ≤ q * 2 ^ 149 / 2 ^ (ilog2 (⌊q * 2 ^ 149⌋.toNat) - 23) := by positivity
  have h2 := round_even_nonneg _ h1
  have h3 : (0 : ℚ) ≤
      (round_even (q * 2 ^ 149 / 2 ^ (ilog2 (⌊q * 2 ^ 149⌋.toNat) - 23)) : ℚ) := by
    exact_mod_cast h2
  positivity

theorem f32_zero : f32 0 = 0 := by decide!

theorem f32_one : f32 1 = 1 := by decide!

theorem f32_neg (q : ℚ) : f32 (-q) = -f32 q := by
  rcases lt_trichotomy q 0 with h | h | h
  · unfold f32
    rw [if_pos (by linarith), if_neg (by linarith)]
    simp
  · subst h
    simp [f32_zero]
  · unfold f32
    rw [if_neg (by linarith), if_pos (by linarith)]
    simp

/-- The integers up to `2^24` are binary32 values. -/
theorem f32_natCast (n : Nat) (h : n ≤ 2 ^ 24) : f32 (n : ℚ) = n := by
  unfold f32
  rw [if_pos (by positivity)]
  rcases Nat.lt_or_ge n (2 ^ 24) with h1 | h1
  · have := f32_mag_exact n 149 h1
    have e : ((n * 2 ^ 149 : Nat) : ℚ) / 2 ^ 149 = (n : ℚ) := by
      rw [Nat.cast_mul, Nat.cast_pow, Nat.cast_ofNat, mul_div_assoc,
        div_self (by positivity), mul_one]
    rw [e] at this
    exact this
  · have hn : n = 2 ^ 24 := by omega
    subst hn
    decide!

theorem f32_intCast (z : Int) (h1 : -(2 ^ 24) ≤ z) (h2 : z ≤ 2 ^ 24) : f32 (z : ℚ) = z := by
  rcases Int.lt_or_le z 0 with h | h
  · obtain ⟨n, hn⟩ := Int.eq_ofNat_of_zero_le (show 0 ≤ -z by omega)
    have : z = -(n : Int) := by omega
    subst this
    push_cast
    rw [f32_neg, f32_natCast n (by omega)]
  · obtain ⟨n, rfl⟩ := Int.eq_ofNat_of_zero_le h
    simpa using f32_natCast n (by omega)

theorem to_int32_eq (z : Int) (h1 : -(2 ^ 31) ≤ z) (h2 : z < 2 ^ 31) : to_int32 z = z := by
  unfold to_int32
  omega

theorem to_int32_le (z : Int) (h : 0 ≤ z) : to_int32 z ≤ z := by
  unfold to_int32
  omega

theorem blit_s_u_nonneg (o : Nat) (d : ℚ) (hd : 0 ≤ d) (k : Nat) :
    0 ≤ blit_s_u (o : Int) d k := by
  induction k with
  | zero =>
    simp only [blit_s_u]
    exact f32_nonneg _ (by positivity)
  | succ k ih =>
    simp only [blit_s_u]
    exact f32_nonneg _ (add_nonneg ih hd)

theorem blit_s_pixels_spec (c : GL_Context_t) (h : c.WF) (surface : GL_Surface_t)
    (hs : surface.WF) (w r tx d : Nat) (du : ℚ) (hdu : 0 ≤ du) (vram : List GL_Color_t)
    (hsrc : ∀ j, j < w → r + scaled tx du j < surface.data.length)
    (hdst : d + w ≤ vram.length) :
    ∃ V, for_loop (blit_s_pixel c surface (r : Int) du) w
        (f32 ((tx : Int) : ℚ), (d : Int), vram) =
          some (blit_s_u (tx : Int) du w, ((d + w : Nat) : Int), V) ∧
      V.length = vram.length ∧
      ∀ k, V[k]? = rowAfter c (fun j => surface.data[r + scaled tx du j]?) d w vram k := by
  obtain ⟨st, hst, h1, h2, h3, h4⟩ := for_loop_inv (blit_s_pixel c surface (r : Int) du) w
    (fun t st => st.1 = blit_s_u (tx : Int) du t ∧ st.2.1 = ((d + t : Nat) : Int) ∧
      st.2.2.length = vram.length ∧
      ∀ k, st.2.2[k]? = rowAfter c (fun j => surface.data[r + scaled tx du j]?) d t vram k)
    (f32 ((tx : Int) : ℚ), (d : Int), vram)
    ⟨rfl, rfl, rfl, fun k => by
      simp only [rowAfter]
      rw [if_neg (by omega)]⟩
    (by
      rintro t ⟨u, dst, V⟩ ht ⟨e1, e2, e3, e4⟩
      simp only at e1 e2 e3 e4
      subst e1 e2
      have hlt : r + scaled tx du t < surface.data.length := hsrc t ht
      have hpx : surface.data[r + scaled tx du t] < GL_MAX_PALETTE_COLORS :=
        hs.data_lt _ (List.getElem_mem hlt)
      obtain ⟨V', hp, hlen, hV'⟩ := plot_spec c h V (d + t) (by omega) _ hpx
      have hq : 0 ≤ blit_s_u (tx : Int) du t := blit_s_u_nonneg tx du hdu t
      have hoff : (r : Int) + to_int (blit_s_u (tx : Int) du t) =
          ((r + scaled tx du t : Nat) : Int) := by
        rw [to_int_nonneg _ hq]
        simp [scaled]
      refine ⟨(blit_s_u (tx : Int) du (t + 1), ((d + (t + 1) : Nat) : Int), V'), ?_,
        rfl, rfl, by simpa [hlen] using e3, ?_⟩
      · simp only [blit_s_pixel, hoff, peek_natCast, List.getElem?_eq_getElem hlt, hp,
          Option.bind_eq_bind, Option.some_bind, Option.pure_def, Option.some.injEq,
          Prod.mk.injEq, and_true, blit_s_u, true_and]
        push_cast
        ring
      · apply rowAfter_step c _ d t vram V V' e4
        intro k
        rw [hV' k]
        simp only [List.getElem?_eq_getElem hlt])
  refine ⟨st.2.2, ?_, h3, h4⟩
  rw [hst, ← h1, ← h2]

theorem blit_s_rows_spec (c : GL_Context_t) (h : c.WF) (surface : GL_Surface_t)
    (hs : surface.WF) (tile : GL_Rectangle_t) (w hgt tx ty px py : Nat)
    (hx : tile.x = (tx : Int)) (du dv : ℚ) (hdu : 0 ≤ du) (hdv : 0 ≤ dv)
    (hcol : ∀ j, j < w → scaled tx du j < surface.width)
    (hrow : ∀ i, i < hgt → scaled ty dv i < surface.height)
    (hpx : px + w ≤ c.width) (hpy : py + hgt ≤ c.height) :
    ∃ st, for_loop (blit_s_row c surface tile w (c.width - w) du dv) hgt
        (f32 ((ty : Int) : ℚ), ((c.width * py + px : Nat) : Int), c.vram) = some st ∧
      st.2.2.length = c.vram.length ∧
      ∀ cx cy, cx < c.width →
        st.2.2[c.width * cy + cx]? =
          boxAfter c (scaledPixel surface tx ty du dv) c.width px py w hgt c.vram cx cy := by
  obtain ⟨st, hst, _, _, h3, h4⟩ := for_loop_inv
    (blit_s_row c surface tile w (c.width - w) du dv) hgt
    (fun i st => st.1 = blit_s_u (ty : Int) dv i ∧
      st.2.1 = ((c.width * (py + i) + px : Nat) : Int) ∧
      st.2.2.length = c.vram.length ∧
      ∀ cx cy, cx < c.width →
        st.2.2[c.width * cy + cx]? =
          boxAfter c (scaledPixel surface tx ty du dv) c.width px py w i c.vram cx cy)
    (f32 ((ty : Int) : ℚ), ((c.width * py + px : Nat) : Int), c.vram)
    ⟨rfl, rfl, rfl, fun cx cy _ => by
      simp only [boxAfter]
      rw [if_neg (by omega)]⟩
    (by
      rintro i ⟨v, dst, V⟩ hi ⟨e1, e2, e3, e4⟩
      simp only at e1 e2 e3 e4
      subst e1 e2
      have hr : scaled ty dv i < surface.height := hrow i hi
      have hq : 0 ≤ blit_s_u (ty : Int) dv i := blit_s_u_nonneg ty dv hdv i
      have hsrc : ∀ j, j < w →
          surface.width * scaled ty dv i + scaled tx du j < surface.data.length := by
        intro j hj
        have := row_end_le surface.width surface.height (scaled tx du j) 1 (scaled ty dv i)
          (hcol j hj) hr
        rw [hs.data_length]
        omega
      have hdst : c.width * (py + i) + px + w ≤ V.length := by
        rw [e3, h.vram_length]
        exact row_end_le _ _ _ _ _ hpx (by omega)
      obtain ⟨V', hrw, hlen, hV'⟩ :=
        blit_s_pixels_spec c h surface hs w _ tx _ du hdu V hsrc hdst
      have hrows : peek surface.data_rows (to_int (blit_s_u (ty : Int) dv i)) =
          some ((surface.width * scaled ty dv i : Nat) : Int) := by
        rw [to_int_nonneg _ hq, peek_natCast]
        exact hs.rows_eq _ hr
      refine ⟨(blit_s_u (ty : Int) dv (i + 1),
        ((c.width * (py + (i + 1)) + px : Nat) : Int), V'), ?_, rfl, rfl,
        by simpa [hlen] using e3, ?_⟩
      · simp only [blit_s_row, hrows, hx, hrw, Option.bind_eq_bind,
          Option.some_bind, Option.pure_def, Option.some.injEq, Prod.mk.injEq, and_true,
          blit_s_u, true_and]
        have : c.width * (py + i) + px + w + (c.width - w) =
            c.width * (py + (i + 1)) + px := by
          rw [Nat.mul_add c.width py (i + 1), Nat.mul_add c.width py i,
            Nat.mul_add c.width i 1]
          omega
        exact_mod_cast this
      · exact boxAfter_step c (scaledPixel surface tx ty du dv) c.width px py w i hpx c.vram
          V V' e4 hV')
  exact ⟨st, hst, h3, h4⟩

theorem blit_s_step_nonneg (s : ℚ) (h : 0 ≤ s) : 0 ≤ blit_s_step s :=
  f32_nonneg _ (one_div_nonneg.mpr h)

/-- `GL_context_blit_s` with natural coordinates; `dw` by `dh` is the destination box. -/
theorem GL_context_blit_s_nat (c : GL_Context_t) (h : c.WF) (surface : GL_Surface_t)
    (hs : surface.WF) (w hgt tx ty px py dw dh : Nat) (sx sy : ℚ)
    (hsx : 0 ≤ sx) (hsy : 0 ≤ sy)
    (hdw : blit_s_size sx w = dw) (hdh : blit_s_size sy hgt = dh)
    (hcol : ∀ j, j < dw → scaled tx (blit_s_step sx) j < surface.width)
    (hrow : ∀ i, i < dh → scaled ty (blit_s_step sy) i < surface.height)
    (hpx : px + dw ≤ c.width) (hpy : py + dh ≤ c.height) (hpy0 : py < c.height) :
    ∃ V, GL_context_blit_s c surface ⟨tx, ty, w, hgt⟩ ⟨px, py⟩ sx sy =
        some { c with vram := V } ∧
      V.length = c.vram.length ∧
      ∀ cx cy, cx < c.width →
        V[c.width * cy + cx]? =
          boxAfter c (scaledPixel surface tx ty (blit_s_step sx) (blit_s_step sy)) c.width
            px py dw dh c.vram cx cy := by
  obtain ⟨st, hst, hlen, hV⟩ := blit_s_rows_spec c h surface hs ⟨tx, ty, w, hgt⟩ dw dh tx ty
    px py rfl (blit_s_step sx) (blit_s_step sy) (blit_s_step_nonneg sx hsx)
    (blit_s_step_nonneg sy hsy) hcol hrow hpx hpy
  refine ⟨st.2.2, ?_, hlen, hV⟩
  have e2 : to_size_t ((c.width : Int) - (dw : Int)) = c.width - dw :=
    to_size_t_sub _ _ (by omega) h.width_lt
  simp only [GL_context_blit_s, peek_natCast, h.rows_eq py hpy0, hdw, hdh, e2,
    Option.map_some', Option.bind_eq_bind, Option.some_bind, ← Nat.cast_add,
    hst, Option.pure_def]

theorem for_loop_succ {σ : Type} (body : σ → Option σ) (n : Nat) (s : σ) :
    for_loop body (n + 1) s = body s >>= for_loop body n := rfl

theorem for_loop_add {σ : Type} (body : σ → Option σ) :
    ∀ (a b : Nat) (s : σ),
      for_loop body (a + b) s = for_loop body a s >>= for_loop body b := by
  intro a
  induction a with
  | zero =>
    intro b s
    simp [for_loop]
  | succ a ih =>
    intro b s
    rw [Nat.succ_add]
    simp only [for_loop]
    cases body s with
    | none => rfl
    | some s1 => simpa using ih b s1

/-- The scaled blit reads beyond the surface buffer, and has no result, when a sample of
its first row, of index `n` below the number of columns drawn, is at or past the end of
the buffer (the samples before it being inside). -/
theorem GL_context_blit_s_beyond (c : GL_Context_t) (h : c.WF) (surface : GL_Surface_t)
    (hs : surface.WF) (w hgt tx ty px py : Nat) (sx sy : ℚ) (hsx : 0 ≤ sx) (hsy : 0 ≤ sy)
    (n : Nat) (hn : n < blit_s_size sx w) (hh : 0 < blit_s_size sy hgt)
    (hrow : scaled ty (blit_s_step sy) 0 < surface.height)
    (hin : ∀ j, j < n →
      surface.width * scaled ty (blit_s_step sy) 0 + scaled tx (blit_s_step sx) j <
        surface.width * surface.height)
    (hout : surface.width * surface.height ≤
      surface.width * scaled ty (blit_s_step sy) 0 + scaled tx (blit_s_step sx) n)
    (hpx : px + blit_s_size sx w ≤ c.width) (hpy0 : py < c.height) :
    GL_context_blit_s c surface ⟨tx, ty, w, hgt⟩ ⟨px, py⟩ sx sy = none := by
  have hdu := blit_s_step_nonneg sx hsx
  have hdv := blit_s_step_nonneg sy hsy
  obtain ⟨m, hm⟩ : ∃ m, blit_s_size sx w = n + (m + 1) :=
    ⟨blit_s_size sx w - n - 1, by omega⟩
  obtain ⟨H, hH⟩ : ∃ H, blit_s_size sy hgt = H + 1 := ⟨blit_s_size sy hgt - 1, by omega⟩
  have hdst : c.width * py + px + n ≤ c.vram.length := by
    rw [h.vram_length]
    exact row_end_le _ _ _ _ _ (by omega) hpy0
  obtain ⟨V, hrw, _, _⟩ := blit_s_pixels_spec c h surface hs n
    (surface.width * scaled ty (blit_s_step sy) 0) tx (c.width * py + px) (blit_s_step sx)
    hdu c.vram (by rw [hs.data_length]; exact hin) hdst
  have hq : 0 ≤ blit_s_u (ty : Int) (blit_s_step sy) 0 := blit_s_u_nonneg ty _ hdv 0
  have hrows : peek surface.data_rows (to_int (f32 (((ty : Nat) : Int) : ℚ))) =
      some ((surface.width * scaled ty (blit_s_step sy) 0 : Nat) : Int) := by
    have e : to_int (f32 (((ty : Nat) : Int) : ℚ)) =
        ((scaled ty (blit_s_step sy) 0 : Nat) : Int) := by
      show to_int (blit_s_u (ty : Int) (blit_s_step sy) 0) = _
      rw [to_int_nonneg _ hq]
      simp [scaled]
    rw [e, peek_natCast]
    exact hs.rows_eq _ hrow
  have hu : 0 ≤ blit_s_u (tx : Int) (blit_s_step sx) n := blit_s_u_nonneg tx _ hdu n
  have hoff : ((surface.width * scaled ty (blit_s_step sy) 0 : Nat) : Int) +
      to_int (blit_s_u (tx : Int) (blit_s_step sx) n) =
      ((surface.width * scaled ty (blit_s_step sy) 0 + scaled tx (blit_s_step sx) n : Nat) :
        Int) := by
    rw [to_int_nonneg _ hu]
    simp [scaled]
  have hnone : surface.data[surface.width * scaled ty (blit_s_step sy) 0 +
      scaled tx (blit_s_step sx) n]? = none := by
    apply List.getElem?_eq_none
    rw [hs.data_length]
    exact hout
  have e2 : to_size_t ((c.width : Int) - ((n + (m + 1) : Nat) : Int)) =
      c.width - (n + (m + 1)) := to_size_t_sub _ _ (by omega) h.width_lt
  simp only [GL_context_blit_s, peek_natCast, h.rows_eq py hpy0, hm, hH, e2,
    Option.map_some', Option.bind_eq_bind, Option.some_bind, ← Nat.cast_add]
  rw [for_loop_succ]
  simp only [blit_s_row, hrows, Option.bind_eq_bind, Option.some_bind]
  rw [for_loop_add, hrw, Option.bind_eq_bind, Option.some_bind, for_loop_succ]
  simp only [blit_s_pixel, hoff, peek_natCast, hnone, Option.bind_eq_bind,
    Option.none_bind]

theorem box_cells (c : GL_Context_t) (h : c.WF) (V : List GL_Color_t)
    (hlen : V.length = c.vram.length) (f : Nat → Nat → Option GL_Pixel_t)
    (px py w hgt : Nat) (hpx : px + w ≤ c.width) (hpy : py + hgt ≤ c.height)
    (hV : ∀ cx cy, cx < c.width →
      V[c.width * cy + cx]? = boxAfter c f c.width px py w hgt c.vram cx cy) :
    (∀ i j : Nat, i < hgt → j < w →
      ∃ old, c.cell ((px + j : Nat) : Int) ((py + i : Nat) : Int) = some old ∧
        ({ c with vram := V } : GL_Context_t).cell ((px + j : Nat) : Int)
          ((py + i : Nat) : Int) = some (shade c old (f i j))) ∧
    (∀ x y : Nat, x < c.width → y < c.height →
      ¬ (px ≤ x ∧ x < px + w ∧ py ≤ y ∧ y < py + hgt) →
      ({ c with vram := V } : GL_Context_t).cell x y = c.cell x y) := by
  have h' : ({ c with vram := V } : GL_Context_t).WF :=
    { h with vram_length := by rw [← h.vram_length, ← hlen] }
  constructor
  · intro i j hi hj
    have hdst : c.width * (py + i) + (px + j) < c.vram.length := by
      have := row_end_le c.width c.height px w (py + i) hpx (by omega)
      rw [h.vram_length]
      omega
    refine ⟨c.vram[c.width * (py + i) + (px + j)], ?_, ?_⟩
    · rw [cell_natCast c h _ _ (by omega)]
      exact List.getElem?_eq_getElem hdst
    · rw [cell_natCast _ h' _ _ (by simp only; omega)]
      simp only
      rw [hV _ _ (by omega)]
      unfold boxAfter
      rw [if_pos (by omega)]
      have e1 : py + i - py = i := by omega
      have e2 : px + j - px = j := by omega
      rw [e1, e2, List.getElem?_eq_getElem hdst]
      rfl
  · intro x y hx hy hn
    rw [cell_natCast _ h' _ _ (by simpa using hy), cell_natCast c h _ _ hy]
    simp only
    rw [hV _ _ hx]
    unfold boxAfter
    rw [if_neg]
    intro hh
    exact hn ⟨hh.2.2.1, hh.2.2.2, hh.1, hh.2.1⟩

/-- Two buffers with the same closed form, for pixel functions that agree on the box,
are equal. -/
theorem box_unique (c : GL_Context_t) (h : c.WF) (V1 V2 : List GL_Color_t)
    (hlen1 : V1.length = c.vram.length) (hlen2 : V2.length = c.vram.length)
    (f1 f2 : Nat → Nat → Option GL_Pixel_t) (px py w hgt : Nat)
    (hf : ∀ i j, i < hgt → j < w → f1 i j = f2 i j)
    (hV1 : ∀ cx cy, cx < c.width →
      V1[c.width * cy + cx]? = boxAfter c f1 c.width px py w hgt c.vram cx cy)
    (hV2 : ∀ cx cy, cx < c.width →
      V2[c.width * cy + cx]? = boxAfter c f2 c.width px py w hgt c.vram cx cy) :
    V1 = V2 := by
  apply List.ext_getElem?
  intro k
  by_cases hk : k < c.vram.length
  · have hW : 0 < c.width := by
      rcases Nat.eq_zero_or_pos c.width with h0 | h0
      · rw [h.vram_length, h0] at hk
        simp at hk
      · exact h0
    have hkk : c.width * (k / c.width) + k % c.width = k := Nat.div_add_mod k c.width
    have hm : k % c.width < c.width := Nat.mod_lt _ hW
    rw [← hkk, hV1 _ _ hm, hV2 _ _ hm]
    unfold boxAfter
    by_cases hin : py ≤ k / c.width ∧ k / c.width < py + hgt ∧ px ≤ k % c.width ∧
        k % c.width < px + w
    · rw [if_pos hin, if_pos hin, hf _ _ (by omega) (by omega)]
    · rw [if_neg hin, if_neg hin]
  · rw [List.getElem?_eq_none (by omega), List.getElem?_eq_none (by omega)]

theorem to_size_t_le (z : Int) (hz : 0 ≤ z) : to_size_t z ≤ z.toNat := by
  unfold to_size_t
  have h0 : (2 ^ 64 : Int) = 18446744073709551616 := by norm_num
  rw [h0]
  omega

/-- Every source coordinate of the scaled blit stays in `[o, o + w)`. -/
theorem pixel_shade (c : GL_Context_t) (h : c.WF) (surface : GL_Surface_t) (hs : surface.WF)
    (x y : Nat) (hx : x < surface.width) (hy : y < surface.height) :
    ∃ p index t color, surface.pixel (x : Int) (y : Int) = some p ∧
      surface.data[surface.width * y + x]? = some p ∧
      c.shifting[p]? = some index ∧ c.transparent[index]? = some t ∧
      c.palette.colors[index]? = some color ∧
      ∀ old, shade c old (some p) = if t then old else color := by
  have hlt : surface.width * y + x < surface.data.length := by
    have := row_end_le surface.width surface.height x 1 y hx hy
    rw [hs.data_length]
    omega
  obtain ⟨index, t, color, t1, t2, t3⟩ :=
    tables_total c h _ (hs.data_lt _ (List.getElem_mem hlt))
  refine ⟨_, index, t, color, ?_, List.getElem?_eq_getElem hlt, t1, t2, t3, ?_⟩
  · rw [pixel_natCast surface hs _ _ hy]
    exact List.getElem?_eq_getElem hlt
  · intro old
    exact shade_some c old color _ index t t1 t2 t3

/-- What `GL_context_blit_s` does to every cell of VRAM, for non-negative scales and a
tile of non-negative origin: when the box of `blit_s_size sx width` columns by
`blit_s_size sy height` rows lies in the context and every sampled column and row lies
in the surface, the call returns, the cell `(j, i)` of the box is plotted with the
surface pixel at column `(int)u` and row `(int)v`, `u = blit_s_u tile.x du j` and
`v = blit_s_u tile.y dv i` being the values the loops hold, and the other cells keep
their colour. -/
theorem GL_context_blit_s_cells (c : GL_Context_t) (surface : GL_Surface_t)
    (tile : GL_Rectangle_t) (position : GL_Point_t) (sx sy : ℚ) (h : c.WF) (hs : surface.WF)
    (hsx : 0 ≤ sx) (hsy : 0 ≤ sy) (hx : 0 ≤ tile.x) (hy : 0 ≤ tile.y)
    (hb : box_inside c position (blit_s_size sx tile.width) (blit_s_size sy tile.height))
    (hcol : ∀ j : Nat, j < blit_s_size sx tile.width →
      to_int (blit_s_u tile.x (blit_s_step sx) j) < surface.width)
    (hrow : ∀ i : Nat, i < blit_s_size sy tile.height →
      to_int (blit_s_u tile.y (blit_s_step sy) i) < surface.height) :
    ∃ V, GL_context_blit_s c surface tile position sx sy = some { c with vram := V } ∧
      V.length = c.vram.length ∧
      (∀ i j : Nat, i < blit_s_size sy tile.height → j < blit_s_size sx tile.width →
        ∃ p index t color old,
          surface.pixel (to_int (blit_s_u tile.x (blit_s_step sx) j))
            (to_int (blit_s_u tile.y (blit_s_step sy) i)) = some p ∧
          c.shifting[p]? = some index ∧ c.transparent[index]? = some t ∧
          c.palette.colors[index]? = some color ∧
          c.cell (position.x + j) (position.y + i) = some old ∧
          ({ c with vram := V } : GL_Context_t).cell (position.x + j) (position.y + i) =
            some (if t then old else color)) ∧
      (∀ x y : Nat, x < c.width → y < c.height →
        ¬ (position.x ≤ x ∧ (x : Int) < position.x + blit_s_size sx tile.width ∧
            position.y ≤ y ∧ (y : Int) < position.y + blit_s_size sy tile.height) →
        ({ c with vram := V } : GL_Context_t).cell x y = c.cell x y) := by
  obtain ⟨tx, ty, w, hgt⟩ := tile
  obtain ⟨px, py⟩ := position
  obtain ⟨b1, b2, b3, b4, b5⟩ := hb
  simp only at hx hy b1 b2 b3 b4 b5 hcol hrow ⊢
  obtain ⟨tx, rfl⟩ := Int.eq_ofNat_of_zero_le hx
  obtain ⟨ty, rfl⟩ := Int.eq_ofNat_of_zero_le hy
  obtain ⟨px, rfl⟩ := Int.eq_ofNat_of_zero_le b1
  obtain ⟨py, rfl⟩ := Int.eq_ofNat_of_zero_le b2
  generalize hdw : blit_s_size sx w = dw at b4 hcol ⊢
  generalize hdh : blit_s_size sy hgt = dh at b5 hrow ⊢
  have hpx : px + dw ≤ c.width := by exact_mod_cast b4
  have hpy : py + dh ≤ c.height := by exact_mod_cast b5
  have hpy0 : py < c.height := by exact_mod_cast b3
  have hu : ∀ j, to_int (blit_s_u (tx : Int) (blit_s_step sx) j) =
      ((scaled tx (blit_s_step sx) j : Nat) : Int) := fun j =>
    to_int_nonneg _ (blit_s_u_nonneg tx _ (blit_s_step_nonneg sx hsx) j)
  have hv : ∀ i, to_int (blit_s_u (ty : Int) (blit_s_step sy) i) =
      ((scaled ty (blit_s_step sy) i : Nat) : Int) := fun i =>
    to_int_nonneg _ (blit_s_u_nonneg ty _ (blit_s_step_nonneg sy hsy) i)
  have hcol' : ∀ j, j < dw → scaled tx (blit_s_step sx) j < surface.width := by
    intro j hj
    have := hcol j hj
    rw [hu j] at this
    exact_mod_cast this
  have hrow' : ∀ i, i < dh → scaled ty (blit_s_step sy) i < surface.height := by
    intro i hi
    have := hrow i hi
    rw [hv i] at this
    exact_mod_cast this
  obtain ⟨V, hV, hlen, hcells⟩ := GL_context_blit_s_nat c h surface hs w hgt tx ty px py dw dh
    sx sy hsx hsy hdw hdh hcol' hrow' hpx hpy hpy0
  obtain ⟨hin, hout⟩ := box_cells c h V hlen _ px py dw dh hpx hpy hcells
  refine ⟨V, hV, hlen, ?_, ?_⟩
  · intro i j hi hj
    obtain ⟨old, o1, o2⟩ := hin i j hi hj
    obtain ⟨p, index, t, color, p1, p2, p3, p4, p5, p6⟩ := pixel_shade c h surface hs
      (scaled tx (blit_s_step sx) j) (scaled ty (blit_s_step sy) i) (hcol' j hj)
      (hrow' i hi)
    refine ⟨p, index, t, color, old, ?_, p3, p4, p5, ?_, ?_⟩
    · rw [hu j, hv i]; exact p1
    · rw [← Nat.cast_add, ← Nat.cast_add]; exact o1
    · rw [← Nat.cast_add, ← Nat.cast_add, o2]
      simp only [scaledPixel, p2, p6]
  · intro x y hx hy hn
    apply hout x y hx hy
    intro hh
    apply hn
    refine ⟨by exact_mod_cast hh.1, by exact_mod_cast hh.2.1, by exact_mod_cast hh.2.2.1,
      by exact_mod_cast hh.2.2.2⟩

set_option maxRecDepth 100000 in
/-- Some values of the binary32 arithmetic of the blits.  `0.7f * 10.0f` and
`1.4f * 5.0f` are `7.0f`, although both exact products are below 7.  With `sx = 12` the
step `1.0f / 12` is above 1/12 and the accumulated `u` is still below 1 after 12
additions: the cell 12 reads column 0 and the cell 13 column 1.  With the values
`cosf` and `sinf` return for `(float)π`, `-1` and `-6151831 / 2^46`, the rotated blit of a
4x4 tile samples `(3, 4)` for the cell `(1, 0)`, which fails the test of line 234.  With
the values they return for `(float)(π/2)`, `-6151831 / 2^47` and `1`, the rotated blit of
a 3x3 tile samples `(0, 0)` at the offset `(1, 0)`: `1 + cos` rounds below 1. -/
theorem binary32_samples :
    blit_s_size f32_0_7 10 = 7 ∧ ⌊f32_0_7 * 10⌋ = 6 ∧
    f32 (11744051 / 8388608) = 11744051 / 8388608 ∧
    blit_s_size (11744051 / 8388608) 5 = 7 ∧ ⌊(11744051 / 8388608 : ℚ) * 5⌋ = 6 ∧
    to_int (blit_s_u 0 (blit_s_step 12) 12) = 0 ∧
    to_int (blit_s_u 0 (blit_s_step 12) 13) = 1 ∧
    f32 (-6151831 / 70368744177664) = -6151831 / 70368744177664 ∧
    blit_r_sample ⟨0, 0, 4, 4⟩ 2 2 (-1) (-6151831 / 70368744177664) (blit_r_x 2 1)
      (blit_r_x 2 0) = (3, 4) ∧
    blit_r_inside ⟨0, 0, 4, 4⟩ 3 4 = false ∧
    f32 (-6151831 / 140737488355328) = -6151831 / 140737488355328 ∧
    blit_r_sample ⟨0, 0, 3, 3⟩ 1 1 (-6151831 / 140737488355328) 1 1 0 = (0, 0) := by
  refine ⟨by decide!, by decide!, by decide!, by decide!, by decide!, by decide!, by decide!,
    by decide!, by decide!, by decide, by decide!, by decide!⟩

/-! ## Claims on `GL_context_blit_s` -/

theorem to_int_natCast (n : Nat) : to_int (n : ℚ) = n := by
  have := to_int_intCast (n : Int)
  simpa using this

theorem blit_s_size_one (w : Nat) (hw : w ≤ 2 ^ 24) : blit_s_size 1 w = w := by
  unfold blit_s_size
  rw [f32_natCast w hw, one_mul, f32_natCast w hw, to_int_natCast,
    to_size_t_natCast w (by omega)]

theorem blit_s_step_one : blit_s_step 1 = 1 := by decide!

theorem blit_s_u_one (o k : Nat) (h : o + k ≤ 2 ^ 24) :
    blit_s_u (o : Int) 1 k = ((o + k : Nat) : ℚ) := by
  induction k with
  | zero =>
    simp only [blit_s_u]
    rw [Int.cast_natCast, f32_natCast o (by omega)]
    simp
  | succ k ih =>
    simp only [blit_s_u]
    rw [ih (by omega)]
    have e : ((o + k : Nat) : ℚ) + 1 = ((o + (k + 1) : Nat) : ℚ) := by
      push_cast
      ring
    rw [e, f32_natCast _ h]

theorem scaled_one (o k : Nat) (h : o + k ≤ 2 ^ 24) : scaled o 1 k = o + k := by
  unfold scaled
  rw [blit_s_u_one o k h, to_int_natCast]
  exact Int.toNat_natCast _

/-- C6, amended: for a tile inside the surface (non-negative origin) whose right and
bottom edges are at most `2^24`, and a destination box inside the context,
`GL_context_blit_s` with `sx = sy = 1` returns, and returns the very context
`GL_context_blit` returns: VRAM is in the same state. -/
theorem GL_context_blit_s_one (c : GL_Context_t) (surface : GL_Surface_t)
    (tile : GL_Rectangle_t) (position : GL_Point_t) (h : c.WF) (hs : surface.WF)
    (ht : tile_inside surface tile) (hb : box_inside c position tile.width tile.height)
    (hbx : tile.x + tile.width ≤ 2 ^ 24) (hby : tile.y + tile.height ≤ 2 ^ 24) :
    ∃ c', GL_context_blit c surface tile position = some c' ∧
      GL_context_blit_s c surface tile position 1 1 = some c' := by
  obtain ⟨tx, ty, w, hgt⟩ := tile
  obtain ⟨px, py⟩ := position
  obtain ⟨h1, h2, h3, h4, h5⟩ := ht
  obtain ⟨b1, b2, b3, b4, b5⟩ := hb
  simp only at h1 h2 h3 h4 h5 b1 b2 b3 b4 b5 hbx hby
  obtain ⟨tx, rfl⟩ := Int.eq_ofNat_of_zero_le h1
  obtain ⟨ty, rfl⟩ := Int.eq_ofNat_of_zero_le h2
  obtain ⟨px, rfl⟩ := Int.eq_ofNat_of_zero_le b1
  obtain ⟨py, rfl⟩ := Int.eq_ofNat_of_zero_le b2
  have htx : tx + w ≤ surface.width := by exact_mod_cast h4
  have hty : ty + hgt ≤ surface.height := by exact_mod_cast h5
  have hty0 : ty < surface.height := by exact_mod_cast h3
  have hpx : px + w ≤ c.width := by exact_mod_cast b4
  have hpy : py + hgt ≤ c.height := by exact_mod_cast b5
  have hpy0 : py < c.height := by exact_mod_cast b3
  have hbx' : tx + w ≤ 2 ^ 24 := by exact_mod_cast hbx
  have hby' : ty + hgt ≤ 2 ^ 24 := by exact_mod_cast hby
  obtain ⟨V1, hV1, hlen1, hc1⟩ :=
    GL_context_blit_nat c h surface hs w hgt tx ty px py htx hty hty0 hpx hpy hpy0
  obtain ⟨V2, hV2, hlen2, hc2⟩ := GL_context_blit_s_nat c h surface hs w hgt tx ty px py w hgt
    1 1 (by norm_num) (by norm_num) (blit_s_size_one w (by omega))
    (blit_s_size_one hgt (by omega))
    (fun j hj => by rw [blit_s_step_one, scaled_one _ _ (by omega)]; omega)
    (fun i hi => by rw [blit_s_step_one, scaled_one _ _ (by omega)]; omega) hpx hpy hpy0
  have hVV : V1 = V2 := by
    apply box_unique c h V1 V2 hlen1 hlen2 _ _ px py w hgt _ hc1 hc2
    intro i j hi hj
    simp only [tilePixel, scaledPixel, blit_s_step_one]
    rw [scaled_one _ _ (by omega), scaled_one _ _ (by omega), Nat.add_assoc]
  refine ⟨{ c with vram := V1 }, hV1, ?_⟩
  rw [hV2, hVV]

set_option maxRecDepth 100000 in
/-- C6, amended, at the 2x2 test surface, drawn at `(1, 2)` of the 4x4 context. -/
theorem GL_context_blit_s_one_witness :
    ∃ c', GL_context_blit ctx4 surf2 ⟨0, 0, 2, 2⟩ ⟨1, 2⟩ = some c' ∧
      GL_context_blit_s ctx4 surf2 ⟨0, 0, 2, 2⟩ ⟨1, 2⟩ 1 1 = some c' :=
  GL_context_blit_s_one ctx4 surf2 ⟨0, 0, 2, 2⟩ ⟨1, 2⟩ ctx4_WF surf2_WF
    (by decide) (by decide) (by decide) (by decide)

set_option maxRecDepth 100000 in
/-- C6 as stated fails for a tile beyond column `2^24`.  The 1x1 tile at column 16777217
of a surface of one row, whose pixel has index 1, lies inside the surface:
`GL_context_blit` paints the cell white, while `GL_context_blit_s` with `sx = sy = 1`
starts `u` at `(float)16777217 = 16777216.0f` (line 169), samples column 16777216, of
transparent index 0, and leaves the cell as it was. -/
theorem GL_context_blit_s_one_counterexample :
    tile_inside (surf_row 16777217 [1]) ⟨16777217, 0, 1, 1⟩ ∧
    box_inside ctx4 ⟨0, 0⟩ 1 1 ∧
    to_int (blit_s_u 16777217 (blit_s_step 1) 0) = 16777216 ∧
    ctx4.cell 0 0 = some ⟨1, 2, 3, 4⟩ ∧
    (GL_context_blit ctx4 (surf_row 16777217 [1]) ⟨16777217, 0, 1, 1⟩ ⟨0, 0⟩).bind
      (fun c' => c'.cell 0 0) = some white ∧
    (GL_context_blit_s ctx4 (surf_row 16777217 [1]) ⟨16777217, 0, 1, 1⟩ ⟨0, 0⟩ 1 1).bind
      (fun c' => c'.cell 0 0) = some ⟨1, 2, 3, 4⟩ := by
  have p0 : (surf_row 16777217 [1]).pixel 16777216 0 = some 0 :=
    surf_row_pixel_head 16777217 [1] 16777216 (by decide)
  have p1 : (surf_row 16777217 [1]).pixel 16777217 0 = some 1 :=
    surf_row_pixel_tail 16777217 [1] 0
  have hS : (surf_row 16777217 [1]).WF := surf_row_WF _ _ (by decide) (by decide)
  have hu : to_int (blit_s_u 16777217 (blit_s_step 1) 0) = 16777216 := by decide!
  have hv : to_int (blit_s_u 0 (blit_s_step 1) 0) = 0 := by decide!
  refine ⟨by decide, by decide, hu, by decide, ?_, ?_⟩
  · obtain ⟨V, hV, _, hin, _⟩ := GL_context_blit_cells ctx4 (surf_row 16777217 [1])
      ⟨16777217, 0, 1, 1⟩ ⟨0, 0⟩ ctx4_WF hS (by decide) (by decide)
    obtain ⟨p, index, t, color, old, e1, e2, e3, e4, e5, e6⟩ :=
      hin 0 0 (by decide) (by decide)
    have e1' : (surf_row 16777217 [1]).pixel 16777217 0 = some p := e1
    rw [p1] at e1'
    cases e1'
    have hold : some old = some (⟨1, 2, 3, 4⟩ : GL_Color_t) := e5.symm.trans (by decide)
    cases hold
    rw [ctx4_shade 1 index t color ⟨1, 2, 3, 4⟩ ctx4 rfl rfl rfl (Or.inr rfl) e2 e3 e4] at e6
    rw [hV]
    exact e6
  · obtain ⟨V, hV, _, hin, _⟩ := GL_context_blit_s_cells ctx4 (surf_row 16777217 [1])
      ⟨16777217, 0, 1, 1⟩ ⟨0, 0⟩ 1 1 ctx4_WF hS (by norm_num) (by norm_num) (by decide)
      (by decide) (by decide!) (by decide!) (by decide!)
    obtain ⟨p, index, t, color, old, e1, e2, e3, e4, e5, e6⟩ :=
      hin 0 0 (by decide!) (by decide!)
    rw [hu, hv, p0] at e1
    cases e1
    have hold : some old = some (⟨1, 2, 3, 4⟩ : GL_Color_t) := e5.symm.trans (by decide)
    cases hold
    rw [ctx4_shade 0 index t color ⟨1, 2, 3, 4⟩ ctx4 rfl rfl rfl (Or.inl rfl) e2 e3 e4] at e6
    rw [hV]
    exact e6

/-- A coordinate that passes the test of line 234 is a pixel of the surface. -/
theorem inside_pixel (c : GL_Context_t) (h : c.WF) (surface : GL_Surface_t) (hs : surface.WF)
    (tile : GL_Rectangle_t) (ht : tile_inside surface tile) (sx sy : Int)
    (hin : blit_r_inside tile sx sy = true) :
    tile.x ≤ sx ∧ sx < tile.x + tile.width ∧ tile.y ≤ sy ∧ sy < tile.y + tile.height ∧
    ∃ p index t color, surface.pixel sx sy = some p ∧ p < GL_MAX_PALETTE_COLORS ∧
      c.shifting[p]? = some index ∧ c.transparent[index]? = some t ∧
      c.palette.colors[index]? = some color ∧
      ∀ old, shade c old (some p) = if t then old else color := by
  obtain ⟨h1, h2, h3, h4, h5⟩ := ht
  have hwlt := hs.width_lt
  have hhlt := hs.height_lt
  obtain ⟨tx, hx⟩ := Int.eq_ofNat_of_zero_le h1
  obtain ⟨ty, hy⟩ := Int.eq_ofNat_of_zero_le h2
  have ex : to_size_t (tile.x + tile.width) = tx + tile.width := by
    rw [hx, ← Nat.cast_add, to_size_t_natCast _ (by omega)]
  have ey : to_size_t (tile.y + tile.height) = ty + tile.height := by
    rw [hy, ← Nat.cast_add, to_size_t_natCast _ (by omega)]
  simp only [blit_r_inside, ex, ey, decide_eq_true_eq] at hin
  obtain ⟨i1, i2, i3, i4⟩ := hin
  have i3 := lt_of_lt_of_le i3 (to_int32_le _ (by omega))
  have i4 := lt_of_lt_of_le i4 (to_int32_le _ (by omega))
  obtain ⟨nx, rfl⟩ := Int.eq_ofNat_of_zero_le (le_trans h1 i1)
  obtain ⟨ny, rfl⟩ := Int.eq_ofNat_of_zero_le (le_trans h2 i2)
  obtain ⟨p, index, t, color, p1, p2, p3, p4, p5, p6⟩ := pixel_shade c h surface hs nx ny
    (by omega) (by omega)
  refine ⟨i1, by omega, i2, by omega, p, index, t, color, p1, ?_, p3, p4, p5, p6⟩
  obtain ⟨hlt, hp⟩ := List.getElem?_eq_some.mp p2
  rw [← hp]
  exact hs.data_lt _ (List.getElem_mem hlt)

theorem blit_r_pixels_spec (c : GL_Context_t) (h : c.WF) (surface : GL_Surface_t)
    (hs : surface.WF) (tile : GL_Rectangle_t) (ht : tile_inside surface tile)
    (w hw hh d i : Nat) (cc ss : ℚ) (vram : List GL_Color_t) (hdst : d + w ≤ vram.length) :
    ∃ V x, for_loop (blit_r_pixel c surface tile hw hh cc ss (blit_r_x hh i)) w
        (-f32 (hw : ℚ), (d : Int), vram) = some (x, ((d + w : Nat) : Int), V) ∧
      V.length = vram.length ∧
      ∀ k, V[k]? = rowAfter c (rotatedPixel surface tile hw hh cc ss i) d w vram k := by
  obtain ⟨st, hst, _, h2, h3, h4⟩ := for_loop_inv
    (blit_r_pixel c surface tile hw hh cc ss (blit_r_x hh i)) w
    (fun t st => st.1 = blit_r_x hw t ∧ st.2.1 = ((d + t : Nat) : Int) ∧
      st.2.2.length = vram.length ∧
      ∀ k, st.2.2[k]? = rowAfter c (rotatedPixel surface tile hw hh cc ss i) d t vram k)
    (-f32 (hw : ℚ), (d : Int), vram)
    ⟨rfl, rfl, rfl, fun k => by
      simp only [rowAfter]
      rw [if_neg (by omega)]⟩
    (by
      rintro t ⟨x, dst, V⟩ ht' ⟨e1, e2, e3, e4⟩
      simp only at e1 e2 e3 e4
      subst e1 e2
      by_cases hin : blit_r_inside tile
          (blit_r_sample tile hw hh cc ss (blit_r_x hw t) (blit_r_x hh i)).1
          (blit_r_sample tile hw hh cc ss (blit_r_x hw t) (blit_r_x hh i)).2 = true
      · obtain ⟨_, _, _, _, p, index, tr, color, p1, p2, _, _, _, _⟩ :=
          inside_pixel c h surface hs tile ht _ _ hin
        obtain ⟨V', hp, hlen, hV'⟩ := plot_spec c h V (d + t) (by omega) p p2
        obtain ⟨src, hrow, hdata⟩ : ∃ src, peek surface.data_rows
            (blit_r_sample tile hw hh cc ss (blit_r_x hw t) (blit_r_x hh i)).2 =
              some src ∧
            peek surface.data (src +
              (blit_r_sample tile hw hh cc ss (blit_r_x hw t) (blit_r_x hh i)).1) = some p := by
          have p1' := p1
          simp only [GL_Surface_t.pixel, Option.bind_eq_bind] at p1'
          rcases hrow : peek surface.data_rows
            (blit_r_sample tile hw hh cc ss (blit_r_x hw t) (blit_r_x hh i)).2
            with _ | src
          · rw [hrow] at p1'
            simp at p1'
          · rw [hrow] at p1'
            exact ⟨src, rfl, by simpa using p1'⟩
        refine ⟨(blit_r_x hw (t + 1), ((d + (t + 1) : Nat) : Int), V'), ?_,
          rfl, rfl, by simpa [hlen] using e3, ?_⟩
        · simp only [blit_r_pixel, hin, if_true, Option.bind_eq_bind, hrow, hdata, hp,
            Option.some_bind, Option.pure_def, Option.some.injEq, Prod.mk.injEq, and_true,
            blit_r_x, true_and]
          push_cast
          ring
        · apply rowAfter_step c _ d t vram V V' e4
          intro k
          rw [hV' k]
          simp only [rotatedPixel, hin, if_true, p1]
      · refine ⟨(blit_r_x hw (t + 1), ((d + (t + 1) : Nat) : Int), V), ?_,
          rfl, rfl, e3, ?_⟩
        · simp only [blit_r_pixel, hin, Bool.false_eq_true, if_false, Option.bind_eq_bind,
            Option.some_bind, Option.pure_def, Option.some.injEq, Prod.mk.injEq, and_true,
            blit_r_x, true_and]
          push_cast
          ring
        · apply rowAfter_step c _ d t vram V V e4
          intro k
          simp only [rotatedPixel, hin, Bool.false_eq_true, if_false, shade]
          by_cases hk : k = d + t
          · rw [if_pos hk]
            simp
          · rw [if_neg hk])
  refine ⟨st.2.2, st.1, ?_, h3, h4⟩
  rw [hst, ← h2]

theorem blit_r_rows_spec (c : GL_Context_t) (h : c.WF) (surface : GL_Surface_t)
    (hs : surface.WF) (tile : GL_Rectangle_t) (ht : tile_inside surface tile)
    (w hgt hw hh px py : Nat) (cc ss : ℚ)
    (hpx : px + w ≤ c.width) (hpy : py + hgt ≤ c.height) :
    ∃ st, for_loop (blit_r_row c surface tile w hw hh (c.width - w) cc ss) hgt
        (-f32 (hh : ℚ), ((c.width * py + px : Nat) : Int), c.vram) = some st ∧
      st.2.2.length = c.vram.length ∧
      ∀ cx cy, cx < c.width →
        st.2.2[c.width * cy + cx]? =
          boxAfter c (rotatedPixel surface tile hw hh cc ss) c.width px py w hgt c.vram
            cx cy := by
  obtain ⟨st, hst, _, _, h3, h4⟩ := for_loop_inv
    (blit_r_row c surface tile w hw hh (c.width - w) cc ss) hgt
    (fun i st => st.1 = blit_r_x hh i ∧
      st.2.1 = ((c.width * (py + i) + px : Nat) : Int) ∧
      st.2.2.length = c.vram.length ∧
      ∀ cx cy, cx < c.width →
        st.2.2[c.width * cy + cx]? =
          boxAfter c (rotatedPixel surface tile hw hh cc ss) c.width px py w i c.vram cx cy)
    (-f32 (hh : ℚ), ((c.width * py + px : Nat) : Int), c.vram)
    ⟨rfl, rfl, rfl, fun cx cy _ => by
      simp only [boxAfter]
      rw [if_neg (by omega)]⟩
    (by
      rintro i ⟨y, dst, V⟩ hi ⟨e1, e2, e3, e4⟩
      simp only at e1 e2 e3 e4
      subst e1 e2
      have hdst : c.width * (py + i) + px + w ≤ V.length := by
        rw [e3, h.vram_length]
        exact row_end_le _ _ _ _ _ hpx (by omega)
      obtain ⟨V', x, hrw, hlen, hV'⟩ :=
        blit_r_pixels_spec c h surface hs tile ht w hw hh _ i cc ss V hdst
      refine ⟨(blit_r_x hh (i + 1),
        ((c.width * (py + (i + 1)) + px : Nat) : Int), V'), ?_, rfl, rfl,
        by simpa [hlen] using e3, ?_⟩
      · simp only [blit_r_row, hrw, Option.bind_eq_bind, Option.some_bind, Option.pure_def,
          Option.some.injEq, Prod.mk.injEq, and_true, blit_r_x, true_and]
        have : c.width * (py + i) + px + w + (c.width - w) =
            c.width * (py + (i + 1)) + px := by
          rw [Nat.mul_add c.width py (i + 1), Nat.mul_add c.width py i,
            Nat.mul_add c.width i 1]
          omega
        exact_mod_cast this
      · exact boxAfter_step c (rotatedPixel surface tile hw hh cc ss) c.width px py w i hpx
          c.vram V V' e4 hV')
  exact ⟨st, hst, h3, h4⟩

/-- `GL_context_blit_r` when the top-left corner `(px, py)` of the scanned box is a cell. -/
theorem GL_context_blit_r_nat (c : GL_Context_t) (h : c.WF) (surface : GL_Surface_t)
    (hs : surface.WF) (tile : GL_Rectangle_t) (ht : tile_inside surface tile)
    (position : GL_Point_t) (px py : Nat) (cc ss : ℚ)
    (hX : position.x - ((tile.width / 2 : Nat) : Int) = (px : Int))
    (hY : position.y - ((tile.height / 2 : Nat) : Int) = (py : Int))
    (hpx : px + tile.width ≤ c.width) (hpy : py + tile.height ≤ c.height)
    (hpy0 : py < c.height) :
    ∃ V, GL_context_blit_r c surface tile position cc ss = some { c with vram := V } ∧
      V.length = c.vram.length ∧
      ∀ cx cy, cx < c.width →
        V[c.width * cy + cx]? =
          boxAfter c (rotatedPixel surface tile (tile.width / 2) (tile.height / 2) cc ss)
            c.width px py tile.width tile.height c.vram cx cy := by
  obtain ⟨st, hst, hlen, hV⟩ := blit_r_rows_spec c h surface hs tile ht tile.width tile.height
    (tile.width / 2) (tile.height / 2) px py cc ss hpx hpy
  refine ⟨st.2.2, ?_, hlen, hV⟩
  have e2 : to_size_t ((c.width : Int) - (tile.width : Int)) = c.width - tile.width :=
    to_size_t_sub _ _ (by omega) h.width_lt
  have hhlt := h.height_lt
  have e3 : to_size_t (position.y - ((tile.height / 2 : Nat) : Int)) = py := by
    rw [hY, to_size_t_natCast _ (by omega)]
  have e4 : ((c.width * py : Nat) : Int) + position.x - ((tile.width / 2 : Nat) : Int) =
      ((c.width * py + px : Nat) : Int) := by
    rw [Nat.cast_add]
    linarith
  simp only [GL_context_blit_r, e2, e3, peek_natCast, h.rows_eq py hpy0, Option.map_some',
    e4, Option.bind_eq_bind, Option.some_bind, hst, Option.pure_def]

/-- What `GL_context_blit_r` does to every cell of VRAM, for any `c = cosf(rotation)` and
`s = sinf(rotation)`: a scanned cell whose sample passes the test of line 234 is plotted
with the sampled pixel, any other cell is unchanged. -/
theorem GL_context_blit_r_cells (c : GL_Context_t) (surface : GL_Surface_t)
    (tile : GL_Rectangle_t) (position : GL_Point_t) (cc ss : ℚ) (h : c.WF)
    (hs : surface.WF) (ht : tile_inside surface tile)
    (hb : box_inside c ⟨position.x - ((tile.width / 2 : Nat) : Int),
      position.y - ((tile.height / 2 : Nat) : Int)⟩ tile.width tile.height) :
    ∃ V, GL_context_blit_r c surface tile position cc ss = some { c with vram := V } ∧
      V.length = c.vram.length ∧
      (∀ i j : Nat, i < tile.height → j < tile.width →
        ∃ old, c.cell (position.x - ((tile.width / 2 : Nat) : Int) + j)
            (position.y - ((tile.height / 2 : Nat) : Int) + i) = some old ∧
          ({ c with vram := V } : GL_Context_t).cell
              (position.x - ((tile.width / 2 : Nat) : Int) + j)
              (position.y - ((tile.height / 2 : Nat) : Int) + i) =
            some (shade c old
              (rotatedPixel surface tile (tile.width / 2) (tile.height / 2) cc ss i j))) ∧
      (∀ x y : Nat, x < c.width → y < c.height →
        ¬ (position.x - ((tile.width / 2 : Nat) : Int) ≤ x ∧
            (x : Int) < position.x - ((tile.width / 2 : Nat) : Int) + tile.width ∧
            position.y - ((tile.height / 2 : Nat) : Int) ≤ y ∧
            (y : Int) < position.y - ((tile.height / 2 : Nat) : Int) + tile.height) →
        ({ c with vram := V } : GL_Context_t).cell x y = c.cell x y) := by
  obtain ⟨b1, b2, b3, b4, b5⟩ := hb
  simp only at b1 b2 b3 b4 b5
  obtain ⟨px, hX⟩ := Int.eq_ofNat_of_zero_le b1
  obtain ⟨py, hY⟩ := Int.eq_ofNat_of_zero_le b2
  rw [hX] at b4
  rw [hY] at b3 b5
  rw [hX, hY]
  have hpx : px + tile.width ≤ c.width := by exact_mod_cast b4
  have hpy : py + tile.height ≤ c.height := by exact_mod_cast b5
  have hpy0 : py < c.height := by exact_mod_cast b3
  obtain ⟨V, hV, hlen, hcells⟩ :=
    GL_context_blit_r_nat c h surface hs tile ht position px py cc ss hX hY hpx hpy hpy0
  obtain ⟨hin, hout⟩ := box_cells c h V hlen _ px py tile.width tile.height hpx hpy hcells
  refine ⟨V, hV, hlen, ?_, ?_⟩
  · intro i j hi hj
    obtain ⟨old, o1, o2⟩ := hin i j hi hj
    refine ⟨old, ?_, ?_⟩
    · rw [← Nat.cast_add, ← Nat.cast_add]; exact o1
    · rw [← Nat.cast_add, ← Nat.cast_add]; exact o2
  · intro x y hx hy hn
    apply hout x y hx hy
    intro hh
    apply hn
    refine ⟨by exact_mod_cast hh.1, by exact_mod_cast hh.2.1, by exact_mod_cast hh.2.2.1,
      by exact_mod_cast hh.2.2.2⟩

/-! ## Claims on `GL_context_blit_r` -/

/-- While it stays within `2^24` the counter `x` of `GL_context_blit_r` is `-half + j`. -/
theorem blit_r_x_eq (half j : Nat) (h1 : half ≤ 2 ^ 24) (h2 : j ≤ half + 2 ^ 24) :
    blit_r_x half j = (((j : Int) - (half : Int) : Int) : ℚ) := by
  induction j with
  | zero =>
    simp only [blit_r_x]
    rw [f32_natCast half h1]
    push_cast
    ring
  | succ j ih =>
    simp only [blit_r_x]
    rw [ih (by omega)]
    have e : (((j : Int) - (half : Int) : Int) : ℚ) + 1 =
        ((((j + 1 : Nat) : Int) - (half : Int) : Int) : ℚ) := by
      push_cast
      ring
    rw [e, f32_intCast _ (by omega) (by omega)]

/-- With `cos = 1`, `sin = 0` and coordinates up to `2^24` the sample for the integer
offset `(x, y)` is at the offset `(x, y)` from the centre of the tile. -/
theorem blit_r_sample_zero (tile : GL_Rectangle_t) (hw hh : Nat) (x y : Int)
    (hx1 : -(2 ^ 24) ≤ x) (hx2 : x ≤ 2 ^ 24) (hy1 : -(2 ^ 24) ≤ y) (hy2 : y ≤ 2 ^ 24)
    (hhw : hw ≤ 2 ^ 24) (hhh : hh ≤ 2 ^ 24)
    (hu1 : -(2 ^ 24) ≤ x + hw) (hu2 : x + hw ≤ 2 ^ 24)
    (hv1 : -(2 ^ 24) ≤ y + hh) (hv2 : y + hh ≤ 2 ^ 24)
    (ht1 : -(2 ^ 24) ≤ tile.x) (ht2 : tile.x ≤ 2 ^ 24)
    (ht3 : -(2 ^ 24) ≤ tile.y) (ht4 : tile.y ≤ 2 ^ 24)
    (hs1 : -(2 ^ 24) ≤ tile.x + (x + hw)) (hs2 : tile.x + (x + hw) ≤ 2 ^ 24)
    (hs3 : -(2 ^ 24) ≤ tile.y + (y + hh)) (hs4 : tile.y + (y + hh) ≤ 2 ^ 24) :
    blit_r_sample tile hw hh 1 0 (x : ℚ) (y : ℚ) =
      (tile.x + (x + hw), tile.y + (y + hh)) := by
  have fx : f32 (x : ℚ) = x := f32_intCast x hx1 hx2
  have fy : f32 (y : ℚ) = y := f32_intCast y hy1 hy2
  have fw : f32 (hw : ℚ) = hw := f32_natCast hw hhw
  have fh : f32 (hh : ℚ) = hh := f32_natCast hh hhh
  have eu : (x : ℚ) + (hw : ℚ) = ((x + hw : Int) : ℚ) := by push_cast; ring
  have ev : (y : ℚ) + (hh : ℚ) = ((y + hh : Int) : ℚ) := by push_cast; ring
  have fu : f32 ((x + hw : Int) : ℚ) = ((x + hw : Int) : ℚ) := f32_intCast _ hu1 hu2
  have fv : f32 ((y + hh : Int) : ℚ) = ((y + hh : Int) : ℚ) := f32_intCast _ hv1 hv2
  have ftx : f32 (tile.x : ℚ) = tile.x := f32_intCast _ ht1 ht2
  have fty : f32 (tile.y : ℚ) = tile.y := f32_intCast _ ht3 ht4
  have esx : (tile.x : ℚ) + ((x + hw : Int) : ℚ) = ((tile.x + (x + hw) : Int) : ℚ) := by
    push_cast; ring
  have esy : (tile.y : ℚ) + ((y + hh : Int) : ℚ) = ((tile.y + (y + hh) : Int) : ℚ) := by
    push_cast; ring
  have fsx := f32_intCast (tile.x + (x + hw)) hs1 hs2
  have fsy := f32_intCast (tile.y + (y + hh)) hs3 hs4
  simp only [blit_r_sample, mul_one, mul_zero, f32_zero, add_zero, sub_zero, fx, fy, fw, fh,
    eu, ev, fu, fv, ftx, fty, esx, esy, fsx, fsy, to_int_intCast]

/-- With `cos = 0`, `sin = 1` and coordinates up to `2^24` the sample for the integer
offset `(x, y)` is at the offset `(y, -x)` from the centre of the tile. -/
theorem blit_r_sample_quarter (tile : GL_Rectangle_t) (hw hh : Nat) (x y : Int)
    (hx1 : -(2 ^ 24) ≤ x) (hx2 : x ≤ 2 ^ 24) (hy1 : -(2 ^ 24) ≤ y) (hy2 : y ≤ 2 ^ 24)
    (hhw : hw ≤ 2 ^ 24) (hhh : hh ≤ 2 ^ 24)
    (hu1 : -(2 ^ 24) ≤ y + hw) (hu2 : y + hw ≤ 2 ^ 24)
    (hv1 : -(2 ^ 24) ≤ -x + hh) (hv2 : -x + hh ≤ 2 ^ 24)
    (ht1 : -(2 ^ 24) ≤ tile.x) (ht2 : tile.x ≤ 2 ^ 24)
    (ht3 : -(2 ^ 24) ≤ tile.y) (ht4 : tile.y ≤ 2 ^ 24)
    (hs1 : -(2 ^ 24) ≤ tile.x + (hw : Int) + y) (hs2 : tile.x + (hw : Int) + y ≤ 2 ^ 24)
    (hs3 : -(2 ^ 24) ≤ tile.y + (hh : Int) - x) (hs4 : tile.y + (hh : Int) - x ≤ 2 ^ 24) :
    blit_r_sample tile hw hh 0 1 (x : ℚ) (y : ℚ) =
      (tile.x + (hw : Int) + y, tile.y + (hh : Int) - x) := by
  have fx : f32 (x : ℚ) = x := f32_intCast x hx1 hx2
  have fy : f32 (y : ℚ) = y := f32_intCast y hy1 hy2
  have fw : f32 (hw : ℚ) = hw := f32_natCast hw hhw
  have fh : f32 (hh : ℚ) = hh := f32_natCast hh hhh
  have fnx : f32 (-(x : ℚ)) = ((-x : Int) : ℚ) := by
    rw [f32_neg, fx]
    push_cast
    ring
  have eu : (y : ℚ) + (hw : ℚ) = ((y + hw : Int) : ℚ) := by push_cast; ring
  have ev : ((-x : Int) : ℚ) + (hh : ℚ) = ((-x + hh : Int) : ℚ) := by push_cast; ring
  have fu : f32 ((y + hw : Int) : ℚ) = ((y + hw : Int) : ℚ) := f32_intCast _ hu1 hu2
  have fv : f32 ((-x + hh : Int) : ℚ) = ((-x + hh : Int) : ℚ) := f32_intCast _ hv1 hv2
  have ftx : f32 (tile.x : ℚ) = tile.x := f32_intCast _ ht1 ht2
  have fty : f32 (tile.y : ℚ) = tile.y := f32_intCast _ ht3 ht4
  have esx : (tile.x : ℚ) + ((y + hw : Int) : ℚ) = ((tile.x + (hw : Int) + y : Int) : ℚ) := by
    push_cast; ring
  have esy : (tile.y : ℚ) + ((-x + hh : Int) : ℚ) = ((tile.y + (hh : Int) - x : Int) : ℚ) := by
    push_cast; ring
  have fsx := f32_intCast (tile.x + (hw : Int) + y) hs1 hs2
  have fsy := f32_intCast (tile.y + (hh : Int) - x) hs3 hs4
  simp only [blit_r_sample, mul_one, mul_zero, f32_zero, zero_add, zero_sub, fx, fy, fw, fh,
    fnx, eu, ev, fu, fv, ftx, fty, esx, esy, fsx, fsy, to_int_intCast]

/-- C8, amended: for a tile inside the surface whose right and bottom edges are at most
`2^24`, and a centre such that the box of the tile's size around it lies inside the
context, `GL_context_blit_r` with `cos = 1`, `sin = 0` (rotation 0) returns, and returns
the very context that `GL_context_blit` returns for the same tile with its top-left
corner at `(position.x - tile.width / 2, position.y - tile.height / 2)`. -/
theorem GL_context_blit_r_zero (c : GL_Context_t) (surface : GL_Surface_t)
    (tile : GL_Rectangle_t) (position : GL_Point_t) (h : c.WF) (hs : surface.WF)
    (ht : tile_inside surface tile)
    (hb : box_inside c ⟨position.x - ((tile.width / 2 : Nat) : Int),
      position.y - ((tile.height / 2 : Nat) : Int)⟩ tile.width tile.height)
    (hbx : tile.x + tile.width ≤ 2 ^ 24) (hby : tile.y + tile.height ≤ 2 ^ 24) :
    ∃ c', GL_context_blit c surface tile ⟨position.x - ((tile.width / 2 : Nat) : Int),
          position.y - ((tile.height / 2 : Nat) : Int)⟩ = some c' ∧
      GL_context_blit_r c surface tile position 1 0 = some c' := by
  have ht' := ht
  obtain ⟨h1, h2, h3, h4, h5⟩ := ht
  obtain ⟨b1, b2, b3, b4, b5⟩ := hb
  simp only at b1 b2 b3 b4 b5
  obtain ⟨px, hX⟩ := Int.eq_ofNat_of_zero_le b1
  obtain ⟨py, hY⟩ := Int.eq_ofNat_of_zero_le b2
  rw [hX] at b4
  rw [hY] at b3 b5
  rw [hX, hY]
  have hpx : px + tile.width ≤ c.width := by exact_mod_cast b4
  have hpy : py + tile.height ≤ c.height := by exact_mod_cast b5
  have hpy0 : py < c.height := by exact_mod_cast b3
  obtain ⟨V2, hV2, hlen2, hc2⟩ :=
    GL_context_blit_r_nat c h surface hs tile ht' position px py 1 0 hX hY hpx hpy hpy0
  obtain ⟨tx, ty, w, hgt⟩ := tile
  simp only at h1 h2 h3 h4 h5 hpx hpy hc2 ht' hbx hby
  obtain ⟨tx, rfl⟩ := Int.eq_ofNat_of_zero_le h1
  obtain ⟨ty, rfl⟩ := Int.eq_ofNat_of_zero_le h2
  have htx : tx + w ≤ surface.width := by exact_mod_cast h4
  have hty : ty + hgt ≤ surface.height := by exact_mod_cast h5
  have hty0 : ty < surface.height := by exact_mod_cast h3
  have hbx' : tx + w ≤ 2 ^ 24 := by exact_mod_cast hbx
  have hby' : ty + hgt ≤ 2 ^ 24 := by exact_mod_cast hby
  obtain ⟨V1, hV1, hlen1, hc1⟩ :=
    GL_context_blit_nat c h surface hs w hgt tx ty px py htx hty hty0 hpx hpy hpy0
  have hVV : V1 = V2 := by
    apply box_unique c h V1 V2 hlen1 hlen2 _ _ px py w hgt _ hc1 hc2
    intro i j hi hj
    have hin : blit_r_inside ⟨tx, ty, w, hgt⟩ ((tx : Int) + j) ((ty : Int) + i) = true := by
      simp only [blit_r_inside, ← Nat.cast_add, to_size_t_natCast (tx + w) (by omega),
        to_size_t_natCast (ty + hgt) (by omega), decide_eq_true_eq]
      rw [to_int32_eq _ (by omega) (by omega), to_int32_eq _ (by omega) (by omega)]
      refine ⟨?_, ?_, ?_, ?_⟩ <;> norm_cast <;> omega
    have es := blit_r_sample_zero ⟨tx, ty, w, hgt⟩ (w / 2) (hgt / 2)
      ((j : Int) - ((w / 2 : Nat) : Int)) ((i : Int) - ((hgt / 2 : Nat) : Int))
      (by omega) (by omega) (by omega) (by omega) (by omega) (by omega)
      (by omega) (by omega) (by omega) (by omega)
      (by simp only; omega) (by simp only; omega) (by simp only; omega) (by simp only; omega)
      (by simp only; omega) (by simp only; omega) (by simp only; omega) (by simp only; omega)
    have e1 : (tx : Int) + ((j : Int) - ((w / 2 : Nat) : Int) + ((w / 2 : Nat) : Int)) =
        (tx : Int) + j := by omega
    have e2 : (ty : Int) + ((i : Int) - ((hgt / 2 : Nat) : Int) + ((hgt / 2 : Nat) : Int)) =
        (ty : Int) + i := by omega
    simp only [e1, e2] at es
    simp only [rotatedPixel, blit_r_x_eq (w / 2) j (by omega) (by omega),
      blit_r_x_eq (hgt / 2) i (by omega) (by omega), es, hin, if_true, tilePixel]
    rw [← Nat.cast_add, ← Nat.cast_add, pixel_natCast surface hs _ _ (by omega),
      Nat.add_assoc]
  refine ⟨{ c with vram := V1 }, hV1, ?_⟩
  rw [hV2, hVV]

set_option maxRecDepth 100000 in
/-- C8, amended, at the 2x2 test surface, centred on `(2, 3)` of the 4x4 context. -/
theorem GL_context_blit_r_zero_witness :
    ∃ c', GL_context_blit ctx4 surf2 ⟨0, 0, 2, 2⟩ ⟨(2 : Int) - ((2 / 2 : Nat) : Int),
          (3 : Int) - ((2 / 2 : Nat) : Int)⟩ = some c' ∧
      GL_context_blit_r ctx4 surf2 ⟨0, 0, 2, 2⟩ ⟨2, 3⟩ 1 0 = some c' :=
  GL_context_blit_r_zero ctx4 surf2 ⟨0, 0, 2, 2⟩ ⟨2, 3⟩ ctx4_WF surf2_WF
    (by decide) (by decide) (by decide) (by decide)

set_option maxRecDepth 100000 in
/-- C8 as stated fails for a tile beyond column `2^24`.  The 2x1 tile at column 16777217
of a surface of one row, both pixels of index 1, lies inside the surface:
`GL_context_blit` paints the two cells white, while `GL_context_blit_r` with rotation 0
computes the source column as `(int)((float)16777217 + u)` (line 231), which is 16777216
for `u = 0` and for `u = 1`, below `tile.x`: the test of line 234 fails for both cells
and nothing is drawn. -/
theorem GL_context_blit_r_zero_counterexample :
    tile_inside (surf_row 16777217 [1, 1]) ⟨16777217, 0, 2, 1⟩ ∧
    box_inside ctx4 ⟨(1 : Int) - ((2 / 2 : Nat) : Int), (0 : Int) - ((1 / 2 : Nat) : Int)⟩
      2 1 ∧
    blit_r_sample ⟨16777217, 0, 2, 1⟩ (2 / 2) (1 / 2) 1 0 (blit_r_x (2 / 2) 0)
      (blit_r_x (1 / 2) 0) = (16777216, 0) ∧
    blit_r_sample ⟨16777217, 0, 2, 1⟩ (2 / 2) (1 / 2) 1 0 (blit_r_x (2 / 2) 1)
      (blit_r_x (1 / 2) 0) = (16777216, 0) ∧
    blit_r_inside ⟨16777217, 0, 2, 1⟩ 16777216 0 = false ∧
    ctx4.cell 0 0 = some ⟨1, 2, 3, 4⟩ ∧
    (GL_context_blit ctx4 (surf_row 16777217 [1, 1]) ⟨16777217, 0, 2, 1⟩
      ⟨(1 : Int) - ((2 / 2 : Nat) : Int), (0 : Int) - ((1 / 2 : Nat) : Int)⟩).bind
      (fun c' => c'.cell 0 0) = some white ∧
    (GL_context_blit_r ctx4 (surf_row 16777217 [1, 1]) ⟨16777217, 0, 2, 1⟩ ⟨1, 0⟩ 1 0).bind
      (fun c' => c'.cell 0 0) = some ⟨1, 2, 3, 4⟩ := by
  have p1 : (surf_row 16777217 [1, 1]).pixel 16777217 0 = some 1 :=
    surf_row_pixel_tail 16777217 [1, 1] 0
  have hS : (surf_row 16777217 [1, 1]).WF := surf_row_WF _ _ (by decide) (by decide)
  refine ⟨by decide, by decide, by decide!, by decide!, by decide, by decide, ?_, ?_⟩
  · obtain ⟨V, hV, _, hin, _⟩ := GL_context_blit_cells ctx4 (surf_row 16777217 [1, 1])
      ⟨16777217, 0, 2, 1⟩ ⟨(1 : Int) - ((2 / 2 : Nat) : Int),
        (0 : Int) - ((1 / 2 : Nat) : Int)⟩ ctx4_WF hS (by decide) (by decide)
    obtain ⟨p, index, t, color, old, e1, e2, e3, e4, e5, e6⟩ :=
      hin 0 0 (by decide) (by decide)
    have e1' : (surf_row 16777217 [1, 1]).pixel 16777217 0 = some p := e1
    rw [p1] at e1'
    cases e1'
    have hold : some old = some (⟨1, 2, 3, 4⟩ : GL_Color_t) := e5.symm.trans (by decide)
    cases hold
    rw [ctx4_shade 1 index t color ⟨1, 2, 3, 4⟩ ctx4 rfl rfl rfl (Or.inr rfl) e2 e3 e4] at e6
    rw [hV]
    exact e6
  · obtain ⟨V, hV, _, hin, _⟩ := GL_context_blit_r_cells ctx4 (surf_row 16777217 [1, 1])
      ⟨16777217, 0, 2, 1⟩ ⟨1, 0⟩ 1 0 ctx4_WF hS (by decide) (by decide)
    obtain ⟨old, e5, e6⟩ := hin 0 0 (by decide) (by decide)
    have hold : some old = some (⟨1, 2, 3, 4⟩ : GL_Color_t) := e5.symm.trans (by decide)
    cases hold
    have hr : rotatedPixel (surf_row 16777217 [1, 1]) ⟨16777217, 0, 2, 1⟩
        ((⟨16777217, 0, 2, 1⟩ : GL_Rectangle_t).width / 2)
        ((⟨16777217, 0, 2, 1⟩ : GL_Rectangle_t).height / 2) 1 0 0 0 = none := by decide!
    rw [hr] at e6
    rw [hV]
    exact e6

/-- C9 (amended): for `GL_context_blit_r` with `cos = 0`, `sin = 1` (rotation π/2), a
tile whose origin and size are at most `2^22` in magnitude and every integer offset
`(x, y)` from the centre of at most `2^22` in magnitude (in this range the binary32
operations of lines 228-232 and 243 are exact), the sampled source coordinate is
`(tile.x + half_width + y, tile.y + half_height - x)`, the offset `(y, -x)` from the
centre of the tile, and the loop body plots the surface pixel found there when that
coordinate passes the test of line 234, and writes nothing otherwise. -/
theorem blit_r_quarter_turn (context : GL_Context_t) (surface : GL_Surface_t)
    (tile : GL_Rectangle_t) (x y dst : Int) (vram : List GL_Color_t)
    (htx : within22 tile.x) (hty : within22 tile.y) (htw : within22 tile.width)
    (hth : within22 tile.height) (hx : within22 x) (hy : within22 y) :
    blit_r_sample tile (tile.width / 2) (tile.height / 2) 0 1 (x : ℚ) (y : ℚ) =
      (tile.x + ((tile.width / 2 : Nat) : Int) + y,
        tile.y + ((tile.height / 2 : Nat) : Int) - x) ∧
    blit_r_pixel context surface tile (tile.width / 2) (tile.height / 2) 0 1 (y : ℚ)
        ((x : ℚ), dst, vram) =
      (if blit_r_inside tile (tile.x + ((tile.width / 2 : Nat) : Int) + y)
          (tile.y + ((tile.height / 2 : Nat) : Int) - x) then
        (surface.pixel (tile.x + ((tile.width / 2 : Nat) : Int) + y)
          (tile.y + ((tile.height / 2 : Nat) : Int) - x)).bind (plot context vram dst)
      else some vram).map (fun v => ((x : ℚ) + 1, dst + 1, v)) := by
  unfold within22 at htx hty htw hth hx hy
  have es := blit_r_sample_quarter tile (tile.width / 2) (tile.height / 2) x y
    (by omega) (by omega) (by omega) (by omega) (by omega) (by omega) (by omega) (by omega)
    (by omega) (by omega) (by omega) (by omega) (by omega) (by omega) (by omega) (by omega)
    (by omega) (by omega)
  have e1 : (x : ℚ) + 1 = ((x + 1 : Int) : ℚ) := by push_cast; ring
  have f1 : f32 ((x : ℚ) + 1) = (x : ℚ) + 1 := by
    rw [e1]
    exact f32_intCast _ (by omega) (by omega)
  refine ⟨es, ?_⟩
  simp only [blit_r_pixel, es, f1, GL_Surface_t.pixel, Option.bind_eq_bind,
    Option.pure_def]
  split
  · rcases peek surface.data_rows (tile.y + ((tile.height / 2 : Nat) : Int) - x) with _ | row
    · rfl
    · simp only [Option.some_bind]
      rcases peek surface.data (row + (tile.x + ((tile.width / 2 : Nat) : Int) + y)) with _ | px
      · rfl
      · simp only [Option.some_bind]
        rcases plot context vram dst px with _ | v
        · rfl
        · rfl
  · rfl

/-- C9 (amended) at the 4x4 tile at the origin and the offset `(1, 0)`. -/
theorem blit_r_quarter_turn_witness :
    blit_r_sample ⟨0, 0, 4, 4⟩ ((⟨0, 0, 4, 4⟩ : GL_Rectangle_t).width / 2)
        ((⟨0, 0, 4, 4⟩ : GL_Rectangle_t).height / 2) 0 1 ((1 : Int) : ℚ) ((0 : Int) : ℚ) =
      ((⟨0, 0, 4, 4⟩ : GL_Rectangle_t).x +
          (((⟨0, 0, 4, 4⟩ : GL_Rectangle_t).width / 2 : Nat) : Int) + 0,
        (⟨0, 0, 4, 4⟩ : GL_Rectangle_t).y +
          (((⟨0, 0, 4, 4⟩ : GL_Rectangle_t).height / 2 : Nat) : Int) - 1) ∧
    blit_r_pixel ctx4 surf4 ⟨0, 0, 4, 4⟩ ((⟨0, 0, 4, 4⟩ : GL_Rectangle_t).width / 2)
        ((⟨0, 0, 4, 4⟩ : GL_Rectangle_t).height / 2) 0 1 ((0 : Int) : ℚ)
        (((1 : Int) : ℚ), 11, ctx4.vram) =
      (if blit_r_inside ⟨0, 0, 4, 4⟩ ((⟨0, 0, 4, 4⟩ : GL_Rectangle_t).x +
            (((⟨0, 0, 4, 4⟩ : GL_Rectangle_t).width / 2 : Nat) : Int) + 0)
          ((⟨0, 0, 4, 4⟩ : GL_Rectangle_t).y +
            (((⟨0, 0, 4, 4⟩ : GL_Rectangle_t).height / 2 : Nat) : Int) - 1) then
        (surf4.pixel ((⟨0, 0, 4, 4⟩ : GL_Rectangle_t).x +
            (((⟨0, 0, 4, 4⟩ : GL_Rectangle_t).width / 2 : Nat) : Int) + 0)
          ((⟨0, 0, 4, 4⟩ : GL_Rectangle_t).y +
            (((⟨0, 0, 4, 4⟩ : GL_Rectangle_t).height / 2 : Nat) : Int) - 1)).bind
          (plot ctx4 ctx4.vram 11)
      else some ctx4.vram).map (fun v => (((1 : Int) : ℚ) + 1, (11 : Int) + 1, v)) :=
  blit_r_quarter_turn ctx4 surf4 ⟨0, 0, 4, 4⟩ 1 0 11 ctx4.vram (by decide) (by decide)
    (by decide) (by decide) (by decide) (by decide)

/-- C9 as stated fails: for the 4x4 tile at the origin and the offset `(1, 0)`, the code
samples `(2, 1)`, not `(tile.x + half_width - y, tile.y + half_height + x) = (2, 3)`;
on the surface whose only opaque pixel is `(2, 1)` the cell at offset `(1, 0)` from the
centre `(2, 2)` is written.  The bound of the amended statement is needed: for the 2x2
tile at column 16777217 and the offset `(0, 0)` the sampled column is 16777216, not
`tile.x + half_width + y = 16777218`, the sum of line 231 being rounded to binary32. -/
theorem blit_r_quarter_turn_counterexample :
    blit_r_sample ⟨0, 0, 4, 4⟩ (4 / 2) (4 / 2) 0 1 1 0 = (2, 1) ∧
    blit_r_sample ⟨0, 0, 4, 4⟩ (4 / 2) (4 / 2) 0 1 1 0 ≠
      ((0 : Int) + ((4 / 2 : Nat) : Int) - 0, (0 : Int) + ((4 / 2 : Nat) : Int) + 1) ∧
    surf4.pixel 2 1 = some 1 ∧ surf4.pixel 2 3 = some 0 ∧
    ctx4.cell 3 2 = some ⟨1, 2, 3, 4⟩ ∧
    (GL_context_blit_r ctx4 surf4 ⟨0, 0, 4, 4⟩ ⟨2, 2⟩ 0 1).bind (fun c' => c'.cell 3 2) =
      some white ∧
    blit_r_sample ⟨16777217, 0, 2, 2⟩ (2 / 2) (2 / 2) 0 1 0 0 = (16777216, 1) ∧
    blit_r_sample ⟨16777217, 0, 2, 2⟩ (2 / 2) (2 / 2) 0 1 0 0 ≠
      ((16777217 : Int) + ((2 / 2 : Nat) : Int) + 0, (0 : Int) + ((2 / 2 : Nat) : Int) - 0) := by
  refine ⟨by decide!, by decide!, by decide, by decide, by decide, by decide!, by decide!,
    by decide!⟩

theorem to_int_lt (z : Int) (hz : 1 ≤ z) (q : ℚ) (hq : q < (z : ℚ)) : to_int q < z := by
  unfold to_int
  split
  · exact Int.floor_lt.mpr hq
  · rename_i hneg
    have : ⌈q⌉ ≤ 0 := Int.ceil_le.mpr (by push_cast; linarith)
    omega

theorem le_to_int (z : Int) (hz : 0 ≤ z) (q : ℚ) (hq : (z : ℚ) ≤ q) : z ≤ to_int q := by
  have h0 : (0 : ℚ) ≤ q := le_trans (by exact_mod_cast hz) hq
  unfold to_int
  rw [if_pos h0]
  exact Int.le_floor.mpr hq

/-- For a tile whose origin is not on the left or top edge of the surface, a source
coordinate `(q, r)` (the `float` values converted at lines 231-232) that lies outside the
tile before truncation fails the test of line 234. -/
theorem blit_r_rejects_outside (tile : GL_Rectangle_t) (q r : ℚ) (hx : 1 ≤ tile.x)
    (hy : 1 ≤ tile.y)
    (hout : ¬ ((tile.x : ℚ) ≤ q ∧ q < (tile.x : ℚ) + (tile.width : ℚ) ∧
      (tile.y : ℚ) ≤ r ∧ r < (tile.y : ℚ) + (tile.height : ℚ))) :
    blit_r_inside tile (to_int q) (to_int r) = false := by
  by_contra hin
  rw [Bool.not_eq_false] at hin
  simp only [blit_r_inside, decide_eq_true_eq] at hin
  obtain ⟨i1, i2, i3, i4⟩ := hin
  have sx := to_size_t_le (tile.x + tile.width) (by omega)
  have sy := to_size_t_le (tile.y + tile.height) (by omega)
  have i3 := lt_of_lt_of_le i3 (to_int32_le _ (by omega))
  have i4 := lt_of_lt_of_le i4 (to_int32_le _ (by omega))
  apply hout
  refine ⟨?_, ?_, ?_, ?_⟩
  · by_contra hu
    have := to_int_lt tile.x hx q (by linarith)
    omega
  · by_contra hu
    have := le_to_int (tile.x + tile.width) (by omega) q (by push_cast; linarith)
    omega
  · by_contra hv
    have := to_int_lt tile.y hy r (by linarith)
    omega
  · by_contra hv
    have := le_to_int (tile.y + tile.height) (by omega) r (by push_cast; linarith)
    omega

set_option maxRecDepth 100000 in
/-- C10 fails on the code at a tile whose origin is `0`: with `c = s = 11863283 / 2^24`
(the `float` nearest to `cos(π/4)`), the 2x2 tile at `(0, 0)` and the offset `(-1, -1)`,
the source column before truncation is `1 - 2c < 0 = tile.x`, outside the tile, but it
truncates to `0`, the test of line 234 passes, the surface pixel `(0, 1)` is read and
the destination cell `(0, 0)` is written. -/
theorem GL_context_blit_r_edge_leak :
    (0 : ℚ) + ((-1) * (11863283 / 16777216) + (-1) * (11863283 / 16777216) +
      ((2 / 2 : Nat) : ℚ)) < ((0 : Int) : ℚ) ∧
    blit_r_sample ⟨0, 0, 2, 2⟩ (2 / 2) (2 / 2) (11863283 / 16777216) (11863283 / 16777216)
      (-1) (-1) = (0, 1) ∧
    blit_r_inside ⟨0, 0, 2, 2⟩ 0 1 = true ∧
    ctx4.cell 0 0 = some ⟨1, 2, 3, 4⟩ ∧
    (GL_context_blit_r ctx4 surfB ⟨0, 0, 2, 2⟩ ⟨1, 1⟩ (11863283 / 16777216)
      (11863283 / 16777216)).bind (fun c' => c'.cell 0 0) = some white := by
  refine ⟨by norm_num, by decide!, by decide, by decide, by decide!⟩

/-- C5: in each of `GL_context_blit`, `GL_context_blit_s` (positive scales, every
sampled column and row in the surface) and `GL_context_blit_r` (any `cos`, `sin`), in
bounds, the call returns and every cell it plots from a source pixel `p` is written or
kept according to `transparent[shifting[p]]`, and the colour written is
`palette.colors[shifting[p]]`: the shifting table is applied before the transparency
test and the palette lookup.  The source pixel of a cell is the one the code reads: at
column `(int)u` and row `(int)v` for the scaled blit, `u` and `v` being the rounded
accumulations the loops hold, and at the rounded sample of lines 228-232 for the rotated
blit. -/
theorem shifting_before_lookup (c : GL_Context_t) (surface : GL_Surface_t)
    (tile : GL_Rectangle_t) (position : GL_Point_t) (sx sy cc ss : ℚ) (h : c.WF)
    (hs : surface.WF) (ht : tile_inside surface tile) :
    (box_inside c position tile.width tile.height →
      ∃ c', GL_context_blit c surface tile position = some c' ∧
        ∀ i : Nat, i < tile.height → ∀ j : Nat, j < tile.width →
          plotted_through_shifting c c' surface (tile.x + j) (tile.y + i)
            (position.x + j) (position.y + i)) ∧
    (0 < sx → 0 < sy →
      box_inside c position (blit_s_size sx tile.width) (blit_s_size sy tile.height) →
      (∀ j : Nat, j < blit_s_size sx tile.width →
        to_int (blit_s_u tile.x (blit_s_step sx) j) < surface.width) →
      (∀ i : Nat, i < blit_s_size sy tile.height →
        to_int (blit_s_u tile.y (blit_s_step sy) i) < surface.height) →
      ∃ c', GL_context_blit_s c surface tile position sx sy = some c' ∧
        ∀ i : Nat, i < blit_s_size sy tile.height →
          ∀ j : Nat, j < blit_s_size sx tile.width →
          plotted_through_shifting c c' surface
            (to_int (blit_s_u tile.x (blit_s_step sx) j))
            (to_int (blit_s_u tile.y (blit_s_step sy) i))
            (position.x + j) (position.y + i)) ∧
    (box_inside c ⟨position.x - ((tile.width / 2 : Nat) : Int),
        position.y - ((tile.height / 2 : Nat) : Int)⟩ tile.width tile.height →
      ∃ c', GL_context_blit_r c surface tile position cc ss = some c' ∧
        ∀ i : Nat, i < tile.height → ∀ j : Nat, j < tile.width →
          blit_r_inside tile
            (blit_r_sample tile (tile.width / 2) (tile.height / 2) cc ss
              (blit_r_x (tile.width / 2) j) (blit_r_x (tile.height / 2) i)).1
            (blit_r_sample tile (tile.width / 2) (tile.height / 2) cc ss
              (blit_r_x (tile.width / 2) j) (blit_r_x (tile.height / 2) i)).2 = true →
          plotted_through_shifting c c' surface
            (blit_r_sample tile (tile.width / 2) (tile.height / 2) cc ss
              (blit_r_x (tile.width / 2) j) (blit_r_x (tile.height / 2) i)).1
            (blit_r_sample tile (tile.width / 2) (tile.height / 2) cc ss
              (blit_r_x (tile.width / 2) j) (blit_r_x (tile.height / 2) i)).2
            (position.x - ((tile.width / 2 : Nat) : Int) + j)
            (position.y - ((tile.height / 2 : Nat) : Int) + i)) := by
  refine ⟨?_, ?_, ?_⟩
  · intro hb
    obtain ⟨V, hV, _, hin, _⟩ := GL_context_blit_cells c surface tile position h hs ht hb
    refine ⟨_, hV, ?_⟩
    intro i hi j hj
    obtain ⟨p, index, t, color, old, e1, e2, e3, e4, e5, e6⟩ := hin i j hi hj
    exact ⟨p, index, t, color, old, e1, e2, e3, e4, e5, e6⟩
  · intro hsx hsy hb hcol hrow
    obtain ⟨V, hV, _, hin, _⟩ :=
      GL_context_blit_s_cells c surface tile position sx sy h hs hsx.le hsy.le ht.1 ht.2.1
        hb hcol hrow
    refine ⟨_, hV, ?_⟩
    intro i hi j hj
    obtain ⟨p, index, t, color, old, e1, e2, e3, e4, e5, e6⟩ := hin i j hi hj
    exact ⟨p, index, t, color, old, e1, e2, e3, e4, e5, e6⟩
  · intro hb
    obtain ⟨V, hV, _, hin, _⟩ :=
      GL_context_blit_r_cells c surface tile position cc ss h hs ht hb
    refine ⟨_, hV, ?_⟩
    intro i hi j hj hins
    obtain ⟨old, o1, o2⟩ := hin i j hi hj
    obtain ⟨_, _, _, _, p, index, t, color, p1, _, p3, p4, p5, p6⟩ :=
      inside_pixel c h surface hs tile ht _ _ hins
    refine ⟨p, index, t, color, old, p1, p3, p4, p5, o1, ?_⟩
    rw [o2]
    simp only [rotatedPixel, hins, if_true, p1, p6]

set_option maxRecDepth 100000 in
/-- C5 at the context whose transparent index 0 is shifted to the opaque index 1: the
plain blit of the 2x2 test surface, its scaled blit by `3/2` (on the 3x3 box at the
origin) and its rotated blit by a quarter turn return and plot through the shifting
table; the pixel `(1, 0)` has index 0, `transparent[0]` is true,
`transparent[shifting[0]]` is false, and each of the three blits writes white the cell
it plots from that pixel: `(2, 1)` for the plain blit and `(2, 0)` for the scaled blit
(its column 2 samples column 1); the rotated blit writes white the cell `(1, 0)`, which
samples the pixel `(0, 1)`, also of index 0. -/
theorem shifting_before_lookup_witness :
    (∃ c', GL_context_blit ctx5 surf2 ⟨0, 0, 2, 2⟩ ⟨1, 1⟩ = some c' ∧
      ∀ i : Nat, i < 2 → ∀ j : Nat, j < 2 →
        plotted_through_shifting ctx5 c' surf2 ((0 : Int) + j) ((0 : Int) + i)
          ((1 : Int) + j) ((1 : Int) + i)) ∧
    (∃ c', GL_context_blit_s ctx5 surf2 ⟨0, 0, 2, 2⟩ ⟨0, 0⟩ (3 / 2) (3 / 2) = some c' ∧
      ∀ i : Nat, i < blit_s_size (3 / 2) 2 → ∀ j : Nat, j < blit_s_size (3 / 2) 2 →
        plotted_through_shifting ctx5 c' surf2
          (to_int (blit_s_u 0 (blit_s_step (3 / 2)) j))
          (to_int (blit_s_u 0 (blit_s_step (3 / 2)) i))
          ((0 : Int) + j) ((0 : Int) + i)) ∧
    (∃ c', GL_context_blit_r ctx5 surf2 ⟨0, 0, 2, 2⟩ ⟨1, 1⟩ 0 1 = some c' ∧
      ∀ i : Nat, i < 2 → ∀ j : Nat, j < 2 →
        blit_r_inside ⟨0, 0, 2, 2⟩
          (blit_r_sample ⟨0, 0, 2, 2⟩ (2 / 2) (2 / 2) 0 1
            (blit_r_x (2 / 2) j) (blit_r_x (2 / 2) i)).1
          (blit_r_sample ⟨0, 0, 2, 2⟩ (2 / 2) (2 / 2) 0 1
            (blit_r_x (2 / 2) j) (blit_r_x (2 / 2) i)).2 = true →
        plotted_through_shifting ctx5 c' surf2
          (blit_r_sample ⟨0, 0, 2, 2⟩ (2 / 2) (2 / 2) 0 1
            (blit_r_x (2 / 2) j) (blit_r_x (2 / 2) i)).1
          (blit_r_sample ⟨0, 0, 2, 2⟩ (2 / 2) (2 / 2) 0 1
            (blit_r_x (2 / 2) j) (blit_r_x (2 / 2) i)).2
          ((1 : Int) - ((2 / 2 : Nat) : Int) + j) ((1 : Int) - ((2 / 2 : Nat) : Int) + i)) ∧
    surf2.pixel 1 0 = some 0 ∧ ctx5.transparent[0]? = some true ∧
    transparent_at ctx5 surf2 1 0 = some false ∧
    (GL_context_blit ctx5 surf2 ⟨0, 0, 2, 2⟩ ⟨1, 1⟩).bind (fun c' => c'.cell 2 1) =
      some white ∧
    blit_s_size (3 / 2) 2 = 3 ∧
    to_int (blit_s_u 0 (blit_s_step (3 / 2)) 2) = 1 ∧
    (GL_context_blit_s ctx5 surf2 ⟨0, 0, 2, 2⟩ ⟨0, 0⟩ (3 / 2) (3 / 2)).bind
      (fun c' => c'.cell 2 0) = some white ∧
    blit_r_sample ⟨0, 0, 2, 2⟩ (2 / 2) (2 / 2) 0 1 (blit_r_x (2 / 2) 1)
      (blit_r_x (2 / 2) 0) = (0, 1) ∧
    surf2.pixel 0 1 = some 0 ∧
    (GL_context_blit_r ctx5 surf2 ⟨0, 0, 2, 2⟩ ⟨1, 1⟩ 0 1).bind
      (fun c' => c'.cell 1 0) = some white :=
  ⟨(shifting_before_lookup ctx5 surf2 ⟨0, 0, 2, 2⟩ ⟨1, 1⟩ 1 1 1 0 ctx5_WF surf2_WF
      (by decide)).1 (by decide),
    (shifting_before_lookup ctx5 surf2 ⟨0, 0, 2, 2⟩ ⟨0, 0⟩ (3 / 2) (3 / 2) 0 1 ctx5_WF
      surf2_WF (by decide)).2.1 (by norm_num) (by norm_num) (by decide!) (by decide!)
      (by decide!),
    (shifting_before_lookup ctx5 surf2 ⟨0, 0, 2, 2⟩ ⟨1, 1⟩ 1 1 0 1 ctx5_WF surf2_WF
      (by decide)).2.2 (by decide),
    by decide, by decide, by decide, by decide, by decide!, by decide!, by decide!,
    by decide!, by decide, by decide!⟩

/-! ## Claims on the setters -/

/-- C15: `GL_context_background` sets the background to `index` when
`index < palette.count`, and returns the context unchanged, prior background included,
when `index >= palette.count`. -/
theorem GL_context_background_guard (c : GL_Context_t) (index : GL_Pixel_t) :
    (index < c.palette.count →
      GL_context_background c index = { c with background := index }) ∧
    (c.palette.count ≤ index → GL_context_background c index = c) := by
  constructor
  · intro h
    simp [GL_context_background, h]
  · intro h
    simp [GL_context_background, h]

/-- C16: whatever `sx`, `sy` and `rotation`, `GL_context_blit_sr` has the result of
`GL_context_blit` for the same tile and position: the same VRAM when it returns, and no
result exactly when the plain blit has none. -/
theorem GL_context_blit_sr_plain (c : GL_Context_t) (surface : GL_Surface_t)
    (tile : GL_Rectangle_t) (position : GL_Point_t) (sx sy rotation : ℚ) :
    GL_context_blit_sr c surface tile position sx sy rotation =
        GL_context_blit c surface tile position ∧
      (GL_context_blit_sr c surface tile position sx sy rotation).map (fun c' => c'.vram) =
        (GL_context_blit c surface tile position).map (fun c' => c'.vram) :=
  ⟨rfl, rfl⟩

/-- C18: `GL_context_palette` makes the palette of the context equal to the given
palette, count and colours, and changes no other member; it is defined for every
palette, whatever the current background and shifting entries. -/
theorem GL_context_palette_replaces (c : GL_Context_t) (palette : GL_Palette_t) :
    (GL_context_palette c palette).palette = palette ∧
    (GL_context_palette c palette).palette.count = palette.count ∧
    (GL_context_palette c palette).palette.colors = palette.colors ∧
    (GL_context_palette c palette).background = c.background ∧
    (GL_context_palette c palette).shifting = c.shifting ∧
    (GL_context_palette c palette).transparent = c.transparent ∧
    (GL_context_palette c palette).width = c.width ∧
    (GL_context_palette c palette).height = c.height ∧
    (GL_context_palette c palette).vram = c.vram ∧
    GL_context_palette c palette = { c with palette := palette } :=
  ⟨rfl, rfl, rfl, rfl, rfl, rfl, rfl, rfl, rfl, rfl⟩

/-- A loop that stores `g i` at index `i` of a table, for `i < n`. -/
theorem reset_loop_spec {α : Type} (g : Nat → α) (body : Nat × List α → Option (Nat × List α))
    (hbody : ∀ s, body s = (poke s.2 (s.1 : Int) (g s.1)).map fun t => (s.1 + 1, t))
    (table : List α) (n : Nat) (hn : n ≤ table.length) :
    ∃ s, for_loop body n (0, table) = some s ∧ s.2.length = table.length ∧
      ∀ k, s.2[k]? = if k < n then some (g k) else table[k]? := by
  obtain ⟨s, hs, hinv⟩ := for_loop_inv body n
    (fun t s => s.1 = t ∧ s.2.length = table.length ∧
      ∀ k, s.2[k]? = if k < t then some (g k) else table[k]?)
    (0, table) ⟨rfl, rfl, fun k => by simp⟩
    (by
      rintro t ⟨i, v⟩ ht ⟨hd, hlen, hv⟩
      simp only at hd hlen hv
      subst hd
      have hlt : i < v.length := by omega
      refine ⟨(i + 1, v.set i (g i)), ?_, rfl, ?_, ?_⟩
      · simp [hbody, poke_natCast v i _ hlt]
      · simpa using hlen
      · intro k
        simp only [List.getElem?_set]
        by_cases hk : i = k
        · subst hk
          simp [hlt]
        · have : (k < i + 1) = (k < i) := by
            apply propext
            omega
          simp [hk, hv k, this])
  exact ⟨s, hs, hinv.2⟩

theorem to_pixel_lt (n : Nat) : to_pixel n < GL_MAX_PALETTE_COLORS :=
  Nat.mod_lt _ (by decide)

theorem to_pixel_eq (n : Nat) (h : n < GL_MAX_PALETTE_COLORS) : to_pixel n = n :=
  Nat.mod_eq_of_lt h

/-- C12: whatever the current shifting table (of the capacity of the array),
`GL_context_shifting` with a null mapping returns, leaves `shifting[i] = i` for every
`i < GL_MAX_PALETTE_COLORS`, and changes no other member of the context. -/
theorem GL_context_shifting_null (c : GL_Context_t) (to_ : List Nat) (count : Nat)
    (h : c.shifting.length = GL_MAX_PALETTE_COLORS) :
    ∃ c', GL_context_shifting c none to_ count = some c' ∧
      c' = { c with shifting := c'.shifting } ∧
      c'.shifting.length = GL_MAX_PALETTE_COLORS ∧
      ∀ i, i < GL_MAX_PALETTE_COLORS → c'.shifting[i]? = some i := by
  obtain ⟨s, hs, hlen, hv⟩ := reset_loop_spec to_pixel shifting_reset_body (fun _ => rfl)
    c.shifting GL_MAX_PALETTE_COLORS (by omega)
  refine ⟨{ c with shifting := s.2 }, ?_, rfl, by rw [← h]; exact hlen, ?_⟩
  · simp [GL_context_shifting, hs]
  · intro i hi
    simp only
    rw [hv i, if_pos hi, to_pixel_eq i hi]

set_option maxRecDepth 100000 in
/-- C12 at the test context whose entry 0 is shifted to 1. -/
theorem GL_context_shifting_null_witness :
    ctx5.shifting[0]? = some 1 ∧
    ∃ c', GL_context_shifting ctx5 none [] 0 = some c' ∧
      c' = { ctx5 with shifting := c'.shifting } ∧
      c'.shifting.length = GL_MAX_PALETTE_COLORS ∧
      ∀ i, i < GL_MAX_PALETTE_COLORS → c'.shifting[i]? = some i :=
  ⟨by decide, GL_context_shifting_null ctx5 [] 0 (by decide)⟩

/-- C13: whatever the current transparency table (of the capacity of the array),
`GL_context_transparent` with a null mapping returns, leaves `transparent[0]` true and
`transparent[i]` false for every `1 <= i < GL_MAX_PALETTE_COLORS`, and changes no other
member of the context. -/
theorem GL_context_transparent_null (c : GL_Context_t) (flags : List Bool) (count : Nat)
    (h : c.transparent.length = GL_MAX_PALETTE_COLORS) :
    ∃ c', GL_context_transparent c none flags count = some c' ∧
      c' = { c with transparent := c'.transparent } ∧
      c'.transparent.length = GL_MAX_PALETTE_COLORS ∧
      c'.transparent[0]? = some true ∧
      ∀ i, 1 ≤ i → i < GL_MAX_PALETTE_COLORS → c'.transparent[i]? = some false := by
  obtain ⟨s, hs, hlen, hv⟩ := reset_loop_spec (fun _ => false) transparent_reset_body
    (fun _ => rfl) c.transparent GL_MAX_PALETTE_COLORS (by omega)
  have h0 : 0 < s.2.length := by
    rw [hlen, h]
    decide
  refine ⟨{ c with transparent := s.2.set 0 true }, ?_, rfl, ?_, ?_, ?_⟩
  · have hp := poke_natCast s.2 0 true h0
    simp only [Nat.cast_zero] at hp
    simp [GL_context_transparent, hs, hp]
  · simp only [List.length_set]
    rw [hlen, h]
  · simp only
    rw [List.getElem?_set_eq_of_lt _ h0]
  · intro i hi1 hi2
    simp only
    rw [List.getElem?_set_ne (by omega), hv i, if_pos hi2]

set_option maxRecDepth 100000 in
/-- C13 at a context whose transparency table has every index transparent. -/
theorem GL_context_transparent_null_witness :
    ∃ c', GL_context_transparent { ctx4 with transparent := List.replicate 256 true } none
        [] 0 = some c' ∧
      c' = { ({ ctx4 with transparent := List.replicate 256 true } : GL_Context_t) with
        transparent := c'.transparent } ∧
      c'.transparent.length = GL_MAX_PALETTE_COLORS ∧
      c'.transparent[0]? = some true ∧
      ∀ i, 1 ≤ i → i < GL_MAX_PALETTE_COLORS → c'.transparent[i]? = some false :=
  GL_context_transparent_null { ctx4 with transparent := List.replicate 256 true } [] 0
    (by decide)

/-! ## Sparse updates of a table -/

theorem patch_length {α : Type} (pairs : List (Nat × α)) :
    ∀ table : List α, (patch table pairs).length = table.length := by
  induction pairs with
  | nil => intro table; rfl
  | cons p ps ih =>
    intro table
    have := ih (table.set p.1 p.2)
    simpa [patch] using this

theorem patch_append_one {α : Type} (table : List α) (pairs : List (Nat × α)) (p : Nat × α) :
    patch table (pairs ++ [p]) = (patch table pairs).set p.1 p.2 := by
  simp [patch, List.foldl_append]

theorem patch_append {α : Type} (table : List α) (l1 l2 : List (Nat × α)) :
    patch table (l1 ++ l2) = patch (patch table l1) l2 := by
  simp [patch, List.foldl_append]

/-- An index that no pair names keeps its entry. -/
theorem patch_get_not_mem {α : Type} (pairs : List (Nat × α)) (k : Nat) :
    ∀ table : List α, k ∉ pairs.map Prod.fst → (patch table pairs)[k]? = table[k]? := by
  induction pairs with
  | nil => intro table _; rfl
  | cons p ps ih =>
    intro table hk
    simp only [List.map_cons, List.mem_cons, not_or] at hk
    have h1 := ih (table.set p.1 p.2) hk.2
    have h2 : (table.set p.1 p.2)[k]? = table[k]? :=
      List.getElem?_set_ne (fun e => hk.1 e.symm)
    rw [← h2, ← h1]
    rfl

/-- The last pair that names a given index. -/
theorem last_pair {α : Type} (k : Nat) :
    ∀ pairs : List (Nat × α), k ∈ pairs.map Prod.fst →
      ∃ l1 v l2, pairs = l1 ++ (k, v) :: l2 ∧ k ∉ l2.map Prod.fst := by
  intro pairs
  induction pairs with
  | nil => intro h; simp at h
  | cons p ps ih =>
    intro h
    by_cases hk : k ∈ ps.map Prod.fst
    · obtain ⟨l1, v, l2, e, hn⟩ := ih hk
      exact ⟨p :: l1, v, l2, by rw [e]; rfl, hn⟩
    · simp only [List.map_cons, List.mem_cons] at h
      rcases h with h | h
      · refine ⟨[], p.2, ps, ?_, hk⟩
        rw [h]
        rfl
      · exact absurd h hk

/-- An index that some pair names holds the value of the last pair that names it. -/
theorem patch_get_mem {α : Type} (table : List α) (pairs : List (Nat × α)) (k : Nat)
    (hk : k ∈ pairs.map Prod.fst) (hlt : k < table.length) :
    ∃ l1 v l2, pairs = l1 ++ (k, v) :: l2 ∧ k ∉ l2.map Prod.fst ∧
      (patch table pairs)[k]? = some v := by
  obtain ⟨l1, v, l2, e, hn⟩ := last_pair k pairs hk
  refine ⟨l1, v, l2, e, hn, ?_⟩
  have h1 : patch table pairs = patch ((patch table l1).set k v) l2 := by
    rw [e, patch_append]
    rfl
  rw [h1, patch_get_not_mem l2 k _ hn]
  exact List.getElem?_set_eq_of_lt _ (by rw [patch_length]; exact hlt)

/-- When no index is named twice, every pair is held. -/
theorem patch_get_nodup {α : Type} (table : List α) (pairs : List (Nat × α))
    (hnd : (pairs.map Prod.fst).Nodup) (p : Nat × α) (hp : p ∈ pairs)
    (hlt : p.1 < table.length) :
    (patch table pairs)[p.1]? = some p.2 := by
  obtain ⟨l1, v, l2, e, hn, hv⟩ :=
    patch_get_mem table pairs p.1 (List.mem_map_of_mem Prod.fst hp) hlt
  rw [hv]
  rw [e] at hp hnd
  simp only [List.map_append, List.map_cons] at hnd
  have hnd' := List.nodup_append.mp hnd
  rcases List.mem_append.mp hp with h1 | h1
  · exfalso
    exact hnd'.2.2 (List.mem_map_of_mem Prod.fst h1) (List.mem_cons_self _ _)
  · rcases List.mem_cons.mp h1 with h2 | h2
    · rw [h2]
    · exfalso
      exact hn (List.mem_map_of_mem Prod.fst h2)

/-- A loop that stores `conv vs[i]` at index `ix[i]` of a table, for `i < count`. -/
theorem patch_loop_spec {α β : Type} (conv : β → α)
    (body : Nat × List α → Option (Nat × List α)) (ix : List Nat) (vs : List β)
    (hbody : ∀ s, body s = (ix[s.1]?).bind fun f => (vs[s.1]?).bind fun t =>
      (poke s.2 (f : Int) (conv t)).bind fun table => some (s.1 + 1, table))
    (table : List α) (count : Nat) (h1 : count ≤ ix.length) (h2 : count ≤ vs.length)
    (h3 : ∀ f ∈ ix.take count, f < table.length) :
    for_loop body count (0, table) =
      some (count, patch table (((ix.zip vs).take count).map fun p => (p.1, conv p.2))) := by
  obtain ⟨s, hs, hinv⟩ := for_loop_inv body count
    (fun t s => s = (t, patch table (((ix.zip vs).take t).map fun p => (p.1, conv p.2))))
    (0, table) (by simp [patch])
    (by
      rintro t s ht rfl
      have hi : t < ix.length := by omega
      have hv : t < vs.length := by omega
      have hz : t < (ix.zip vs).length := by
        simp only [List.length_zip]
        omega
      have hmem : ix[t] ∈ ix.take count :=
        List.mem_take_iff_getElem.mpr ⟨t, by simp only [lt_min_iff]; omega, rfl⟩
      have hlt : ix[t] < (patch table
          (((ix.zip vs).take t).map fun p => (p.1, conv p.2))).length := by
        rw [patch_length]
        exact h3 _ hmem
      refine ⟨_, ?_, rfl⟩
      rw [hbody]
      simp only [List.getElem?_eq_getElem hi, List.getElem?_eq_getElem hv, Option.some_bind,
        poke_natCast _ _ _ hlt, Option.some.injEq, Prod.mk.injEq, true_and]
      rw [List.take_succ, List.getElem?_eq_getElem hz, List.getElem_zip]
      simp only [Option.toList, List.map_append, List.map_cons, List.map_nil]
      rw [patch_append_one])
  rw [hs, hinv]

theorem zip_take {α β : Type} (a : List α) (b : List β) (n : Nat) :
    (a.zip b).take n = (a.take n).zip (b.take n) := by
  rw [List.zip_eq_zipWith, List.take_zipWith, ← List.zip_eq_zipWith]

theorem zip_take_fst {α β : Type} (a : List α) (b : List β) (n : Nat)
    (ha : n ≤ a.length) (hb : n ≤ b.length) :
    ((a.zip b).take n).map Prod.fst = a.take n := by
  rw [zip_take]
  apply List.map_fst_zip
  simp only [List.length_take]
  omega

theorem zip_take_mem {α β : Type} (a : List α) (b : List β) (n : Nat) (p : α × β)
    (hp : p ∈ (a.zip b).take n) : p.1 ∈ a.take n ∧ p.2 ∈ b.take n := by
  rw [zip_take] at hp
  exact List.of_mem_zip hp

/-- C11: for a non-null mapping of `count` pairs `(from[i], to[i])` with in-range
indices, `GL_context_shifting` returns and changes the shifting table only: every entry
whose index is not a `from` of the mapping keeps its prior value (it is not reset), and
every entry whose index is a `from` holds the `to` paired with it, that of the last pair
naming it; when no `from` is repeated, every pair `(from, to)` has `shifting[from] = to`. -/
theorem GL_context_shifting_sparse (c : GL_Context_t) (from_ to_ : List Nat) (count : Nat)
    (h : c.shifting.length = GL_MAX_PALETTE_COLORS)
    (hf : count ≤ from_.length) (ht : count ≤ to_.length)
    (hfr : ∀ f ∈ from_.take count, f < GL_MAX_PALETTE_COLORS)
    (hto : ∀ t ∈ to_.take count, t < GL_MAX_PALETTE_COLORS) :
    ∃ c', GL_context_shifting c (some from_) to_ count = some c' ∧
      c' = { c with shifting := c'.shifting } ∧
      c'.shifting.length = c.shifting.length ∧
      (∀ k, k ∉ from_.take count → c'.shifting[k]? = c.shifting[k]?) ∧
      (∀ k, k ∈ from_.take count →
        ∃ l1 t l2, (from_.zip to_).take count = l1 ++ (k, t) :: l2 ∧
          k ∉ l2.map Prod.fst ∧ c'.shifting[k]? = some t) ∧
      ((from_.take count).Nodup →
        ∀ p ∈ (from_.zip to_).take count, c'.shifting[p.1]? = some p.2) := by
  have hloop := patch_loop_spec to_pixel (shifting_patch_body from_ to_) from_ to_
    (fun _ => rfl) c.shifting count hf ht (by rw [h]; exact hfr)
  have hmap : (((from_.zip to_).take count).map fun p => (p.1, to_pixel p.2)) =
      (from_.zip to_).take count := by
    have : ∀ p ∈ (from_.zip to_).take count,
        (fun p : Nat × Nat => (p.1, to_pixel p.2)) p = id p := by
      intro p hp
      have := hto _ (zip_take_mem from_ to_ count p hp).2
      simp only [id, to_pixel_eq _ this]
    rw [List.map_congr_left this, List.map_id]
  rw [hmap] at hloop
  have hfst := zip_take_fst from_ to_ count hf ht
  refine ⟨{ c with shifting := patch c.shifting ((from_.zip to_).take count) }, ?_, rfl,
    patch_length _ _, ?_, ?_, ?_⟩
  · simp [GL_context_shifting, hloop]
  · intro k hk
    exact patch_get_not_mem _ k _ (by rw [hfst]; exact hk)
  · intro k hk
    exact patch_get_mem _ _ k (by rw [hfst]; exact hk) (by rw [h]; exact hfr k hk)
  · intro hnd p hp
    exact patch_get_nodup _ _ (by rw [hfst]; exact hnd) p hp
      (by rw [h]; exact hfr _ (zip_take_mem from_ to_ count p hp).1)

set_option maxRecDepth 100000 in
/-- C11 at the context whose entry 0 is shifted to 1, with the mapping `3 -> 5, 7 -> 2`:
entry 0 keeps the value 1 (the identity would be 0), entries 3 and 7 hold 5 and 2. -/
theorem GL_context_shifting_sparse_witness :
    (∃ c', GL_context_shifting ctx5 (some [3, 7]) [5, 2] 2 = some c' ∧
      c' = { ctx5 with shifting := c'.shifting } ∧
      c'.shifting.length = ctx5.shifting.length ∧
      (∀ k, k ∉ [3, 7].take 2 → c'.shifting[k]? = ctx5.shifting[k]?) ∧
      (∀ k, k ∈ [3, 7].take 2 →
        ∃ l1 t l2, ([3, 7].zip [5, 2]).take 2 = l1 ++ (k, t) :: l2 ∧
          k ∉ l2.map Prod.fst ∧ c'.shifting[k]? = some t) ∧
      (([3, 7].take 2).Nodup →
        ∀ p ∈ ([3, 7].zip [5, 2]).take 2, c'.shifting[p.1]? = some p.2)) ∧
    (GL_context_shifting ctx5 (some [3, 7]) [5, 2] 2).map
        (fun c' => c'.shifting.take 8) = some [1, 1, 2, 5, 4, 5, 6, 2] :=
  ⟨GL_context_shifting_sparse ctx5 [3, 7] [5, 2] 2 (by decide) (by decide) (by decide)
    (by decide) (by decide), by decide⟩

/-- C14: for a non-null mapping of `count` pairs `(indexes[i], transparent[i])` with
in-range indices, `GL_context_transparent` returns and changes the transparency table
only: every index that is not listed keeps its prior flag (the table is not reset to
the default), and every listed index holds the flag given with it, that of the last
pair naming it; when no index is repeated, every pair `(index, flag)` has
`transparent[index] = flag`. -/
theorem GL_context_transparent_sparse (c : GL_Context_t) (indexes : List GL_Pixel_t)
    (flags : List Bool) (count : Nat)
    (h : c.transparent.length = GL_MAX_PALETTE_COLORS)
    (hf : count ≤ indexes.length) (ht : count ≤ flags.length)
    (hfr : ∀ f ∈ indexes.take count, f < GL_MAX_PALETTE_COLORS) :
    ∃ c', GL_context_transparent c (some indexes) flags count = some c' ∧
      c' = { c with transparent := c'.transparent } ∧
      c'.transparent.length = c.transparent.length ∧
      (∀ k, k ∉ indexes.take count → c'.transparent[k]? = c.transparent[k]?) ∧
      (∀ k, k ∈ indexes.take count →
        ∃ l1 t l2, (indexes.zip flags).take count = l1 ++ (k, t) :: l2 ∧
          k ∉ l2.map Prod.fst ∧ c'.transparent[k]? = some t) ∧
      ((indexes.take count).Nodup →
        ∀ p ∈ (indexes.zip flags).take count, c'.transparent[p.1]? = some p.2) := by
  have hloop := patch_loop_spec id (transparent_patch_body indexes flags) indexes flags
    (fun _ => rfl) c.transparent count hf ht (by rw [h]; exact hfr)
  have hmap : (((indexes.zip flags).take count).map fun p => (p.1, id p.2)) =
      (indexes.zip flags).take count := List.map_id'' (fun _ => rfl) _
  rw [hmap] at hloop
  have hfst := zip_take_fst indexes flags count hf ht
  refine ⟨{ c with transparent := patch c.transparent ((indexes.zip flags).take count) }, ?_,
    rfl, patch_length _ _, ?_, ?_, ?_⟩
  · simp [GL_context_transparent, hloop]
  · intro k hk
    exact patch_get_not_mem _ k _ (by rw [hfst]; exact hk)
  · intro k hk
    exact patch_get_mem _ _ k (by rw [hfst]; exact hk) (by rw [h]; exact hfr k hk)
  · intro hnd p hp
    exact patch_get_nodup _ _ (by rw [hfst]; exact hnd) p hp
      (by rw [h]; exact hfr _ (zip_take_mem indexes flags count p hp).1)

set_option maxRecDepth 100000 in
/-- C14 at a context whose indices 0 and 4 are transparent, with the mapping
`0 -> false, 2 -> true`: index 4 keeps its flag (the default would clear it), index 0
is opaque and index 2 transparent. -/
theorem GL_context_transparent_sparse_witness :
    (∃ c', GL_context_transparent ctx6 (some [0, 2]) [false, true] 2 = some c' ∧
      c' = { ctx6 with transparent := c'.transparent } ∧
      c'.transparent.length = ctx6.transparent.length ∧
      (∀ k, k ∉ [0, 2].take 2 → c'.transparent[k]? = ctx6.transparent[k]?) ∧
      (∀ k, k ∈ [0, 2].take 2 →
        ∃ l1 t l2, ([0, 2].zip [false, true]).take 2 = l1 ++ (k, t) :: l2 ∧
          k ∉ l2.map Prod.fst ∧ c'.transparent[k]? = some t) ∧
      (([0, 2].take 2).Nodup →
        ∀ p ∈ ([0, 2].zip [false, true]).take 2, c'.transparent[p.1]? = some p.2)) ∧
    (GL_context_transparent ctx6 (some [0, 2]) [false, true] 2).map
        (fun c' => c'.transparent.take 5) = some [false, false, true, false, true] :=
  ⟨GL_context_transparent_sparse ctx6 [0, 2] [false, true] 2 (by decide) (by decide)
    (by decide) (by decide), by decide⟩

/-! ## `GL_context_initialize` -/

theorem initialize_tables_spec :
    ∃ s, for_loop initialize_tables_body GL_MAX_PALETTE_COLORS
        (0, List.replicate GL_MAX_PALETTE_COLORS 0,
          List.replicate GL_MAX_PALETTE_COLORS false) = some s ∧
      s.2.1.length = GL_MAX_PALETTE_COLORS ∧ s.2.2.length = GL_MAX_PALETTE_COLORS ∧
      (∀ k, k < GL_MAX_PALETTE_COLORS → s.2.1[k]? = some k) ∧
      (∀ k, k < GL_MAX_PALETTE_COLORS → s.2.2[k]? = some false) := by
  obtain ⟨s, hs, _, h1, h2, h3, h4⟩ := for_loop_inv initialize_tables_body
    GL_MAX_PALETTE_COLORS
    (fun t s => s.1 = t ∧ s.2.1.length = GL_MAX_PALETTE_COLORS ∧
      s.2.2.length = GL_MAX_PALETTE_COLORS ∧
      (∀ k, k < t → s.2.1[k]? = some k) ∧ (∀ k, k < t → s.2.2[k]? = some false))
    (0, List.replicate GL_MAX_PALETTE_COLORS 0, List.replicate GL_MAX_PALETTE_COLORS false)
    ⟨rfl, List.length_replicate _ _, List.length_replicate _ _,
      fun k hk => absurd hk (Nat.not_lt_zero k), fun k hk => absurd hk (Nat.not_lt_zero k)⟩
    (by
      rintro t ⟨i, sh, tr⟩ ht ⟨e0, e1, e2, e3, e4⟩
      simp only at e0 e1 e2 e3 e4
      subst e0
      have l1 : i < sh.length := by omega
      have l2 : i < tr.length := by omega
      refine ⟨(i + 1, sh.set i (to_pixel i), tr.set i false), ?_, rfl, by simpa using e1,
        by simpa using e2, ?_, ?_⟩
      · simp [initialize_tables_body, poke_natCast sh i _ l1, poke_natCast tr i _ l2]
      · intro k hk
        simp only
        by_cases hki : k = i
        · subst hki
          rw [List.getElem?_set_eq_of_lt _ l1, to_pixel_eq _ ht]
        · rw [List.getElem?_set_ne (fun e => hki e.symm)]
          exact e3 k (by omega)
      · intro k hk
        simp only
        by_cases hki : k = i
        · subst hki
          rw [List.getElem?_set_eq_of_lt _ l2]
        · rw [List.getElem?_set_ne (fun e => hki e.symm)]
          exact e4 k (by omega))
  exact ⟨s, hs, h1, h2, h3, h4⟩

/-- What a successful `GL_context_initialize` returns. -/
theorem GL_context_initialize_spec (context : GL_Context_t) (width height : Nat)
    (vram : List GL_Color_t) (vram_rows : List Int)
    (ha : allocated width height vram vram_rows) :
    ∃ rows sh tr, GL_context_initialize context width height (some vram) (some vram_rows) =
        some (true,
          { width := width
            height := height
            stride := to_size_t (width * 4)
            vram := vram
            vram_rows := rows
            vram_size := width * height
            palette := GL_palette_greyscale GL_MAX_PALETTE_COLORS
            shifting := sh
            transparent := tr
            background := 0 }) ∧
      rows.length = height ∧
      (∀ i : Nat, i < height → rows[i]? = some ((width * i : Nat) : Int)) ∧
      sh.length = GL_MAX_PALETTE_COLORS ∧
      (∀ k, k < GL_MAX_PALETTE_COLORS → sh[k]? = some k) ∧
      tr.length = GL_MAX_PALETTE_COLORS ∧ tr[0]? = some true ∧
      (∀ k, 1 ≤ k → k < GL_MAX_PALETTE_COLORS → tr[k]? = some false) := by
  obtain ⟨a1, a2, a3, a4, a5⟩ := ha
  have hwh : width * height < 2 ^ 64 := by omega
  obtain ⟨r, hr, rlen, rv⟩ := reset_loop_spec (fun i => ((to_size_t (width * i) : Nat) : Int))
    (initialize_rows_body width) (fun _ => rfl) vram_rows height (by omega)
  obtain ⟨t, ht, t1, t2, t3, t4⟩ := initialize_tables_spec
  have h0 : 0 < t.2.2.length := by
    rw [t2]
    decide
  have hp := poke_natCast t.2.2 0 true h0
  simp only [Nat.cast_zero] at hp
  have hsz : to_size_t ((width : Int) * (height : Int)) = width * height := by
    rw [← Nat.cast_mul, to_size_t_natCast _ hwh]
  refine ⟨r.2, t.2.1, t.2.2.set 0 true, ?_, by rw [rlen, a5], ?_, t1, t3, ?_, ?_, ?_⟩
  · simp only [ GL_context_initialize, hr, ht, hp, hsz, Option.bind_eq_bind, Option.some_bind,
      Option.pure_def]
  · intro i hi
    rw [rv i, if_pos hi]
    have hle : width * i ≤ width * height := Nat.mul_le_mul_left width hi.le
    rw [← Nat.cast_mul, to_size_t_natCast _ (by omega)]
  · rw [List.length_set, t2]
  · exact List.getElem?_set_eq_of_lt _ h0
  · intro k hk1 hk2
    rw [List.getElem?_set_ne (by omega)]
    exact t4 k hk2

/-- C17: when both allocations succeed, `GL_context_initialize` returns `true` and the
context has the given width and height, `vram_size = width * height`, `background = 0`,
`shifting[i] = i` for every `i < GL_MAX_PALETTE_COLORS`, `transparent[0]` true and
`transparent[i]` false for every other `i`. -/
theorem GL_context_initialize_defaults (context : GL_Context_t) (width height : Nat)
    (vram : List GL_Color_t) (vram_rows : List Int)
    (ha : allocated width height vram vram_rows) :
    ∃ c, GL_context_initialize context width height (some vram) (some vram_rows) =
        some (true, c) ∧
      c.width = width ∧ c.height = height ∧ c.vram_size = width * height ∧
      c.background = 0 ∧
      (∀ i, i < GL_MAX_PALETTE_COLORS → c.shifting[i]? = some i) ∧
      c.transparent[0]? = some true ∧
      (∀ i, 1 ≤ i → i < GL_MAX_PALETTE_COLORS → c.transparent[i]? = some false) := by
  obtain ⟨rows, sh, tr, hc, _, _, _, h4, _, h6, h7⟩ :=
    GL_context_initialize_spec context width height vram vram_rows ha
  exact ⟨_, hc, rfl, rfl, rfl, rfl, h4, h6, h7⟩

set_option maxRecDepth 100000 in
/-- C17 for a 3x2 context, over the 4x4 test context as prior value of `*context`. -/
theorem GL_context_initialize_defaults_witness :
    ∃ c, GL_context_initialize ctx4 3 2 (some (List.replicate 6 ⟨9, 9, 9, 9⟩))
        (some [7, 7]) = some (true, c) ∧
      c.width = 3 ∧ c.height = 2 ∧ c.vram_size = 3 * 2 ∧ c.background = 0 ∧
      (∀ i, i < GL_MAX_PALETTE_COLORS → c.shifting[i]? = some i) ∧
      c.transparent[0]? = some true ∧
      (∀ i, 1 ≤ i → i < GL_MAX_PALETTE_COLORS → c.transparent[i]? = some false) :=
  GL_context_initialize_defaults ctx4 3 2 (List.replicate 6 ⟨9, 9, 9, 9⟩) [7, 7] (by decide)

/-! ## Every operation keeps a context well formed -/

/-- Loop rule: a property of the state that every iteration keeps. -/
theorem for_loop_preserves {σ : Type} (body : σ → Option σ) (P : σ → Prop)
    (hstep : ∀ s s', P s → body s = some s' → P s') :
    ∀ (n : Nat) (s s' : σ), P s → for_loop body n s = some s' → P s' := by
  intro n
  induction n with
  | zero =>
    intro s s' hp h
    simp only [for_loop, Option.some.injEq] at h
    rw [← h]
    exact hp
  | succ n ih =>
    intro s s' hp h
    simp only [for_loop, Option.bind_eq_bind, Option.bind_eq_some] at h
    obtain ⟨s1, h1, h2⟩ := h
    exact ih s1 s' (hstep s s1 hp h1) h2

theorem poke_some {α : Type} (xs ys : List α) (p : Int) (v : α) (h : poke xs p v = some ys) :
    ys = xs.set p.toNat v := by
  unfold poke at h
  split at h
  · simpa using h.symm
  · simp at h

theorem poke_length {α : Type} (xs ys : List α) (p : Int) (v : α)
    (h : poke xs p v = some ys) : ys.length = xs.length := by
  rw [poke_some xs ys p v h, List.length_set]

theorem plot_length (c : GL_Context_t) (vram V : List GL_Color_t) (dst : Int)
    (pixel : GL_Pixel_t) (h : plot c vram dst pixel = some V) : V.length = vram.length := by
  simp only [plot, Option.bind_eq_bind, Option.bind_eq_some] at h
  obtain ⟨index, _, skip, _, h3⟩ := h
  split at h3
  · simp only [Option.pure_def, Option.some.injEq] at h3
    rw [← h3]
  · simp only [Option.bind_eq_some] at h3
    obtain ⟨color, _, h5⟩ := h3
    exact poke_length _ _ _ _ h5

theorem GL_context_clear_vram (c c' : GL_Context_t) (h : GL_context_clear c = some c') :
    ∃ V, c' = { c with vram := V } ∧ V.length = c.vram.length := by
  simp only [GL_context_clear, Option.bind_eq_bind, Option.bind_eq_some, Option.pure_def,
    Option.some.injEq] at h
  obtain ⟨color, _, s, hs, hc⟩ := h
  refine ⟨s.2, hc.symm, ?_⟩
  refine for_loop_preserves (clear_body color) (fun s => s.2.length = c.vram.length) ?_ _ _ _
    rfl hs
  intro s s' hp hb
  simp only [clear_body, Option.map_eq_some'] at hb
  obtain ⟨v, hv, rfl⟩ := hb
  simp only
  rw [poke_length _ _ _ _ hv]
  exact hp

theorem GL_context_blit_vram (c c' : GL_Context_t) (surface : GL_Surface_t)
    (tile : GL_Rectangle_t) (position : GL_Point_t)
    (h : GL_context_blit c surface tile position = some c') :
    ∃ V, c' = { c with vram := V } ∧ V.length = c.vram.length := by
  simp only [GL_context_blit, Option.bind_eq_bind, Option.bind_eq_some, Option.pure_def,
    Option.some.injEq] at h
  obtain ⟨dst, _, src, _, s, hs, hc⟩ := h
  refine ⟨s.2.2, hc.symm, ?_⟩
  refine for_loop_preserves _ (fun s => s.2.2.length = c.vram.length) ?_ _ _ _ rfl hs
  intro s s' hp hb
  simp only [blit_row, Option.bind_eq_bind, Option.bind_eq_some, Option.pure_def,
    Option.some.injEq] at hb
  obtain ⟨r, hr, rfl⟩ := hb
  simp only
  refine for_loop_preserves _ (fun s => s.2.2.length = c.vram.length) ?_ _ _ _ hp hr
  intro s s' hp hb
  simp only [blit_pixel, Option.bind_eq_bind, Option.bind_eq_some, Option.pure_def,
    Option.some.injEq] at hb
  obtain ⟨pixel, _, v, hv, rfl⟩ := hb
  simp only
  rw [plot_length _ _ _ _ _ hv]
  exact hp

theorem GL_context_blit_s_vram (c c' : GL_Context_t) (surface : GL_Surface_t)
    (tile : GL_Rectangle_t) (position : GL_Point_t) (sx sy : ℚ)
    (h : GL_context_blit_s c surface tile position sx sy = some c') :
    ∃ V, c' = { c with vram := V } ∧ V.length = c.vram.length := by
  simp only [GL_context_blit_s, Option.bind_eq_bind, Option.bind_eq_some, Option.pure_def,
    Option.some.injEq] at h
  obtain ⟨dst, _, s, hs, hc⟩ := h
  refine ⟨s.2.2, hc.symm, ?_⟩
  refine for_loop_preserves _ (fun s => s.2.2.length = c.vram.length) ?_ _ _ _ rfl hs
  intro s s' hp hb
  simp only [blit_s_row, Option.bind_eq_bind, Option.bind_eq_some, Option.pure_def,
    Option.some.injEq] at hb
  obtain ⟨src, _, r, hr, rfl⟩ := hb
  simp only
  refine for_loop_preserves _ (fun s => s.2.2.length = c.vram.length) ?_ _ _ _ hp hr
  intro s s' hp hb
  simp only [blit_s_pixel, Option.bind_eq_bind, Option.bind_eq_some, Option.pure_def,
    Option.some.injEq] at hb
  obtain ⟨pixel, _, v, hv, rfl⟩ := hb
  simp only
  rw [plot_length _ _ _ _ _ hv]
  exact hp

theorem GL_context_blit_r_vram (c c' : GL_Context_t) (surface : GL_Surface_t)
    (tile : GL_Rectangle_t) (position : GL_Point_t) (cc ss : ℚ)
    (h : GL_context_blit_r c surface tile position cc ss = some c') :
    ∃ V, c' = { c with vram := V } ∧ V.length = c.vram.length := by
  simp only [GL_context_blit_r, Option.bind_eq_bind, Option.bind_eq_some, Option.pure_def,
    Option.some.injEq] at h
  obtain ⟨dst, _, s, hs, hc⟩ := h
  refine ⟨s.2.2, hc.symm, ?_⟩
  refine for_loop_preserves _ (fun s => s.2.2.length = c.vram.length) ?_ _ _ _ rfl hs
  intro s s' hp hb
  simp only [blit_r_row, Option.bind_eq_bind, Option.bind_eq_some, Option.pure_def,
    Option.some.injEq] at hb
  obtain ⟨r, hr, rfl⟩ := hb
  simp only
  refine for_loop_preserves _ (fun s => s.2.2.length = c.vram.length) ?_ _ _ _ hp hr
  intro s s' hp hb
  simp only [blit_r_pixel] at hb
  split at hb
  · simp only [Option.bind_eq_bind, Option.bind_eq_some, Option.pure_def,
      Option.some.injEq] at hb
    obtain ⟨src, hsrc, pixel, hpixel, v, hplot, hv⟩ := hb
    rw [← hv]
    simp only
    rw [plot_length _ _ _ _ _ hplot]
    exact hp
  · simp only [Option.bind_eq_bind, Option.pure_def, Option.some_bind,
      Option.some.injEq] at hb
    rw [← hb]
    exact hp

theorem poke_mem {α : Type} (xs ys : List α) (p : Int) (v : α) (h : poke xs p v = some ys) :
    ∀ y ∈ ys, y ∈ xs ∨ y = v := by
  intro y hy
  rw [poke_some xs ys p v h] at hy
  exact List.mem_or_eq_of_mem_set hy

theorem GL_context_shifting_table (c c' : GL_Context_t) (from_ : Option (List Nat))
    (to_ : List Nat) (count : Nat) (h : GL_context_shifting c from_ to_ count = some c') :
    ∃ T, c' = { c with shifting := T } ∧ T.length = c.shifting.length ∧
      ((∀ p ∈ c.shifting, p < GL_MAX_PALETTE_COLORS) → ∀ p ∈ T, p < GL_MAX_PALETTE_COLORS) := by
  have key : ∀ (body : Nat × List GL_Pixel_t → Option (Nat × List GL_Pixel_t)) (n : Nat)
      (s : Nat × List GL_Pixel_t),
      (∀ s s', body s = some s' → ∃ p v, poke s.2 p (to_pixel v) = some s'.2) →
      for_loop body n (0, c.shifting) = some s →
      s.2.length = c.shifting.length ∧
        ((∀ p ∈ c.shifting, p < GL_MAX_PALETTE_COLORS) →
          ∀ p ∈ s.2, p < GL_MAX_PALETTE_COLORS) := by
    intro body n s hb hs
    refine for_loop_preserves body (fun s => s.2.length = c.shifting.length ∧
      ((∀ p ∈ c.shifting, p < GL_MAX_PALETTE_COLORS) →
        ∀ p ∈ s.2, p < GL_MAX_PALETTE_COLORS)) ?_ n _ _ ⟨rfl, fun hh => hh⟩ hs
    intro s s' hp hbs
    obtain ⟨p, v, hpk⟩ := hb s s' hbs
    refine ⟨by rw [poke_length _ _ _ _ hpk]; exact hp.1, ?_⟩
    intro hall y hy
    rcases poke_mem _ _ _ _ hpk y hy with h1 | h1
    · exact hp.2 hall y h1
    · rw [h1]
      exact to_pixel_lt v
  cases from_ with
  | none =>
    simp only [GL_context_shifting, Option.map_eq_some'] at h
    obtain ⟨s, hs, rfl⟩ := h
    have := key shifting_reset_body _ s (by
      intro s s' hb
      simp only [shifting_reset_body, Option.map_eq_some'] at hb
      obtain ⟨t, ht, rfl⟩ := hb
      exact ⟨_, _, ht⟩) hs
    exact ⟨s.2, rfl, this.1, this.2⟩
  | some from_ =>
    simp only [GL_context_shifting, Option.map_eq_some'] at h
    obtain ⟨s, hs, rfl⟩ := h
    have := key (shifting_patch_body from_ to_) _ s (by
      intro s s' hb
      simp only [shifting_patch_body, Option.bind_eq_bind, Option.bind_eq_some,
        Option.pure_def, Option.some.injEq] at hb
      obtain ⟨f, _, t, _, table, ht, rfl⟩ := hb
      exact ⟨_, _, ht⟩) hs
    exact ⟨s.2, rfl, this.1, this.2⟩

theorem GL_context_transparent_table (c c' : GL_Context_t) (indexes : Option (List GL_Pixel_t))
    (flags : List Bool) (count : Nat)
    (h : GL_context_transparent c indexes flags count = some c') :
    ∃ T, c' = { c with transparent := T } ∧ T.length = c.transparent.length := by
  have key : ∀ (body : Nat × List Bool → Option (Nat × List Bool)) (n : Nat)
      (s : Nat × List Bool),
      (∀ s s', body s = some s' → ∃ p v, poke s.2 p v = some s'.2) →
      for_loop body n (0, c.transparent) = some s → s.2.length = c.transparent.length := by
    intro body n s hb hs
    refine for_loop_preserves body (fun s => s.2.length = c.transparent.length) ?_ n _ _
      rfl hs
    intro s s' hp hbs
    obtain ⟨p, v, hpk⟩ := hb s s' hbs
    show s'.2.length = c.transparent.length
    rw [poke_length _ _ _ _ hpk]
    exact hp
  cases indexes with
  | none =>
    simp only [GL_context_transparent, Option.bind_eq_bind, Option.bind_eq_some,
      Option.pure_def, Option.some.injEq] at h
    obtain ⟨s, hs, table, ht, rfl⟩ := h
    have := key transparent_reset_body _ s (by
      intro s s' hb
      simp only [transparent_reset_body, Option.map_eq_some'] at hb
      obtain ⟨t, ht, rfl⟩ := hb
      exact ⟨_, _, ht⟩) hs
    exact ⟨table, rfl, by rw [poke_length _ _ _ _ ht]; exact this⟩
  | some indexes =>
    simp only [GL_context_transparent, Option.map_eq_some'] at h
    obtain ⟨s, hs, rfl⟩ := h
    have := key (transparent_patch_body indexes flags) _ s (by
      intro s s' hb
      simp only [transparent_patch_body, Option.bind_eq_bind, Option.bind_eq_some,
        Option.pure_def, Option.some.injEq] at hb
      obtain ⟨f, _, t, _, table, ht, rfl⟩ := hb
      exact ⟨_, _, ht⟩) hs
    exact ⟨s.2, rfl, this⟩

theorem WF_vram (c : GL_Context_t) (h : c.WF) (V : List GL_Color_t)
    (hlen : V.length = c.vram.length) : ({ c with vram := V } : GL_Context_t).WF :=
  { h with vram_length := by rw [← h.vram_length, ← hlen] }

theorem GL_context_initialize_WF (context : GL_Context_t) (width height : Nat)
    (vram : List GL_Color_t) (vram_rows : List Int) (c : GL_Context_t)
    (ha : allocated width height vram vram_rows)
    (h : GL_context_initialize context width height (some vram) (some vram_rows) =
      some (true, c)) :
    c.WF := by
  obtain ⟨rows, sh, tr, hc, r1, r2, s1, s2, t1, _, _⟩ :=
    GL_context_initialize_spec context width height vram vram_rows ha
  rw [hc] at h
  simp only [Option.some.injEq, Prod.mk.injEq, true_and] at h
  rw [← h]
  obtain ⟨a1, a2, a3, a4, a5⟩ := ha
  refine ⟨a4, rfl, r1, r2, a1, a2, ?_, s1, t1, ?_, ?_⟩
  · simp [GL_palette_greyscale]
  · intro p hp
    simp only at hp
    obtain ⟨i, hi, rfl⟩ := List.getElem_of_mem hp
    have := s2 i (by rw [← s1]; exact hi)
    rw [List.getElem?_eq_getElem hi] at this
    simp only [Option.some.injEq] at this
    rw [this, ← s1]
    exact hi
  · show 0 < GL_MAX_PALETTE_COLORS
    decide

/-- Every reachable context is well formed. -/
theorem ReachableBy_WF (ok : GL_Context_t → GL_Palette_t → Prop) (c : GL_Context_t)
    (h : ReachableBy ok c) : c.WF := by
  induction h with
  | init context width height vram vram_rows c ha hc =>
    exact GL_context_initialize_WF context width height vram vram_rows c ha hc
  | palette c palette _ hp _ ih =>
    exact { ih with colors_length := hp.colors_length }
  | shifting c c' from_ to_ count _ hs ih =>
    obtain ⟨T, rfl, hlen, hlt⟩ := GL_context_shifting_table c c' from_ to_ count hs
    exact { ih with
      shifting_length := by rw [← ih.shifting_length, ← hlen]
      shifting_lt := hlt ih.shifting_lt }
  | transparent c c' indexes flags count _ hs ih =>
    obtain ⟨T, rfl, hlen⟩ := GL_context_transparent_table c c' indexes flags count hs
    exact { ih with transparent_length := by rw [← ih.transparent_length, ← hlen] }
  | background c index _ hi ih =>
    unfold GL_context_background
    split
    · exact ih
    · exact { ih with background_lt := hi }
  | clear c c' _ hs ih =>
    obtain ⟨V, rfl, hlen⟩ := GL_context_clear_vram c c' hs
    exact WF_vram c ih V hlen
  | blit c c' surface tile position _ hs ih =>
    obtain ⟨V, rfl, hlen⟩ := GL_context_blit_vram c c' surface tile position hs
    exact WF_vram c ih V hlen
  | blit_s c c' surface tile position sx sy _ hs ih =>
    obtain ⟨V, rfl, hlen⟩ := GL_context_blit_s_vram c c' surface tile position sx sy hs
    exact WF_vram c ih V hlen
  | blit_r c c' surface tile position cc ss _ hs ih =>
    obtain ⟨V, rfl, hlen⟩ := GL_context_blit_r_vram c c' surface tile position cc ss hs
    exact WF_vram c ih V hlen
  | blit_sr c c' surface tile position sx sy rotation _ hs ih =>
    obtain ⟨V, rfl, hlen⟩ := GL_context_blit_vram c c' surface tile position hs
    exact WF_vram c ih V hlen

/-! ## Claims on the reachable states -/

set_option maxRecDepth 100000 in
theorem ctx_init_eq :
    GL_context_initialize ctx4 4 4 (some (List.replicate 16 ⟨0, 0, 0, 0⟩))
      (some [0, 0, 0, 0]) = some (true, ctx_init) := by
  decide

set_option maxRecDepth 100000 in
theorem pal2_WF : pal2.WF := by
  constructor <;> decide

theorem surf5_WF : surf5.WF := by
  constructor <;> decide

theorem ctx_init_reachable (ok : GL_Context_t → GL_Palette_t → Prop) :
    ReachableBy ok ctx_init :=
  ReachableBy.init ctx4 4 4 _ _ ctx_init (by decide) ctx_init_eq

/-- C19 as stated fails: after `GL_context_initialize` (4x4), `GL_context_background`
with index 5 (accepted, the greyscale palette has 256 colours) and `GL_context_palette`
with a palette of 2 colours, the background index is 5 and `palette.count` is 2. -/
theorem background_lt_count_counterexample :
    Reachable (GL_context_palette (GL_context_background ctx_init 5) pal2) ∧
    (GL_context_palette (GL_context_background ctx_init 5) pal2).background = 5 ∧
    (GL_context_palette (GL_context_background ctx_init 5) pal2).palette.count = 2 ∧
    ¬ ((GL_context_palette (GL_context_background ctx_init 5) pal2).background <
      (GL_context_palette (GL_context_background ctx_init 5) pal2).palette.count) := by
  refine ⟨?_, by decide, by decide, by decide⟩
  exact ReachableBy.palette _ _
    (ReachableBy.background _ 5 (ctx_init_reachable _) (by decide)) pal2_WF trivial

/-- C19 (amended): in every context state reachable from `GL_context_initialize` by any
sequence of `GL_context_shifting`, `GL_context_transparent`, `GL_context_background`,
`GL_context_clear` and blit calls, and of `GL_context_palette` calls whose palette has
more colours than the current background index, the background index is strictly less
than `palette.count`. -/
theorem background_lt_count (c : GL_Context_t)
    (h : ReachableBy (fun c palette => c.background < palette.count) c) :
    c.background < c.palette.count := by
  induction h with
  | init context width height vram vram_rows c ha hc =>
    obtain ⟨rows, sh, tr, hc', _⟩ :=
      GL_context_initialize_spec context width height vram vram_rows ha
    rw [hc'] at hc
    simp only [Option.some.injEq, Prod.mk.injEq, true_and] at hc
    rw [← hc]
    show 0 < GL_MAX_PALETTE_COLORS
    decide
  | palette c palette _ _ hok _ => exact hok
  | shifting c c' from_ to_ count _ hs ih =>
    obtain ⟨T, rfl, _⟩ := GL_context_shifting_table c c' from_ to_ count hs
    exact ih
  | transparent c c' indexes flags count _ hs ih =>
    obtain ⟨T, rfl, _⟩ := GL_context_transparent_table c c' indexes flags count hs
    exact ih
  | background c index _ _ ih =>
    unfold GL_context_background
    split
    · exact ih
    · rename_i hlt
      exact Nat.lt_of_not_le hlt
  | clear c c' _ hs ih =>
    obtain ⟨V, rfl, _⟩ := GL_context_clear_vram c c' hs
    exact ih
  | blit c c' surface tile position _ hs ih =>
    obtain ⟨V, rfl, _⟩ := GL_context_blit_vram c c' surface tile position hs
    exact ih
  | blit_s c c' surface tile position sx sy _ hs ih =>
    obtain ⟨V, rfl, _⟩ := GL_context_blit_s_vram c c' surface tile position sx sy hs
    exact ih
  | blit_r c c' surface tile position cc ss _ hs ih =>
    obtain ⟨V, rfl, _⟩ := GL_context_blit_r_vram c c' surface tile position cc ss hs
    exact ih
  | blit_sr c c' surface tile position sx sy rotation _ hs ih =>
    obtain ⟨V, rfl, _⟩ := GL_context_blit_vram c c' surface tile position hs
    exact ih

set_option maxRecDepth 100000 in
/-- C19 (amended) after `GL_context_initialize`, `GL_context_background` with index 1
and `GL_context_palette` with a palette of 2 colours. -/
theorem background_lt_count_witness :
    ReachableBy (fun c palette => c.background < palette.count)
        (GL_context_palette (GL_context_background ctx_init 1) pal2) ∧
      (GL_context_palette (GL_context_background ctx_init 1) pal2).background <
        (GL_context_palette (GL_context_background ctx_init 1) pal2).palette.count :=
  ⟨ReachableBy.palette _ _
      (ReachableBy.background _ 1 (ctx_init_reachable _) (by decide)) pal2_WF (by decide),
    background_lt_count _ (ReachableBy.palette _ _
      (ReachableBy.background _ 1 (ctx_init_reachable _) (by decide)) pal2_WF (by decide))⟩

set_option maxRecDepth 100000 in
/-- C20 as stated fails: in the state reached by `GL_context_initialize` (4x4) and
`GL_context_palette` with a palette of 2 colours, the blit of a pixel of index 5 looks
up `palette.colors[5]`, beyond `palette.count = 2`, and writes the red it finds there;
after `GL_context_background` with index 5 before the palette change, `GL_context_clear`
looks up `palette.colors[5]` too and fills VRAM with it. -/
theorem palette_lookup_counterexample :
    Reachable (GL_context_palette ctx_init pal2) ∧
    (GL_context_palette ctx_init pal2).palette.count = 2 ∧
    surf5.pixel 0 0 = some 5 ∧
    (GL_context_palette ctx_init pal2).shifting[5]? = some 5 ∧
    (GL_context_palette ctx_init pal2).palette.colors[5]? = some red ∧
    ctx_init.cell 0 0 = some ⟨0, 0, 0, 0⟩ ∧
    (GL_context_blit (GL_context_palette ctx_init pal2) surf5 ⟨0, 0, 1, 1⟩ ⟨0, 0⟩).bind
      (fun c' => c'.cell 0 0) = some red ∧
    Reachable (GL_context_palette (GL_context_background ctx_init 5) pal2) ∧
    (GL_context_palette (GL_context_background ctx_init 5) pal2).background = 5 ∧
    (GL_context_clear (GL_context_palette (GL_context_background ctx_init 5) pal2)).bind
      (fun c' => c'.cell 3 3) = some red := by
  refine ⟨?_, by decide, by decide, by decide, by decide, by decide, by decide, ?_,
    by decide, by decide⟩
  · exact ReachableBy.palette _ _ (ctx_init_reachable _) pal2_WF trivial
  · exact ReachableBy.palette _ _
      (ReachableBy.background _ 5 (ctx_init_reachable _) (by decide)) pal2_WF trivial

/-- C20 (amended): in every reachable context state and for every well-formed surface,
the palette lookup of `GL_context_clear` uses the index `background` and every palette
lookup of an in-bounds `GL_context_blit` uses an index `shifting[pixel]`; both calls
return and these indices lie inside `[0, GL_MAX_PALETTE_COLORS)`, the capacity of the
colour array.  (They are not compared with `palette.count`.) -/
theorem palette_lookup_in_capacity (c : GL_Context_t) (surface : GL_Surface_t)
    (tile : GL_Rectangle_t) (position : GL_Point_t) (hr : Reachable c) (hs : surface.WF)
    (ht : tile_inside surface tile) (hb : box_inside c position tile.width tile.height) :
    c.palette.colors.length = GL_MAX_PALETTE_COLORS ∧
    (∃ c' color, GL_context_clear c = some c' ∧ c.background < GL_MAX_PALETTE_COLORS ∧
      c.palette.colors[c.background]? = some color) ∧
    (∃ c', GL_context_blit c surface tile position = some c' ∧
      ∀ i : Nat, i < tile.height → ∀ j : Nat, j < tile.width →
        ∃ p index color, surface.pixel (tile.x + j) (tile.y + i) = some p ∧
          c.shifting[p]? = some index ∧ index < GL_MAX_PALETTE_COLORS ∧
          c.palette.colors[index]? = some color) := by
  have h : c.WF := ReachableBy_WF _ c hr
  refine ⟨h.colors_length, ?_, ?_⟩
  · obtain ⟨c', color, h1, h2, _⟩ := GL_context_clear_fills c h
    exact ⟨c', color, h1, h.background_lt, h2⟩
  · obtain ⟨V, hV, _, hin, _⟩ := GL_context_blit_cells c surface tile position h hs ht hb
    refine ⟨_, hV, ?_⟩
    intro i hi j hj
    obtain ⟨p, index, t, color, old, e1, e2, _, e4, _, _⟩ := hin i j hi hj
    refine ⟨p, index, color, e1, e2, ?_, e4⟩
    obtain ⟨hlt, hp⟩ := List.getElem?_eq_some.mp e2
    rw [← hp]
    exact h.shifting_lt _ (List.getElem_mem hlt)

set_option maxRecDepth 100000 in
/-- C20 (amended) at the state reached by `GL_context_initialize` and
`GL_context_palette` with the palette of 2 colours, for the 2x2 test surface. -/
theorem palette_lookup_in_capacity_witness :
    (GL_context_palette ctx_init pal2).palette.colors.length = GL_MAX_PALETTE_COLORS ∧
    (∃ c' color, GL_context_clear (GL_context_palette ctx_init pal2) = some c' ∧
      (GL_context_palette ctx_init pal2).background < GL_MAX_PALETTE_COLORS ∧
      (GL_context_palette ctx_init pal2).palette.colors[
        (GL_context_palette ctx_init pal2).background]? = some color) ∧
    (∃ c', GL_context_blit (GL_context_palette ctx_init pal2) surf2 ⟨0, 0, 2, 2⟩ ⟨1, 1⟩ =
        some c' ∧
      ∀ i : Nat, i < 2 → ∀ j : Nat, j < 2 →
        ∃ p index color, surf2.pixel ((0 : Int) + j) ((0 : Int) + i) = some p ∧
          (GL_context_palette ctx_init pal2).shifting[p]? = some index ∧
          index < GL_MAX_PALETTE_COLORS ∧
          (GL_context_palette ctx_init pal2).palette.colors[index]? = some color) :=
  palette_lookup_in_capacity (GL_context_palette ctx_init pal2) surf2 ⟨0, 0, 2, 2⟩ ⟨1, 1⟩
    (ReachableBy.palette _ _ (ctx_init_reachable _) pal2_WF trivial) surf2_WF
    (by decide) (by decide)

/-! ## Footprint and samples of `GL_context_blit_s` -/

/-- C21, amended: for positive `sx` and `sy`, let `W = (size_t)(sx * (float)tile.width)`
and `H = (size_t)(sy * (float)tile.height)`, the products being rounded to binary32
(lines 155-156).  When the box of `W` by `H` cells at `position` lies inside the context
and every sample lies inside the surface, `GL_context_blit_s` returns, no VRAM cell
outside that box is modified, and every cell of the box whose sampled index is opaque
after shifting is overwritten with the colour of that index. -/
theorem GL_context_blit_s_footprint (c : GL_Context_t) (surface : GL_Surface_t)
    (tile : GL_Rectangle_t) (position : GL_Point_t) (sx sy : ℚ) (h : c.WF) (hs : surface.WF)
    (hsx : 0 < sx) (hsy : 0 < sy) (hx : 0 ≤ tile.x) (hy : 0 ≤ tile.y)
    (hb : box_inside c position (blit_s_size sx tile.width) (blit_s_size sy tile.height))
    (hcol : ∀ j : Nat, j < blit_s_size sx tile.width →
      to_int (blit_s_u tile.x (blit_s_step sx) j) < surface.width)
    (hrow : ∀ i : Nat, i < blit_s_size sy tile.height →
      to_int (blit_s_u tile.y (blit_s_step sy) i) < surface.height) :
    ∃ c', GL_context_blit_s c surface tile position sx sy = some c' ∧
      (∀ x y : Nat, x < c.width → y < c.height →
        ¬ (position.x ≤ x ∧ (x : Int) < position.x + blit_s_size sx tile.width ∧
            position.y ≤ y ∧ (y : Int) < position.y + blit_s_size sy tile.height) →
        c'.cell x y = c.cell x y) ∧
      (∀ i j : Nat, i < blit_s_size sy tile.height → j < blit_s_size sx tile.width →
        transparent_at c surface (to_int (blit_s_u tile.x (blit_s_step sx) j))
          (to_int (blit_s_u tile.y (blit_s_step sy) i)) = some false →
        ∃ color, colour_at c surface (to_int (blit_s_u tile.x (blit_s_step sx) j))
            (to_int (blit_s_u tile.y (blit_s_step sy) i)) = some color ∧
          c'.cell (position.x + j) (position.y + i) = some color) := by
  obtain ⟨V, hV, _, hin, hout⟩ := GL_context_blit_s_cells c surface tile position sx sy h hs
    hsx.le hsy.le hx hy hb hcol hrow
  refine ⟨_, hV, hout, ?_⟩
  intro i j hi hj hop
  obtain ⟨p, index, t, color, old, e1, e2, e3, e4, _, e6⟩ := hin i j hi hj
  simp only [transparent_at, e1, e2, e3, Option.bind_eq_bind, Option.some_bind,
    Option.some.injEq] at hop
  subst hop
  refine ⟨color, ?_, ?_⟩
  · simp only [colour_at, e1, e2, e4, Option.bind_eq_bind, Option.some_bind]
  · simpa using e6

set_option maxRecDepth 100000 in
/-- C21, amended, at the 10x1 tile of the opaque 10x1 surface scaled by `0.7f` and 1 on
the 8x1 context: the footprint is 7 columns. -/
theorem GL_context_blit_s_footprint_witness :
    ∃ c', GL_context_blit_s ctx8 surf10 ⟨0, 0, 10, 1⟩ ⟨0, 0⟩ f32_0_7 1 = some c' ∧
      (∀ x y : Nat, x < ctx8.width → y < ctx8.height →
        ¬ ((0 : Int) ≤ x ∧ (x : Int) < (0 : Int) + blit_s_size f32_0_7 10 ∧
            (0 : Int) ≤ y ∧ (y : Int) < (0 : Int) + blit_s_size 1 1) →
        c'.cell x y = ctx8.cell x y) ∧
      (∀ i j : Nat, i < blit_s_size 1 1 → j < blit_s_size f32_0_7 10 →
        transparent_at ctx8 surf10 (to_int (blit_s_u 0 (blit_s_step f32_0_7) j))
          (to_int (blit_s_u 0 (blit_s_step 1) i)) = some false →
        ∃ color, colour_at ctx8 surf10 (to_int (blit_s_u 0 (blit_s_step f32_0_7) j))
            (to_int (blit_s_u 0 (blit_s_step 1) i)) = some color ∧
          c'.cell ((0 : Int) + j) ((0 : Int) + i) = some color) :=
  GL_context_blit_s_footprint ctx8 surf10 ⟨0, 0, 10, 1⟩ ⟨0, 0⟩ f32_0_7 1 ctx8_WF surf10_WF
    (by decide!) (by norm_num) (by decide) (by decide) (by decide!) (by decide!) (by decide!)

set_option maxRecDepth 100000 in
/-- C21 as stated fails for `sx = 0.7f` and a tile 10 pixels wide: `floor(sx * 10)` is
6 (`0.7f` is below 0.7), but the binary32 product `0.7f * 10.0f` rounds to `7.0f`, so
the loop draws 7 columns, and the cell `(6, 0)`, outside the rectangle of 6 columns at
`(0, 0)`, is overwritten. -/
theorem GL_context_blit_s_footprint_counterexample :
    f32 f32_0_7 = f32_0_7 ∧
    ⌊f32_0_7 * ((10 : Nat) : ℚ)⌋.toNat = 6 ∧
    blit_s_size f32_0_7 10 = 7 ∧
    tile_inside surf10 ⟨0, 0, 10, 1⟩ ∧
    box_inside ctx8 ⟨0, 0⟩ 7 1 ∧
    ctx8.cell 6 0 = some ⟨1, 2, 3, 4⟩ ∧
    (GL_context_blit_s ctx8 surf10 ⟨0, 0, 10, 1⟩ ⟨0, 0⟩ f32_0_7 1).bind
      (fun c' => c'.cell 6 0) = some white := by
  refine ⟨by decide!, by decide!, by decide!, by decide, by decide, by decide, by decide!⟩

set_option maxRecDepth 100000 in
/-- C27 fails in the code.  The 1x1 tile at column 4096 of a surface of one row lies
inside the surface; scaled by `sx = 65` it is drawn on 65 columns, and the last column
samples the surface at column 4097, outside the tile: the step `1.0f / 65` is 31.5 times
the spacing `2^-11` of the binary32 values from 4096 on, every `u += du` of line 182
rounds to an advance of 32 spacings, and after 64 additions `u` is `4097.0f`, where the
exact sum `4096 + 64/65` is below 4097.  With the tile's only pixel transparent and its
right neighbour of index 1, the cell `(64, 0)` is painted white; with the tile in the
last column of the surface, the read is beyond the buffer and the call has no result.
The same happens after one addition for the 1x1 tile at column 8388609 scaled by 2:
`8388609.0f + 0.5f` rounds to `8388610.0f`. -/
theorem GL_context_blit_s_sample_escapes :
    tile_inside (surf_row 4096 [0, 1]) ⟨4096, 0, 1, 1⟩ ∧
    box_inside ctx65 ⟨0, 0⟩ (blit_s_size 65 1) (blit_s_size 1 1) ∧
    blit_s_size 65 1 = 65 ∧
    to_int ((4096 : ℚ) + 64 * (1 / 65)) = 4096 ∧
    to_int (blit_s_u 4096 (blit_s_step 65) 64) = 4097 ∧
    (surf_row 4096 [0, 1]).pixel 4096 0 = some 0 ∧
    (surf_row 4096 [0, 1]).pixel 4097 0 = some 1 ∧
    ctx65.cell 64 0 = some ⟨1, 2, 3, 4⟩ ∧
    (GL_context_blit_s ctx65 (surf_row 4096 [0, 1]) ⟨4096, 0, 1, 1⟩ ⟨0, 0⟩ 65 1).bind
      (fun c' => c'.cell 64 0) = some white ∧
    tile_inside (surf_row 4096 [1]) ⟨4096, 0, 1, 1⟩ ∧
    GL_context_blit_s ctx65 (surf_row 4096 [1]) ⟨4096, 0, 1, 1⟩ ⟨0, 0⟩ 65 1 = none ∧
    tile_inside (surf_row 8388609 [0, 1]) ⟨8388609, 0, 1, 1⟩ ∧
    box_inside ctx4 ⟨0, 0⟩ (blit_s_size 2 1) (blit_s_size 2 1) ∧
    blit_s_size 2 1 = 2 ∧
    to_int (blit_s_u 8388609 (blit_s_step 2) 0) = 8388609 ∧
    to_int (blit_s_u 8388609 (blit_s_step 2) 1) = 8388610 ∧
    (surf_row 8388609 [0, 1]).pixel 8388609 0 = some 0 ∧
    (surf_row 8388609 [0, 1]).pixel 8388610 0 = some 1 ∧
    ctx4.cell 1 0 = some ⟨1, 2, 3, 4⟩ ∧
    (GL_context_blit_s ctx4 (surf_row 8388609 [0, 1]) ⟨8388609, 0, 1, 1⟩ ⟨0, 0⟩ 2 2).bind
      (fun c' => c'.cell 1 0) = some white ∧
    tile_inside (surf_row 8388609 [1]) ⟨8388609, 0, 1, 1⟩ ∧
    GL_context_blit_s ctx4 (surf_row 8388609 [1]) ⟨8388609, 0, 1, 1⟩ ⟨0, 0⟩ 2 2 = none := by
  have a1 : (surf_row 4096 [0, 1]).pixel 4097 0 = some 1 :=
    surf_row_pixel_tail 4096 [0, 1] 1
  have au : to_int (blit_s_u 4096 (blit_s_step 65) 64) = 4097 := by decide!
  have av : to_int (blit_s_u 0 (blit_s_step 1) 0) = 0 := by decide!
  have p0 : (surf_row 8388609 [0, 1]).pixel 8388609 0 = some 0 :=
    surf_row_pixel_tail 8388609 [0, 1] 0
  have p1 : (surf_row 8388609 [0, 1]).pixel 8388610 0 = some 1 :=
    surf_row_pixel_tail 8388609 [0, 1] 1
  have hu : to_int (blit_s_u 8388609 (blit_s_step 2) 1) = 8388610 := by decide!
  have hv : to_int (blit_s_u 0 (blit_s_step 2) 0) = 0 := by decide!
  refine ⟨by decide, by decide!, by decide!, by decide!, au,
    surf_row_pixel_tail 4096 [0, 1] 0, a1, by decide, ?_, by decide, ?_,
    by decide, by decide!, by decide!, by decide!, hu, p0, p1, by decide,
    ?_, by decide, ?_⟩
  · obtain ⟨V, hV, _, hin, _⟩ := GL_context_blit_s_cells ctx65 (surf_row 4096 [0, 1])
      ⟨4096, 0, 1, 1⟩ ⟨0, 0⟩ 65 1 ctx65_WF (surf_row_WF _ _ (by decide) (by decide))
      (by norm_num) (by norm_num) (by decide) (by decide) (by decide!) (by decide!)
      (by decide!)
    obtain ⟨p, index, t, color, old, e1, e2, e3, e4, e5, e6⟩ :=
      hin 0 64 (by decide!) (by decide!)
    rw [au, av, a1] at e1
    cases e1
    have hold : some old = some (⟨1, 2, 3, 4⟩ : GL_Color_t) := e5.symm.trans (by decide)
    cases hold
    rw [ctx4_shade 1 index t color ⟨1, 2, 3, 4⟩ ctx65 rfl rfl rfl (Or.inr rfl) e2 e3 e4] at e6
    rw [hV]
    exact e6
  · exact GL_context_blit_s_beyond ctx65 ctx65_WF (surf_row 4096 [1])
      (surf_row_WF _ _ (by decide) (by decide)) 1 1 4096 0 0 0 65 1 (by norm_num)
      (by norm_num) 64 (by decide!) (by decide!) (by decide!) (by decide!) (by decide!)
      (by decide!) (by decide)
  · obtain ⟨V, hV, _, hin, _⟩ := GL_context_blit_s_cells ctx4 (surf_row 8388609 [0, 1])
      ⟨8388609, 0, 1, 1⟩ ⟨0, 0⟩ 2 2 ctx4_WF (surf_row_WF _ _ (by decide) (by decide))
      (by norm_num) (by norm_num) (by decide) (by decide) (by decide!) (by decide!)
      (by decide!)
    obtain ⟨p, index, t, color, old, e1, e2, e3, e4, e5, e6⟩ :=
      hin 0 1 (by decide!) (by decide!)
    rw [hu, hv, p1] at e1
    cases e1
    have hold : some old = some (⟨1, 2, 3, 4⟩ : GL_Color_t) := e5.symm.trans (by decide)
    cases hold
    rw [ctx4_shade 1 index t color ⟨1, 2, 3, 4⟩ ctx4 rfl rfl rfl (Or.inr rfl) e2 e3 e4] at e6
    rw [hV]
    exact e6
  · exact GL_context_blit_s_beyond ctx4 ctx4_WF (surf_row 8388609 [1])
      (surf_row_WF _ _ (by decide) (by decide)) 1 1 8388609 0 0 0 2 2 (by norm_num)
      (by norm_num) 1 (by decide!) (by decide!) (by decide!) (by decide!) (by decide!)
      (by decide!) (by decide)

/-- C22: when the tile lies inside a well-formed surface (row table and buffer as
created, every pixel below `GL_MAX_PALETTE_COLORS`) and the tile-sized box at `position`
lies inside a well-formed context (row table, buffer and tables as initialised, every
shifting entry below `GL_MAX_PALETTE_COLORS`), `GL_context_blit` returns, and for every
pixel of the tile the surface read, the shifting read, the transparency read, the
palette read and the VRAM cell all exist. -/
theorem GL_context_blit_in_range (c : GL_Context_t) (surface : GL_Surface_t)
    (tile : GL_Rectangle_t) (position : GL_Point_t) (h : c.WF) (hs : surface.WF)
    (ht : tile_inside surface tile) (hb : box_inside c position tile.width tile.height) :
    (∃ c', GL_context_blit c surface tile position = some c') ∧
      ∀ i j : Nat, i < tile.height → j < tile.width →
        ∃ row p index t color drow old,
          peek surface.data_rows (tile.y + i) = some row ∧
          peek surface.data (row + (tile.x + j)) = some p ∧
          p < GL_MAX_PALETTE_COLORS ∧ c.shifting[p]? = some index ∧
          index < GL_MAX_PALETTE_COLORS ∧ c.transparent[index]? = some t ∧
          c.palette.colors[index]? = some color ∧
          peek c.vram_rows (position.y + i) = some drow ∧
          peek c.vram (drow + (position.x + j)) = some old := by
  obtain ⟨V, hV, _, hin, _⟩ := GL_context_blit_cells c surface tile position h hs ht hb
  refine ⟨⟨_, hV⟩, ?_⟩
  intro i j hi hj
  obtain ⟨p, index, t, color, old, e1, e2, e3, e4, e5, _⟩ := hin i j hi hj
  simp only [GL_Surface_t.pixel, Option.bind_eq_bind, Option.bind_eq_some] at e1
  obtain ⟨row, r1, r2⟩ := e1
  simp only [GL_Context_t.cell, Option.bind_eq_bind, Option.bind_eq_some] at e5
  obtain ⟨drow, d1, d2⟩ := e5
  have hp : p < GL_MAX_PALETTE_COLORS := by
    unfold peek at r2
    split at r2
    · obtain ⟨hlt, e⟩ := List.getElem?_eq_some.mp r2
      exact hs.data_lt p (e ▸ List.getElem_mem hlt)
    · exact absurd r2 (by simp)
  have hx : index < GL_MAX_PALETTE_COLORS := by
    obtain ⟨hlt, e⟩ := List.getElem?_eq_some.mp e2
    exact h.shifting_lt index (e ▸ List.getElem_mem hlt)
  exact ⟨row, p, index, t, color, drow, old, r1, r2, hp, e2, hx, e3, e4, d1, d2⟩

/-- C22 at the 2x2 tile at `(1, 0)` of `surf3` drawn at `(1, 2)` of `ctx4`. -/
theorem GL_context_blit_in_range_witness :
    (∃ c', GL_context_blit ctx4 surf3 ⟨1, 0, 2, 2⟩ ⟨1, 2⟩ = some c') ∧
      ∀ i j : Nat, i < (⟨1, 0, 2, 2⟩ : GL_Rectangle_t).height →
        j < (⟨1, 0, 2, 2⟩ : GL_Rectangle_t).width →
        ∃ row p index t color drow old,
          peek surf3.data_rows ((⟨1, 0, 2, 2⟩ : GL_Rectangle_t).y + i) = some row ∧
          peek surf3.data (row + ((⟨1, 0, 2, 2⟩ : GL_Rectangle_t).x + j)) = some p ∧
          p < GL_MAX_PALETTE_COLORS ∧ ctx4.shifting[p]? = some index ∧
          index < GL_MAX_PALETTE_COLORS ∧ ctx4.transparent[index]? = some t ∧
          ctx4.palette.colors[index]? = some color ∧
          peek ctx4.vram_rows ((⟨1, 2⟩ : GL_Point_t).y + i) = some drow ∧
          peek ctx4.vram (drow + ((⟨1, 2⟩ : GL_Point_t).x + j)) = some old :=
  GL_context_blit_in_range ctx4 surf3 ⟨1, 0, 2, 2⟩ ⟨1, 2⟩ ctx4_WF surf3_WF (by decide)
    (by decide)

/-! ## Invariants of the row table and of the shifting table -/

/-- C24: in every context obtained from `GL_context_initialize` by any sequence of
operations, `vram_rows` has `height` entries, entry `i` is the offset `i * width`, the
cell `(x, y)` read through the row table is the linear cell `y * width + x`, and one more
operation of any kind leaves the row table, the width and the height as they are. -/
theorem vram_rows_fixed (c : GL_Context_t) (h : Reachable c) :
    c.vram_rows.length = c.height ∧
      (∀ i : Nat, i < c.height → c.vram_rows[i]? = some ((i * c.width : Nat) : Int)) ∧
      (∀ x y : Nat, x < c.width → y < c.height → c.cell x y = c.vram[y * c.width + x]?) ∧
      (∀ c', Operation c c' →
        c'.vram_rows = c.vram_rows ∧ c'.width = c.width ∧ c'.height = c.height) := by
  have hwf := ReachableBy_WF _ c h
  refine ⟨hwf.rows_length, ?_, ?_, ?_⟩
  · intro i hi
    rw [Nat.mul_comm]
    exact hwf.rows_eq i hi
  · intro x y _ hy
    rw [Nat.mul_comm]
    exact cell_natCast c hwf x y hy
  · intro c' hop
    cases hop with
    | palette p => exact ⟨rfl, rfl, rfl⟩
    | shifting c' f t n e =>
      obtain ⟨T, rfl, _⟩ := GL_context_shifting_table c c' f t n e
      exact ⟨rfl, rfl, rfl⟩
    | transparent c' ix fl n e =>
      obtain ⟨T, rfl, _⟩ := GL_context_transparent_table c c' ix fl n e
      exact ⟨rfl, rfl, rfl⟩
    | background index =>
      unfold GL_context_background
      split <;> exact ⟨rfl, rfl, rfl⟩
    | clear c' e =>
      obtain ⟨V, rfl, _⟩ := GL_context_clear_vram c c' e
      exact ⟨rfl, rfl, rfl⟩
    | blit c' surface tile position e =>
      obtain ⟨V, rfl, _⟩ := GL_context_blit_vram c c' surface tile position e
      exact ⟨rfl, rfl, rfl⟩
    | blit_s c' surface tile position sx sy e =>
      obtain ⟨V, rfl, _⟩ := GL_context_blit_s_vram c c' surface tile position sx sy e
      exact ⟨rfl, rfl, rfl⟩
    | blit_r c' surface tile position cc ss e =>
      obtain ⟨V, rfl, _⟩ := GL_context_blit_r_vram c c' surface tile position cc ss e
      exact ⟨rfl, rfl, rfl⟩
    | blit_sr c' surface tile position sx sy rotation e =>
      obtain ⟨V, rfl, _⟩ := GL_context_blit_vram c c' surface tile position e
      exact ⟨rfl, rfl, rfl⟩

/-- C24 at the context initialised with 4x4 cells. -/
theorem vram_rows_fixed_witness :
    Reachable ctx_init ∧ ctx_init.vram_rows.length = ctx_init.height ∧
      (∀ i : Nat, i < ctx_init.height →
        ctx_init.vram_rows[i]? = some ((i * ctx_init.width : Nat) : Int)) ∧
      (∀ x y : Nat, x < ctx_init.width → y < ctx_init.height →
        ctx_init.cell x y = ctx_init.vram[y * ctx_init.width + x]?) ∧
      (∀ c', Operation ctx_init c' →
        c'.vram_rows = ctx_init.vram_rows ∧ c'.width = ctx_init.width ∧
          c'.height = ctx_init.height) :=
  ⟨ctx_init_reachable _, vram_rows_fixed ctx_init (ctx_init_reachable _)⟩

/-- C28: in every context obtained from `GL_context_initialize` by any sequence of
operations every shifting entry is below `GL_MAX_PALETTE_COLORS`, so for every
`p < GL_MAX_PALETTE_COLORS` the reads `shifting[p]`, `transparent[shifting[p]]` and
`palette.colors[shifting[p]]` are in range; and one more operation of any kind (a
shifting reset, a sparse shifting, or any other) keeps every shifting entry below
`GL_MAX_PALETTE_COLORS`. -/
theorem shifting_entries_in_range (c : GL_Context_t) (h : Reachable c) :
    (∀ p ∈ c.shifting, p < GL_MAX_PALETTE_COLORS) ∧
      (∀ p : GL_Pixel_t, p < GL_MAX_PALETTE_COLORS →
        ∃ index t color, c.shifting[p]? = some index ∧ index < GL_MAX_PALETTE_COLORS ∧
          c.transparent[index]? = some t ∧ c.palette.colors[index]? = some color) ∧
      (∀ c', Operation c c' → ∀ p ∈ c'.shifting, p < GL_MAX_PALETTE_COLORS) := by
  have hwf := ReachableBy_WF _ c h
  refine ⟨hwf.shifting_lt, ?_, ?_⟩
  · intro p hp
    obtain ⟨index, t, color, e1, e2, e3⟩ := tables_total c hwf p hp
    obtain ⟨hlt, e⟩ := List.getElem?_eq_some.mp e1
    exact ⟨index, t, color, e1, hwf.shifting_lt index (e ▸ List.getElem_mem hlt), e2, e3⟩
  · intro c' hop
    cases hop with
    | palette p => exact hwf.shifting_lt
    | shifting c' f t n e =>
      obtain ⟨T, rfl, _, hT⟩ := GL_context_shifting_table c c' f t n e
      exact hT hwf.shifting_lt
    | transparent c' ix fl n e =>
      obtain ⟨T, rfl, _⟩ := GL_context_transparent_table c c' ix fl n e
      exact hwf.shifting_lt
    | background index =>
      unfold GL_context_background
      split <;> exact hwf.shifting_lt
    | clear c' e =>
      obtain ⟨V, rfl, _⟩ := GL_context_clear_vram c c' e
      exact hwf.shifting_lt
    | blit c' surface tile position e =>
      obtain ⟨V, rfl, _⟩ := GL_context_blit_vram c c' surface tile position e
      exact hwf.shifting_lt
    | blit_s c' surface tile position sx sy e =>
      obtain ⟨V, rfl, _⟩ := GL_context_blit_s_vram c c' surface tile position sx sy e
      exact hwf.shifting_lt
    | blit_r c' surface tile position cc ss e =>
      obtain ⟨V, rfl, _⟩ := GL_context_blit_r_vram c c' surface tile position cc ss e
      exact hwf.shifting_lt
    | blit_sr c' surface tile position sx sy rotation e =>
      obtain ⟨V, rfl, _⟩ := GL_context_blit_vram c c' surface tile position e
      exact hwf.shifting_lt

/-- C28 at the context initialised with 4x4 cells. -/
theorem shifting_entries_in_range_witness :
    Reachable ctx_init ∧ (∀ p ∈ ctx_init.shifting, p < GL_MAX_PALETTE_COLORS) ∧
      (∀ p : GL_Pixel_t, p < GL_MAX_PALETTE_COLORS →
        ∃ index t color, ctx_init.shifting[p]? = some index ∧
          index < GL_MAX_PALETTE_COLORS ∧
          ctx_init.transparent[index]? = some t ∧
          ctx_init.palette.colors[index]? = some color) ∧
      (∀ c', Operation ctx_init c' → ∀ p ∈ c'.shifting, p < GL_MAX_PALETTE_COLORS) :=
  ⟨ctx_init_reachable _, shifting_entries_in_range ctx_init (ctx_init_reachable _)⟩

/-! ## Composition of sparse shiftings -/

/-- A sparse shifting whose `count` pairs are in range returns the table patched with
these pairs, in the order of the arrays. -/
theorem GL_context_shifting_patch (c : GL_Context_t) (from_ to_ : List Nat) (count : Nat)
    (h : c.shifting.length = GL_MAX_PALETTE_COLORS)
    (hf : count ≤ from_.length) (ht : count ≤ to_.length)
    (hfr : ∀ f ∈ from_.take count, f < GL_MAX_PALETTE_COLORS)
    (hto : ∀ t ∈ to_.take count, t < GL_MAX_PALETTE_COLORS) :
    GL_context_shifting c (some from_) to_ count =
      some { c with shifting := patch c.shifting ((from_.zip to_).take count) } := by
  have hloop := patch_loop_spec to_pixel (shifting_patch_body from_ to_) from_ to_
    (fun _ => rfl) c.shifting count hf ht (by rw [h]; exact hfr)
  have hmap : (((from_.zip to_).take count).map fun p => (p.1, to_pixel p.2)) =
      (from_.zip to_).take count := by
    have : ∀ p ∈ (from_.zip to_).take count,
        (fun p : Nat × Nat => (p.1, to_pixel p.2)) p = id p := by
      intro p hp
      have := hto _ (zip_take_mem from_ to_ count p hp).2
      simp only [id, to_pixel_eq _ this]
    rw [List.map_congr_left this, List.map_id]
  rw [hmap] at hloop
  simp [GL_context_shifting, hloop]

/-- C26: for two mappings of in-range pairs, `GL_context_shifting` with the first and
then with the second returns the context that one call with their concatenation
returns; in that context, for every `from` index of the concatenation, the last pair
with this index gives the entry; and a call with a non-null mapping and a count of zero
returns the context unchanged. -/
theorem GL_context_shifting_compose (c : GL_Context_t) (from1 to1 from2 to2 : List Nat)
    (h : c.shifting.length = GL_MAX_PALETTE_COLORS)
    (h1 : from1.length = to1.length) (h2 : from2.length = to2.length)
    (hf1 : ∀ f ∈ from1, f < GL_MAX_PALETTE_COLORS)
    (ht1 : ∀ t ∈ to1, t < GL_MAX_PALETTE_COLORS)
    (hf2 : ∀ f ∈ from2, f < GL_MAX_PALETTE_COLORS)
    (ht2 : ∀ t ∈ to2, t < GL_MAX_PALETTE_COLORS) :
    (∃ c1 c2, GL_context_shifting c (some from1) to1 from1.length = some c1 ∧
      GL_context_shifting c1 (some from2) to2 from2.length = some c2 ∧
      GL_context_shifting c (some (from1 ++ from2)) (to1 ++ to2)
        (from1.length + from2.length) = some c2 ∧
      ∀ k, k ∈ from1 ++ from2 →
        ∃ l1 t l2, (from1 ++ from2).zip (to1 ++ to2) = l1 ++ (k, t) :: l2 ∧
          k ∉ l2.map Prod.fst ∧ c2.shifting[k]? = some t) ∧
    ∀ from_ to_ : List Nat, GL_context_shifting c (some from_) to_ 0 = some c := by
  have e1 := GL_context_shifting_patch c from1 to1 from1.length h (le_refl _) (by omega)
    (by rw [List.take_length]; exact hf1)
    (by rw [h1, List.take_length]; exact ht1)
  have t1 : (from1.zip to1).take from1.length = from1.zip to1 :=
    List.take_of_length_le (by simp [h1])
  rw [t1] at e1
  have e2 := GL_context_shifting_patch
    ({ c with shifting := patch c.shifting (from1.zip to1) } : GL_Context_t) from2 to2
    from2.length (by simp only [patch_length]; exact h) (le_refl _) (by omega)
    (by rw [List.take_length]; exact hf2)
    (by rw [h2, List.take_length]; exact ht2)
  have t2 : (from2.zip to2).take from2.length = from2.zip to2 :=
    List.take_of_length_le (by simp [h2])
  rw [t2] at e2
  have hmem : ∀ f ∈ from1 ++ from2, f < GL_MAX_PALETTE_COLORS := by
    intro f hf
    rcases List.mem_append.mp hf with hf | hf
    · exact hf1 f hf
    · exact hf2 f hf
  have hmemt : ∀ t ∈ to1 ++ to2, t < GL_MAX_PALETTE_COLORS := by
    intro t ht
    rcases List.mem_append.mp ht with ht | ht
    · exact ht1 t ht
    · exact ht2 t ht
  have hlen : (from1 ++ from2).length = from1.length + from2.length := List.length_append _ _
  have hlent : (to1 ++ to2).length = from1.length + from2.length := by
    rw [List.length_append, h1, h2]
  have e3 := GL_context_shifting_patch c (from1 ++ from2) (to1 ++ to2)
    (from1.length + from2.length) h (by omega) (by omega)
    (by rw [← hlen, List.take_length]; exact hmem)
    (by rw [← hlent, List.take_length]; exact hmemt)
  have hz : (from1 ++ from2).zip (to1 ++ to2) = from1.zip to1 ++ from2.zip to2 :=
    List.zip_append h1
  have t3 : ((from1 ++ from2).zip (to1 ++ to2)).take (from1.length + from2.length) =
      from1.zip to1 ++ from2.zip to2 := by
    rw [hz]
    exact List.take_of_length_le (by simp [h1, h2])
  rw [t3, patch_append] at e3
  refine ⟨⟨_, _, e1, e2, e3, ?_⟩, ?_⟩
  · intro k hk
    have hfst : ((from1 ++ from2).zip (to1 ++ to2)).map Prod.fst = from1 ++ from2 := by
      have := zip_take_fst (from1 ++ from2) (to1 ++ to2) (from1.length + from2.length)
        (by omega) (by omega)
      rw [t3, ← hz, ← hlen, List.take_length] at this
      exact this
    have := patch_get_mem c.shifting ((from1 ++ from2).zip (to1 ++ to2)) k
      (by rw [hfst]; exact hk) (by rw [h]; exact hmem k hk)
    rw [hz, patch_append] at this
    rw [hz]
    exact this
  · intro from_ to_
    simp [GL_context_shifting, for_loop]

set_option maxRecDepth 100000 in
/-- C26 at `ctx4` with the mappings `3 -> 5, 7 -> 2` and `3 -> 9`. -/
theorem GL_context_shifting_compose_witness :
    (∃ c1 c2, GL_context_shifting ctx4 (some [3, 7]) [5, 2] [3, 7].length = some c1 ∧
      GL_context_shifting c1 (some [3]) [9] [3].length = some c2 ∧
      GL_context_shifting ctx4 (some ([3, 7] ++ [3])) ([5, 2] ++ [9])
        ([3, 7].length + [3].length) = some c2 ∧
      ∀ k, k ∈ [3, 7] ++ [3] →
        ∃ l1 t l2, ([3, 7] ++ [3]).zip ([5, 2] ++ [9]) = l1 ++ (k, t) :: l2 ∧
          k ∉ l2.map Prod.fst ∧ c2.shifting[k]? = some t) ∧
    ∀ from_ to_ : List Nat, GL_context_shifting ctx4 (some from_) to_ 0 = some ctx4 :=
  GL_context_shifting_compose ctx4 [3, 7] [5, 2] [3] [9] (by decide) (by decide) (by decide)
    (by decide) (by decide) (by decide) (by decide)

/-! ## Idempotence of `GL_context_blit` -/

theorem shade_shade (c : GL_Context_t) (old : GL_Color_t) (p : Option GL_Pixel_t) :
    shade c (shade c old p) p = shade c old p := by
  cases p with
  | none => rfl
  | some p =>
    simp only [shade]
    split
    · rfl
    · simp only [List.getD_eq_getElem?_getD]
      cases c.palette.colors[c.shifting[p]?.getD 0]? <;> rfl

theorem GL_context_blit_nat_twice (c : GL_Context_t) (h : c.WF) (surface : GL_Surface_t)
    (hs : surface.WF) (w hgt tx ty px py : Nat)
    (htx : tx + w ≤ surface.width) (hty : ty + hgt ≤ surface.height)
    (hty0 : ty < surface.height)
    (hpx : px + w ≤ c.width) (hpy : py + hgt ≤ c.height) (hpy0 : py < c.height) :
    ∃ V, GL_context_blit c surface ⟨tx, ty, w, hgt⟩ ⟨px, py⟩ = some { c with vram := V } ∧
      GL_context_blit { c with vram := V } surface ⟨tx, ty, w, hgt⟩ ⟨px, py⟩ =
        some { c with vram := V } := by
  obtain ⟨V, hV, hlen, hcells⟩ :=
    GL_context_blit_nat c h surface hs w hgt tx ty px py htx hty hty0 hpx hpy hpy0
  have h' : ({ c with vram := V } : GL_Context_t).WF := WF_vram c h V hlen
  obtain ⟨V2, hV2, hlen2, hcells2⟩ :=
    GL_context_blit_nat _ h' surface hs w hgt tx ty px py htx hty hty0 hpx hpy hpy0
  simp only at hV2 hlen2 hcells2
  have hEq : V2 = V := by
    apply List.ext_getElem?
    intro k
    by_cases hk : k < c.vram.length
    · have hW : 0 < c.width := by
        rcases Nat.eq_zero_or_pos c.width with h0 | h0
        · rw [h.vram_length, h0] at hk
          simp at hk
        · exact h0
      have hkk : c.width * (k / c.width) + k % c.width = k := Nat.div_add_mod k c.width
      have hm : k % c.width < c.width := Nat.mod_lt _ hW
      rw [← hkk, hcells2 _ _ hm]
      unfold boxAfter
      rw [hcells _ _ hm]
      unfold boxAfter
      by_cases hin : py ≤ k / c.width ∧ k / c.width < py + hgt ∧ px ≤ k % c.width ∧
          k % c.width < px + w
      · rw [if_pos hin, if_pos hin]
        cases c.vram[c.width * (k / c.width) + k % c.width]? with
        | none => rfl
        | some old =>
          simp only [Option.map_some', Option.some.injEq]
          exact shade_shade c old _
      · rw [if_neg hin, if_neg hin]
    · rw [List.getElem?_eq_none (by omega), List.getElem?_eq_none (by omega)]
  rw [hEq] at hV2
  exact ⟨V, hV, hV2⟩

/-- C25: when the tile lies inside a well-formed surface and the tile-sized box at
`position` lies inside a well-formed context, `GL_context_blit` returns a context on
which the same call returns that same context: blitting twice leaves the VRAM that
blitting once leaves. -/
theorem GL_context_blit_idempotent (c : GL_Context_t) (surface : GL_Surface_t)
    (tile : GL_Rectangle_t) (position : GL_Point_t) (h : c.WF) (hs : surface.WF)
    (ht : tile_inside surface tile) (hb : box_inside c position tile.width tile.height) :
    ∃ c', GL_context_blit c surface tile position = some c' ∧
      GL_context_blit c' surface tile position = some c' := by
  obtain ⟨tx, ty, w, hgt⟩ := tile
  obtain ⟨px, py⟩ := position
  obtain ⟨h1, h2, h3, h4, h5⟩ := ht
  obtain ⟨b1, b2, b3, b4, b5⟩ := hb
  simp only at h1 h2 h3 h4 h5 b1 b2 b3 b4 b5
  obtain ⟨tx, rfl⟩ := Int.eq_ofNat_of_zero_le h1
  obtain ⟨ty, rfl⟩ := Int.eq_ofNat_of_zero_le h2
  obtain ⟨px, rfl⟩ := Int.eq_ofNat_of_zero_le b1
  obtain ⟨py, rfl⟩ := Int.eq_ofNat_of_zero_le b2
  obtain ⟨V, hV, hV2⟩ := GL_context_blit_nat_twice c h surface hs w hgt tx ty px py
    (by exact_mod_cast h4) (by exact_mod_cast h5) (by exact_mod_cast h3)
    (by exact_mod_cast b4) (by exact_mod_cast b5) (by exact_mod_cast b3)
  exact ⟨_, hV, hV2⟩

/-- C25 at the 2x2 tile at `(0, 0)` of `surf3` (one transparent pixel) drawn at `(1, 2)`
of `ctx4`. -/
theorem GL_context_blit_idempotent_witness :
    ∃ c', GL_context_blit ctx4 surf3 ⟨0, 0, 2, 2⟩ ⟨1, 2⟩ = some c' ∧
      GL_context_blit c' surf3 ⟨0, 0, 2, 2⟩ ⟨1, 2⟩ = some c' :=
  GL_context_blit_idempotent ctx4 surf3 ⟨0, 0, 2, 2⟩ ⟨1, 2⟩ ctx4_WF surf3_WF (by decide)
    (by decide)

/-! ## The scan of `GL_context_blit_r` -/

theorem traced_loop {σ τ : Type} (obs : σ → τ) (body : σ → Option σ) :
    ∀ (n : Nat) (o : Nat → τ) (s : σ) (log : List τ) (s' : σ),
      for_loop body n s = some s' →
      (∀ t st, t < n → for_loop body t s = some st → obs st = o t) →
      for_loop (traced obs body) n (s, log) = some (s', log ++ (List.range n).map o) := by
  intro n
  induction n with
  | zero =>
    intro o s log s' h _
    simp only [for_loop, Option.some.injEq] at h
    simp [for_loop, h]
  | succ n ih =>
    intro o s log s' h ho
    simp only [for_loop, Option.bind_eq_bind, Option.bind_eq_some] at h
    obtain ⟨s1, hb, hr⟩ := h
    have h0 : obs s = o 0 := ho 0 s (by omega) rfl
    have h1 := ih (fun t => o (t + 1)) s1 (log ++ [obs s]) s' hr (fun t st ht hst =>
      ho (t + 1) st (by omega) (by
        simp only [for_loop, hb, Option.bind_eq_bind, Option.some_bind]
        exact hst))
    simp only [for_loop, traced, hb, Option.map_some', Option.bind_eq_bind, Option.some_bind]
    rw [h1, List.range_succ_eq_map, List.map_cons, List.map_map, h0]
    simp [Function.comp]

theorem blit_r_pixels_x (c : GL_Context_t) (surface : GL_Surface_t) (tile : GL_Rectangle_t)
    (hw hh : Nat) (cc ss y : ℚ) :
    ∀ (t k : Nat) (st st' : ℚ × Int × List GL_Color_t), st.1 = blit_r_x hw k →
      for_loop (blit_r_pixel c surface tile hw hh cc ss y) t st = some st' →
      st'.1 = blit_r_x hw (k + t) := by
  intro t
  induction t with
  | zero =>
    intro k st st' hk h
    simp only [for_loop, Option.some.injEq] at h
    rw [← h, hk, Nat.add_zero]
  | succ t ih =>
    intro k st st' hk h
    simp only [for_loop, Option.bind_eq_bind, Option.bind_eq_some] at h
    obtain ⟨s1, hb, hr⟩ := h
    have h1 : s1.1 = f32 (st.1 + 1) := by
      simp only [blit_r_pixel] at hb
      split at hb
      · simp only [Option.bind_eq_bind, Option.bind_eq_some, Option.pure_def,
          Option.some.injEq] at hb
        obtain ⟨_, _, _, _, _, _, hv⟩ := hb
        rw [← hv]
      · simp only [Option.bind_eq_bind, Option.pure_def, Option.some_bind,
          Option.some.injEq] at hb
        rw [← hb]
    have h2 : s1.1 = blit_r_x hw (k + 1) := by
      rw [h1, hk]
      rfl
    rw [ih (k + 1) s1 st' h2 hr, Nat.add_assoc, Nat.add_comm 1 t]

theorem blit_r_rows_scan (c : GL_Context_t) (surface : GL_Surface_t) (tile : GL_Rectangle_t)
    (width hw hh skip : Nat) (cc ss : ℚ) :
    ∀ (n k : Nat) (st : ℚ × Int × List GL_Color_t) (log : List (ℚ × ℚ))
      (st' : ℚ × Int × List GL_Color_t), st.1 = blit_r_x hh k →
      for_loop (blit_r_row c surface tile width hw hh skip cc ss) n st = some st' →
      for_loop (blit_r_row_scan c surface tile width hw hh skip cc ss) n (st, log) =
        some (st', log ++ (List.range n).flatMap fun i =>
          (List.range width).map fun j : Nat => (blit_r_x hw j, blit_r_x hh (k + i))) := by
  intro n
  induction n with
  | zero =>
    intro k st log st' _ h
    simp only [for_loop, Option.some.injEq] at h
    simp [for_loop, h]
  | succ n ih =>
    intro k st log st' hk h
    simp only [for_loop, Option.bind_eq_bind, Option.bind_eq_some] at h
    obtain ⟨s1, hb, hr⟩ := h
    simp only [blit_r_row, Option.bind_eq_bind, Option.bind_eq_some, Option.pure_def,
      Option.some.injEq] at hb
    obtain ⟨r, hin, rfl⟩ := hb
    have hlog := traced_loop (fun s : ℚ × Int × List GL_Color_t => (s.1, st.1))
      (blit_r_pixel c surface tile hw hh cc ss st.1) width
      (fun j : Nat => (blit_r_x hw j, blit_r_x hh k)) _ log r hin (fun t s' _ hs' => by
        have := blit_r_pixels_x c surface tile hw hh cc ss st.1 t 0 _ s' rfl hs'
        rw [Nat.zero_add] at this
        simp only [this, hk])
    have hstep : blit_r_row_scan c surface tile width hw hh skip cc ss (st, log) =
        some ((f32 (st.1 + 1), r.2.1 + skip, r.2.2),
          log ++ (List.range width).map fun j : Nat => (blit_r_x hw j, blit_r_x hh k)) := by
      simp only [blit_r_row_scan, hlog, Option.bind_eq_bind, Option.some_bind,
        Option.pure_def]
    have hk1 : f32 (st.1 + 1) = blit_r_x hh (k + 1) := by
      rw [hk]
      rfl
    have hrest := ih (k + 1) (f32 (st.1 + 1), r.2.1 + skip, r.2.2)
      (log ++ (List.range width).map fun j : Nat => (blit_r_x hw j, blit_r_x hh k))
      st' hk1 hr
    simp only [for_loop, hstep, Option.bind_eq_bind, Option.some_bind]
    rw [hrest, List.range_succ_eq_map, List.flatMap_cons, List.flatMap_map,
      List.append_assoc]
    have e : ∀ i : Nat, k + 1 + i = k + Nat.succ i := by
      intro i
      omega
    simp only [e, Nat.add_zero]

/-- While the width is at most `2^25`, the counter `x` of line 225 takes the integer
values `-hw + j`: every addition of line 243 is exact. -/
theorem blit_r_x_offsets (w j : Nat) (hw : w ≤ 2 ^ 25) (hj : j < w) :
    blit_r_x (w / 2) j = -((w / 2 : Nat) : ℚ) + (j : ℚ) := by
  rw [blit_r_x_eq (w / 2) j (by omega) (by omega), Int.cast_sub, Int.cast_natCast,
    Int.cast_natCast]
  ring

theorem scan_offsets_eq (w hgt : Nat) (hw : w ≤ 2 ^ 25) (hh : hgt ≤ 2 ^ 25) :
    ((List.range hgt).flatMap fun i : Nat =>
        (List.range w).map fun j : Nat => (blit_r_x (w / 2) j, blit_r_x (hgt / 2) (0 + i))) =
      (List.range hgt).flatMap fun i : Nat =>
        (List.range w).map fun j : Nat =>
          (-((w / 2 : Nat) : ℚ) + (j : ℚ), -((hgt / 2 : Nat) : ℚ) + (i : ℚ)) := by
  simp only [List.flatMap]
  congr 1
  apply List.map_congr_left
  intro i hi
  apply List.map_congr_left
  intro j hj
  rw [Nat.zero_add, blit_r_x_offsets w j hw (List.mem_range.mp hj),
    blit_r_x_offsets hgt i hh (List.mem_range.mp hi)]

theorem box_offsets_eq (w hgt : Nat) (a b : ℚ) :
    ((List.range hgt).flatMap fun i : Nat =>
        (List.range w).map fun j : Nat => (a + (j : ℚ), b + (i : ℚ))) =
      (List.product (List.range hgt) (List.range w)).map
        fun p : Nat × Nat => (a + (p.2 : ℚ), b + (p.1 : ℚ)) := by
  show _ = List.map _ ((List.range hgt).flatMap fun i => (List.range w).map (Prod.mk i))
  rw [List.map_flatMap]
  simp only [List.map_map]
  rfl

theorem box_offsets_injective (a b : ℚ) :
    Function.Injective fun p : Nat × Nat => (a + (p.2 : ℚ), b + (p.1 : ℚ)) := by
  intro p q hpq
  simp only [Prod.mk.injEq, add_right_inj, Nat.cast_inj] at hpq
  exact Prod.ext hpq.2 hpq.1

/-- C23, amended: for a tile inside the surface, at most `2^25` pixels wide and high,
whose box of `width x height` cells at `position - (hw, hh)` lies in the context, with
`hw = width / 2` and `hh = height / 2` (integer halves), `GL_context_blit_r` runs its inner body once for each offset
`(-hw + j, -hh + i)` with `j < width` and `i < height`, row by row: the offsets range over
`[-hw, -hw + width) x [-hh, -hh + height)`, each visited exactly once, and no cell outside
the box is changed. -/
theorem GL_context_blit_r_scan_box (c : GL_Context_t) (surface : GL_Surface_t)
    (tile : GL_Rectangle_t) (position : GL_Point_t) (cc ss : ℚ) (h : c.WF)
    (hs : surface.WF) (ht : tile_inside surface tile)
    (hb : box_inside c ⟨position.x - ((tile.width / 2 : Nat) : Int),
      position.y - ((tile.height / 2 : Nat) : Int)⟩ tile.width tile.height)
    (hwb : tile.width ≤ 2 ^ 25) (hhb : tile.height ≤ 2 ^ 25) :
    ∃ c' log, GL_context_blit_r c surface tile position cc ss = some c' ∧
      GL_context_blit_r_scan c surface tile position cc ss = some (c', log) ∧
      log = ((List.range tile.height).flatMap fun i : Nat =>
        (List.range tile.width).map fun j : Nat =>
          (-((tile.width / 2 : Nat) : ℚ) + (j : ℚ), -((tile.height / 2 : Nat) : ℚ) + (i : ℚ))) ∧
      log.Nodup ∧ log.length = tile.width * tile.height ∧
      (∀ x y : ℚ, (x, y) ∈ log ↔ ∃ i j : Nat, i < tile.height ∧ j < tile.width ∧
        x = -((tile.width / 2 : Nat) : ℚ) + (j : ℚ) ∧
        y = -((tile.height / 2 : Nat) : ℚ) + (i : ℚ)) ∧
      (∀ x y : Nat, x < c.width → y < c.height →
        ¬ (position.x - ((tile.width / 2 : Nat) : Int) ≤ x ∧
            (x : Int) < position.x - ((tile.width / 2 : Nat) : Int) + tile.width ∧
            position.y - ((tile.height / 2 : Nat) : Int) ≤ y ∧
            (y : Int) < position.y - ((tile.height / 2 : Nat) : Int) + tile.height) →
        c'.cell x y = c.cell x y) := by
  obtain ⟨V, hV, _, _, hframe⟩ := GL_context_blit_r_cells c surface tile position cc ss h hs
    ht hb
  obtain ⟨b1, b2, b3, b4, b5⟩ := hb
  simp only at b1 b2 b3 b4 b5
  obtain ⟨px, hX⟩ := Int.eq_ofNat_of_zero_le b1
  obtain ⟨py, hY⟩ := Int.eq_ofNat_of_zero_le b2
  rw [hX] at b4
  rw [hY] at b3 b5
  have hpx : px + tile.width ≤ c.width := by exact_mod_cast b4
  have hpy : py + tile.height ≤ c.height := by exact_mod_cast b5
  have hpy0 : py < c.height := by exact_mod_cast b3
  obtain ⟨st, hst, _, _⟩ := blit_r_rows_spec c h surface hs tile ht tile.width tile.height
    (tile.width / 2) (tile.height / 2) px py cc ss hpx hpy
  have hscan := blit_r_rows_scan c surface tile tile.width (tile.width / 2) (tile.height / 2)
    (c.width - tile.width) cc ss tile.height 0 _ [] st rfl hst
  rw [scan_offsets_eq tile.width tile.height hwb hhb] at hscan
  have e2 : to_size_t ((c.width : Int) - (tile.width : Int)) = c.width - tile.width :=
    to_size_t_sub _ _ (by omega) h.width_lt
  have hhlt := h.height_lt
  have e3 : to_size_t (position.y - ((tile.height / 2 : Nat) : Int)) = py := by
    rw [hY, to_size_t_natCast _ (by omega)]
  have e4 : ((c.width * py : Nat) : Int) + position.x - ((tile.width / 2 : Nat) : Int) =
      ((c.width * py + px : Nat) : Int) := by
    rw [Nat.cast_add]
    linarith
  have hV2 : GL_context_blit_r c surface tile position cc ss =
      some { c with vram := st.2.2 } := by
    simp only [GL_context_blit_r, e2, e3, peek_natCast, h.rows_eq py hpy0, Option.map_some',
      e4, Option.bind_eq_bind, Option.some_bind, hst, Option.pure_def]
  have hL : GL_context_blit_r_scan c surface tile position cc ss =
      some ({ c with vram := st.2.2 }, [] ++ ((List.range tile.height).flatMap fun i : Nat =>
        (List.range tile.width).map fun j : Nat =>
          (-((tile.width / 2 : Nat) : ℚ) + (j : ℚ),
            -((tile.height / 2 : Nat) : ℚ) + (i : ℚ)))) := by
    simp only [GL_context_blit_r_scan, e2, e3, peek_natCast, h.rows_eq py hpy0,
      Option.map_some', e4, Option.bind_eq_bind, Option.some_bind, hscan, Option.pure_def]
  rw [List.nil_append] at hL
  have hc : ({ c with vram := st.2.2 } : GL_Context_t) = { c with vram := V } := by
    rw [hV2] at hV
    exact Option.some.inj hV
  refine ⟨_, _, hV2, hL, rfl, ?_, ?_, ?_, ?_⟩
  · rw [box_offsets_eq]
    exact (List.Nodup.product (List.nodup_range _) (List.nodup_range _)).map
      (box_offsets_injective _ _)
  · have hlen := List.length_product (List.range tile.height) (List.range tile.width)
    rw [List.length_range, List.length_range] at hlen
    rw [box_offsets_eq, List.length_map]
    exact hlen.trans (Nat.mul_comm _ _)
  · intro x y
    simp only [List.mem_flatMap, List.mem_map, List.mem_range, Prod.mk.injEq]
    constructor
    · rintro ⟨i, hi, j, hj, rfl, rfl⟩
      exact ⟨i, j, hi, hj, rfl, rfl⟩
    · rintro ⟨i, j, hi, hj, rfl, rfl⟩
      exact ⟨i, hi, j, hj, rfl, rfl⟩
  · rw [hc]
    exact hframe

/-- C23, amended, at the 3x2 tile of `surf3` (odd width, `hw = 1`, `hh = 1`) turned by a
quarter and centred at `(1, 1)` of `ctx4`. -/
theorem GL_context_blit_r_scan_box_witness :
    ∃ c' log, GL_context_blit_r ctx4 surf3 ⟨0, 0, 3, 2⟩ ⟨1, 1⟩ 0 1 = some c' ∧
      GL_context_blit_r_scan ctx4 surf3 ⟨0, 0, 3, 2⟩ ⟨1, 1⟩ 0 1 = some (c', log) ∧
      log = ((List.range (⟨0, 0, 3, 2⟩ : GL_Rectangle_t).height).flatMap fun i : Nat =>
        (List.range (⟨0, 0, 3, 2⟩ : GL_Rectangle_t).width).map fun j : Nat =>
          (-(((⟨0, 0, 3, 2⟩ : GL_Rectangle_t).width / 2 : Nat) : ℚ) + (j : ℚ),
            -(((⟨0, 0, 3, 2⟩ : GL_Rectangle_t).height / 2 : Nat) : ℚ) + (i : ℚ))) ∧
      log.Nodup ∧
      log.length = (⟨0, 0, 3, 2⟩ : GL_Rectangle_t).width *
        (⟨0, 0, 3, 2⟩ : GL_Rectangle_t).height ∧
      (∀ x y : ℚ, (x, y) ∈ log ↔
        ∃ i j : Nat, i < (⟨0, 0, 3, 2⟩ : GL_Rectangle_t).height ∧
          j < (⟨0, 0, 3, 2⟩ : GL_Rectangle_t).width ∧
          x = -(((⟨0, 0, 3, 2⟩ : GL_Rectangle_t).width / 2 : Nat) : ℚ) + (j : ℚ) ∧
          y = -(((⟨0, 0, 3, 2⟩ : GL_Rectangle_t).height / 2 : Nat) : ℚ) + (i : ℚ)) ∧
      (∀ x y : Nat, x < ctx4.width → y < ctx4.height →
        ¬ ((⟨1, 1⟩ : GL_Point_t).x - (((⟨0, 0, 3, 2⟩ : GL_Rectangle_t).width / 2 : Nat) : Int) ≤ x ∧
            (x : Int) < (⟨1, 1⟩ : GL_Point_t).x -
              (((⟨0, 0, 3, 2⟩ : GL_Rectangle_t).width / 2 : Nat) : Int) +
              (⟨0, 0, 3, 2⟩ : GL_Rectangle_t).width ∧
            (⟨1, 1⟩ : GL_Point_t).y -
              (((⟨0, 0, 3, 2⟩ : GL_Rectangle_t).height / 2 : Nat) : Int) ≤ y ∧
            (y : Int) < (⟨1, 1⟩ : GL_Point_t).y -
              (((⟨0, 0, 3, 2⟩ : GL_Rectangle_t).height / 2 : Nat) : Int) +
              (⟨0, 0, 3, 2⟩ : GL_Rectangle_t).height) →
        c'.cell x y = ctx4.cell x y) :=
  GL_context_blit_r_scan_box ctx4 surf3 ⟨0, 0, 3, 2⟩ ⟨1, 1⟩ 0 1 ctx4_WF surf3_WF (by decide)
    (by decide) (by decide) (by decide)

/-- C23 as stated fails for an odd width: for the 3x1 tile of `surf3` (`hw = 1`) drawn
unrotated at `(1, 0)` of `ctx4` the inner body runs with the offsets `x = -1, 0, 1`; the
offset `x = 1 = +hw` is scanned although it is not in `[-hw, +hw)`, and the three cells
`(0, 0)`, `(1, 0)`, `(2, 0)` are the box, the last one plotted from the offset `+hw`.
The bound on the size of the amended statement is needed: for a width of 33554436
(`hw = 16777218`) the counter `x` starts at -16777218 and its next value is -16777216,
the sum `x + 1.0f` of line 243 being rounded to binary32. -/
theorem blit_r_scan_odd_counterexample :
    (GL_context_blit_r_scan ctx4 surf3 ⟨0, 0, 3, 1⟩ ⟨1, 0⟩ 1 0).map Prod.snd =
        some [(-1, 0), (0, 0), (1, 0)] ∧
      ((⟨0, 0, 3, 1⟩ : GL_Rectangle_t).width / 2 = 1) ∧
      ¬ ((1 : ℚ) < (((⟨0, 0, 3, 1⟩ : GL_Rectangle_t).width / 2 : Nat) : ℚ)) ∧
      ctx4.cell 2 0 = some ⟨1, 2, 3, 4⟩ ∧
      (GL_context_blit_r ctx4 surf3 ⟨0, 0, 3, 1⟩ ⟨1, 0⟩ 1 0).bind (fun c' => c'.cell 2 0) =
        some white ∧
      (33554436 / 2 = 16777218) ∧
      blit_r_x 16777218 0 = -16777218 ∧ blit_r_x 16777218 1 = -16777216 := by
  refine ⟨by decide!, by decide, by decide!, by decide, by decide!, by decide, by decide!,
    by decide!⟩

/-! ## `grid_stride` -/

/-- C29 fails on the code: on the 2x2 grid that `grid_new(2, 2, 0)` returns,
`grid_stride` from the cell `(1, 1)` (inside the grid, linear offset 3) with the number 7
or the table `7, 7` and the amount 2 has the end pointer `3 + min(4, 2) = 5` and writes
at the offset `4 = width * height`, outside the block (no result); when one more cell
follows the four cells of the grid in memory, the call overwrites it.  With the
amount 1 the call returns and writes the cell `(1, 1)` only. -/
theorem grid_stride_overrun :
    grid_new 2 2 (Lua_Value.number 0) (some [5, 5, 5, 5]) (some [1, 1]) =
        some (Lua_Result.returned grid22) ∧
      grid_stride grid22 1 1 (Lua_Value.number 7) 2 = none ∧
      grid_stride grid22 1 1 (Lua_Value.table [7, 7]) 2 = none ∧
      grid_stride grid22_block 1 1 (Lua_Value.number 7) 2 =
        some { grid22_block with data := [0, 0, 0, 7, 7] } ∧
      grid_stride grid22_block 1 1 (Lua_Value.table [7, 7]) 2 =
        some { grid22_block with data := [0, 0, 0, 7, 7] } ∧
      grid_stride grid22 1 1 (Lua_Value.number 7) 1 =
        some { grid22 with data := [0, 0, 0, 7] } := by
  refine ⟨by decide!, by decide!, by decide!, by decide!, by decide!, by decide!⟩

/-! ## The key queries of `input.c` -/

/-- The key queries on a key code in the range of `int`, for every key table, called
with one argument: `input_is_key_up` returns `!b` exactly when `input_is_key_down`
returns `b` (for every Lua integer); for a key code in
`[Display_Keys_t_First, Display_Keys_t_Last]` whose entry exists the four functions
return the flags of the entry (`is_key_up` the negation of `down`); for a key code
outside the range the four functions return without reading the table (whatever the
table, the empty one included): `false` for `is_key_down`, `is_key_pressed` and
`is_key_released`, `true` for `is_key_up`. -/
theorem input_is_key_up_negates (Display_Keys_t_First Display_Keys_t_Last : Int)
    (keys_state : List Display_Key_State_t) (key : Int) :
    (∀ b : Bool,
      input_is_key_down Display_Keys_t_First Display_Keys_t_Last keys_state 1 key =
          some (Lua_Result.returned b) ↔
        input_is_key_up Display_Keys_t_First Display_Keys_t_Last keys_state 1 key =
          some (Lua_Result.returned (!b))) ∧
    (-(2 ^ 31) ≤ key ∧ key < 2 ^ 31 →
      Display_Keys_t_First ≤ key ∧ key ≤ Display_Keys_t_Last →
      ∀ st, peek keys_state key = some st →
        input_is_key_down Display_Keys_t_First Display_Keys_t_Last keys_state 1 key =
          some (Lua_Result.returned st.down) ∧
        input_is_key_up Display_Keys_t_First Display_Keys_t_Last keys_state 1 key =
          some (Lua_Result.returned (!st.down)) ∧
        input_is_key_pressed Display_Keys_t_First Display_Keys_t_Last keys_state 1 key =
          some (Lua_Result.returned st.pressed) ∧
        input_is_key_released Display_Keys_t_First Display_Keys_t_Last keys_state 1 key =
          some (Lua_Result.returned st.released)) ∧
    (-(2 ^ 31) ≤ key ∧ key < 2 ^ 31 →
      ¬ (Display_Keys_t_First ≤ key ∧ key ≤ Display_Keys_t_Last) →
      ∀ any : List Display_Key_State_t,
        input_is_key_down Display_Keys_t_First Display_Keys_t_Last any 1 key =
          some (Lua_Result.returned false) ∧
        input_is_key_up Display_Keys_t_First Display_Keys_t_Last any 1 key =
          some (Lua_Result.returned true) ∧
        input_is_key_pressed Display_Keys_t_First Display_Keys_t_Last any 1 key =
          some (Lua_Result.returned false) ∧
        input_is_key_released Display_Keys_t_First Display_Keys_t_Last any 1 key =
          some (Lua_Result.returned false)) := by
  refine ⟨?_, ?_, ?_⟩
  · intro b
    by_cases hr : Display_Keys_t_First ≤ to_int32 key ∧ to_int32 key ≤ Display_Keys_t_Last
    · cases hk : peek keys_state (to_int32 key) with
      | none => simp [input_is_key_down, input_is_key_up, hr, hk]
      | some st => simp [input_is_key_down, input_is_key_up, hr, hk]
    · simp [input_is_key_down, input_is_key_up, hr]
  · intro hi hr st hk
    have e := to_int32_eq key hi.1 hi.2
    simp [input_is_key_down, input_is_key_up, input_is_key_pressed, input_is_key_released,
      e, hr, hk]
  · intro hi hr any
    have e := to_int32_eq key hi.1 hi.2
    simp [input_is_key_down, input_is_key_up, input_is_key_pressed, input_is_key_released,
      e, hr]

/-- C30 fails in the code for a key code beyond the range of `int`.  With the keys
`[0, 9]` and key 1 held down, the key code `4294967297 = 2^32 + 1` is outside the range,
yet `is_key_down` returns `true` and `is_key_up` returns `false`: the Lua integer is
narrowed to `int` (lines 72, 87, 102, 117) before the range test, which sees 1 and lets
`keys_state[1]` be read (on an empty table the read has no result).  The key code 10,
in the range of `int`, is rejected. -/
theorem input_is_key_down_narrowed :
    ¬ ((0 : Int) ≤ 4294967297 ∧ (4294967297 : Int) ≤ 9) ∧
    to_int32 4294967297 = 1 ∧
    peek keys10 1 = some ⟨true, false, false⟩ ∧
    input_is_key_down 0 9 keys10 1 4294967297 = some (Lua_Result.returned true) ∧
    input_is_key_up 0 9 keys10 1 4294967297 = some (Lua_Result.returned false) ∧
    input_is_key_down 0 9 [] 1 4294967297 = none ∧
    input_is_key_down 0 9 keys10 1 10 = some (Lua_Result.returned false) ∧
    input_is_key_down 0 9 [] 1 10 = some (Lua_Result.returned false) := by
  refine ⟨by decide, by decide, by decide, by decide, by decide, by decide, by decide,
    by decide⟩

end TOFU
